import Mathlib

/-!
# LitePCIe kernel driver: DMA ring engine

A shallow embedding of the counter reconciliation, the transfer layer and the
control paths of `software/kernel/main.c`, with the properties of the
specification stated over it.

Conventions of the embedding.

* `int64_t` counters are `Int` values kept in the signed 64-bit range by
  `toInt64`; C `int` values are kept in the signed 32-bit range by `toInt32`;
  bit operations are done on the unsigned pattern (`toUInt64`).
* `DMA_BUFFER_COUNT` and `DMA_BUFFER_SIZE` come from `config.h`, which is not
  among the sources; they are the fields of `dma_config`.  They are plain `int`
  constants in the C expressions that use them.
* The other constants of headers that are not among the sources
  (`DMA_BUFFER_PER_IRQ`, the descriptor flags, `DMA_BUFFER_TOTAL_SIZE`) are fields
  of `dma_table_config` and `mmap_config`; register addresses are the symbolic
  names of `csr_reg`.
-/

namespace LitePCIe

/-! ## Machine integers -/

/-- Value of a mathematical integer stored in a C `int` (32-bit two's complement). -/
def toInt32 (x : Int) : Int := (x + 2 ^ 31) % 2 ^ 32 - 2 ^ 31

/-- Value of a mathematical integer stored in an `int64_t`. -/
def toInt64 (x : Int) : Int := (x + 2 ^ 63) % 2 ^ 64 - 2 ^ 63

/-- Bit pattern of a signed value converted to `unsigned long` (64 bits). -/
def toUInt64 (x : Int) : Nat := (x % 2 ^ 64).toNat

/-- Kernel `ilog2`: position of the highest set bit (0 for arguments below 2). -/
def ilog2_aux : Nat → Nat → Nat
  | 0, _ => 0
  | fuel + 1, n => if 2 ≤ n then ilog2_aux fuel (n / 2) + 1 else 0

/-- Kernel `ilog2(n)`. -/
def ilog2 (n : Nat) : Nat := ilog2_aux n n

/-! ## Configuration -/

/-- The two ring constants of `config.h` (not among the sources), taken as parameters. -/
structure dma_config where
  DMA_BUFFER_COUNT : Nat
  DMA_BUFFER_SIZE : Nat
deriving DecidableEq, Repr

/-! ## Counter reconciliation (`litepcie_interrupt`) -/

/-- The constant `((~(DMA_BUFFER_COUNT - 1) << 16) & 0xffffffffffff0000)`:
`~` and `<<` are evaluated in `int`, the result is converted to `unsigned long`
for the `&` with the 64-bit literal. -/
def hw_count_mask (N : Nat) : Nat :=
  toUInt64 (toInt32 ((-((N : Int) - 1) - 1) * 2 ^ 16)) &&& 0xffffffffffff0000

/-- The expression `(loop_status >> 16) * DMA_BUFFER_COUNT + (loop_status & 0xffff)`,
evaluated in `unsigned int`. -/
def loop_status_raw (N : Nat) (loop_status : Nat) : Nat :=
  let status : Nat := loop_status % 2 ^ 32
  ((status >>> 16) * N + (status &&& 0xffff)) % 2 ^ 32

/-- The `int` constant `(1 << (ilog2(DMA_BUFFER_COUNT) + 16))`. -/
def hw_count_carry (N : Nat) : Int := toInt32 (2 ^ (ilog2 N + 16))

/-- Value of `hw_count` after the `&=` and `|=` statements of the handler. -/
def hw_count_replace (N : Nat) (hw_count : Int) (loop_status : Nat) : Int :=
  let masked : Int := toInt64 ((toUInt64 hw_count &&& hw_count_mask N : Nat) : Int)
  toInt64 ((toUInt64 masked ||| loop_status_raw N loop_status : Nat) : Int)

/-- One direction of the interrupt handler body: the four statements that fold
`loop_status` into `(hw_count, hw_count_last)`. -/
def reconcile (N : Nat) (hw_count hw_count_last : Int) (loop_status : Nat) : Int × Int :=
  let hw1 := hw_count_replace N hw_count loop_status
  let hw2 := if hw_count_last > hw1 then toInt64 (hw1 + hw_count_carry N) else hw1
  (hw2, hw2)

/-- The status word whose 16-bit fields are `index` (low) and `count` (high). -/
def status_word (index count : Nat) : Nat := count * 2 ^ 16 + index

/-- Successive `(hw_count, hw_count_last)` states of one direction over a
sequence of completion interrupts. -/
def reconcile_run (N : Nat) : Int × Int → List Nat → List (Int × Int)
  | _, [] => []
  | st, s :: rest =>
    let st1 := reconcile N st.1 st.2 s
    st1 :: reconcile_run N st1 rest

/-- The `+=` of the handler leaves the `int64_t` range at this interrupt. -/
def carry_overflows (N : Nat) (hw_count hw_count_last : Int) (loop_status : Nat) : Bool :=
  let hw1 := hw_count_replace N hw_count loop_status
  decide (hw_count_last > hw1 ∧ ¬ (-(2 : Int) ^ 63 ≤ hw1 + hw_count_carry N ∧
    hw1 + hw_count_carry N < 2 ^ 63))

/-- No interrupt of the sequence overflows the 64-bit counter. -/
def no_overflow (N : Nat) : Int × Int → List Nat → Bool
  | _, [] => true
  | st, s :: rest =>
    !carry_overflows N st.1 st.2 s && no_overflow N (reconcile N st.1 st.2 s) rest

/-- The reconciliation as the specification words it: keep the bits of
`hardware_count` above the `w` low bits, put `raw` in the low bits, add `2 ^ w` when
the result is below `hardware_count_last`, then copy the result into
`hardware_count_last`. -/
def reconcile_spec (w raw : Nat) (hardware_count hardware_count_last : Int) : Int × Int :=
  let v : Int := hardware_count - hardware_count % 2 ^ w + raw
  let next : Int := if hardware_count_last > v then v + 2 ^ w else v
  (next, next)

/-! ## Channel state -/

/-- The counters and flags of `struct litepcie_dma_chan`. -/
structure litepcie_dma_chan where
  reader_hw_count : Int
  reader_hw_count_last : Int
  reader_sw_count : Int
  writer_hw_count : Int
  writer_hw_count_last : Int
  writer_sw_count : Int
  writer_enable : Nat
  reader_enable : Nat
  writer_lock : Nat
  reader_lock : Nat
deriving DecidableEq, Repr

/-- The per-open-file record `struct litepcie_chan_priv`. -/
structure litepcie_chan_priv where
  reader : Bool
  writer : Bool
deriving DecidableEq, Repr

/-- State of a channel after probe: the device structure is zero-allocated. -/
def chan_reset : litepcie_dma_chan :=
  { reader_hw_count := 0, reader_hw_count_last := 0, reader_sw_count := 0,
    writer_hw_count := 0, writer_hw_count_last := 0, writer_sw_count := 0,
    writer_enable := 0, reader_enable := 0, writer_lock := 0, reader_lock := 0 }

/-- Error number `EAGAIN`. -/
def EAGAIN : Int := 11

/-- Error number `EFAULT`. -/
def EFAULT : Int := 14

/-- Error number `ERESTARTSYS`, returned by an interrupted wait. -/
def ERESTARTSYS : Int := 512

/-- The field `block_size` of `struct litepcie_chan` (`uint32_t`), set to
`DMA_BUFFER_SIZE` in probe. -/
def block_size (cfg : dma_config) : Nat := cfg.DMA_BUFFER_SIZE % 2 ^ 32

/-- The `int64_t` difference `a - b`. -/
def sub64 (a b : Int) : Int := toInt64 (a - b)

/-! ## Interrupt handler, one direction at a time -/

/-- Reader branch of `litepcie_interrupt` for one channel. -/
def irq_reader (cfg : dma_config) (loop_status : Nat) (chan : litepcie_dma_chan) :
    litepcie_dma_chan :=
  let r := reconcile cfg.DMA_BUFFER_COUNT chan.reader_hw_count chan.reader_hw_count_last
    loop_status
  { chan with reader_hw_count := r.1, reader_hw_count_last := r.2 }

/-- Writer branch of `litepcie_interrupt` for one channel. -/
def irq_writer (cfg : dma_config) (loop_status : Nat) (chan : litepcie_dma_chan) :
    litepcie_dma_chan :=
  let r := reconcile cfg.DMA_BUFFER_COUNT chan.writer_hw_count chan.writer_hw_count_last
    loop_status
  { chan with writer_hw_count := r.1, writer_hw_count_last := r.2 }

/-! ## Blocking -/

/-- What can happen to a sleeping caller: a completion interrupt of the direction
it waits on (with the loop status the handler reads), or a signal. -/
inductive wait_event where
  | irq (loop_status : Nat)
  | signal
deriving DecidableEq, Repr

/-- Kernel `wait_event_interruptible(wq, cond)`: returns 0 at once when `cond`
holds; otherwise sleeps, re-testing `cond` after each wake-up, and returns
`-ERESTARTSYS` when a signal arrives first.  `none`: the caller is still asleep when
the events run out. -/
def wait_event_interruptible (cond : litepcie_dma_chan → Bool)
    (wake : Nat → litepcie_dma_chan → litepcie_dma_chan) :
    List wait_event → litepcie_dma_chan → Option (Int × litepcie_dma_chan)
  | events, chan =>
    if cond chan then some (0, chan)
    else
      match events with
      | [] => none
      | wait_event.signal :: _ => some (-ERESTARTSYS, chan)
      | wait_event.irq loop_status :: rest =>
        wait_event_interruptible cond wake rest (wake loop_status chan)

/-! ## Transfer layer (`litepcie_read`, `litepcie_write`) -/

/-- Local variables of the copy loop together with the channel: `len`, `i`, the
`overflows`/`underflows` counter, the copies issued so far as
(offset in the caller's buffer, index into the ring array), and whether a copy
faulted (the loop then leaves through `return -EFAULT`). -/
structure loop_state where
  len : Nat
  i : Nat
  lost : Nat
  copies : List (Nat × Int)
  chan : litepcie_dma_chan
  faulted : Bool
deriving DecidableEq, Repr

/-- Outcome of a `read` or `write` call: return value, channel afterwards, the
overflow/underflow count reported through `dev_err` (0 when nothing is reported,
as on the `-EFAULT` path), and the copies performed. -/
structure transfer_result where
  ret : Int
  chan : litepcie_dma_chan
  lost : Nat
  copies : List (Nat × Int)
deriving DecidableEq, Repr

/-- The `while (len >= DMA_BUFFER_SIZE)` loop of `litepcie_read`.  `fault i` says
whether `copy_to_user` fails at loop index `i`.  The first argument bounds the
number of iterations; `len` iterations are never exceeded when
`DMA_BUFFER_SIZE` is positive. -/
def read_loop (cfg : dma_config) (fault : Nat → Bool) : Nat → loop_state → loop_state
  | 0, st => st
  | fuel + 1, st =>
    if cfg.DMA_BUFFER_SIZE ≤ st.len then
      if sub64 st.chan.writer_hw_count st.chan.writer_sw_count > 0 then
        if sub64 st.chan.writer_hw_count st.chan.writer_sw_count
            > ((cfg.DMA_BUFFER_COUNT / 2 : Nat) : Int) then
          read_loop cfg fault fuel
            { st with
              lost := st.lost + 1
              len := st.len - cfg.DMA_BUFFER_SIZE
              chan := { st.chan with writer_sw_count := toInt64 (st.chan.writer_sw_count + 1) }
              i := st.i + 1 }
        else if fault st.i then
          { st with faulted := true }
        else
          read_loop cfg fault fuel
            { st with
              copies := st.copies ++
                [((block_size cfg * st.i) % 2 ^ 32,
                  Int.tmod st.chan.writer_sw_count cfg.DMA_BUFFER_COUNT)]
              len := st.len - cfg.DMA_BUFFER_SIZE
              chan := { st.chan with writer_sw_count := toInt64 (st.chan.writer_sw_count + 1) }
              i := st.i + 1 }
      else st
    else st

/-- The first statement of `litepcie_read`: with `O_NONBLOCK` the test
`writer_hw_count == writer_sw_count`, otherwise the interruptible wait for
`writer_hw_count - writer_sw_count > 0`. -/
def litepcie_read_wait (cfg : dma_config) (nonblock : Bool) (events : List wait_event)
    (chan : litepcie_dma_chan) : Option (Int × litepcie_dma_chan) :=
  if nonblock then
    if chan.writer_hw_count = chan.writer_sw_count then some (-EAGAIN, chan)
    else some (0, chan)
  else
    wait_event_interruptible
      (fun c => decide (sub64 c.writer_hw_count c.writer_sw_count > 0))
      (irq_writer cfg) events chan

/-- The function `litepcie_read`.  `none`: the call never returns (it sleeps for ever). -/
def litepcie_read (cfg : dma_config) (nonblock : Bool) (events : List wait_event)
    (fault : Nat → Bool) (size : Nat) (chan : litepcie_dma_chan) : Option transfer_result :=
  match litepcie_read_wait cfg nonblock events chan with
  | none => none
  | some (ret, chan1) =>
    if ret < 0 then
      some { ret := ret, chan := chan1, lost := 0, copies := [] }
    else
      let st := read_loop cfg fault size
        { len := size, i := 0, lost := 0, copies := [], chan := chan1, faulted := false }
      if st.faulted then
        some { ret := -EFAULT, chan := st.chan, lost := 0, copies := st.copies }
      else
        some { ret := toInt64 ((size - st.len : Nat) : Int), chan := st.chan,
               lost := st.lost, copies := st.copies }

/-- The `while (len >= DMA_BUFFER_SIZE)` loop of `litepcie_write`.  `fault i` says
whether `copy_from_user` fails at loop index `i`. -/
def write_loop (cfg : dma_config) (fault : Nat → Bool) : Nat → loop_state → loop_state
  | 0, st => st
  | fuel + 1, st =>
    if cfg.DMA_BUFFER_SIZE ≤ st.len then
      if sub64 st.chan.reader_sw_count st.chan.reader_hw_count
          < ((cfg.DMA_BUFFER_COUNT / 2 : Nat) : Int) then
        if sub64 st.chan.reader_sw_count st.chan.reader_hw_count < 0 then
          write_loop cfg fault fuel
            { st with
              lost := st.lost + 1
              len := st.len - cfg.DMA_BUFFER_SIZE
              chan := { st.chan with reader_sw_count := toInt64 (st.chan.reader_sw_count + 1) }
              i := st.i + 1 }
        else if fault st.i then
          { st with faulted := true }
        else
          write_loop cfg fault fuel
            { st with
              copies := st.copies ++
                [((block_size cfg * st.i) % 2 ^ 32,
                  Int.tmod st.chan.reader_sw_count cfg.DMA_BUFFER_COUNT)]
              len := st.len - cfg.DMA_BUFFER_SIZE
              chan := { st.chan with reader_sw_count := toInt64 (st.chan.reader_sw_count + 1) }
              i := st.i + 1 }
      else st
    else st

/-- The first statement of `litepcie_write`: with `O_NONBLOCK` the test
`reader_hw_count == reader_sw_count`, otherwise the interruptible wait for
`reader_sw_count - reader_hw_count < DMA_BUFFER_COUNT/2`. -/
def litepcie_write_wait (cfg : dma_config) (nonblock : Bool) (events : List wait_event)
    (chan : litepcie_dma_chan) : Option (Int × litepcie_dma_chan) :=
  if nonblock then
    if chan.reader_hw_count = chan.reader_sw_count then some (-EAGAIN, chan)
    else some (0, chan)
  else
    wait_event_interruptible
      (fun c => decide (sub64 c.reader_sw_count c.reader_hw_count
        < ((cfg.DMA_BUFFER_COUNT / 2 : Nat) : Int)))
      (irq_reader cfg) events chan

/-- The function `litepcie_write`.  `none`: the call never returns. -/
def litepcie_write (cfg : dma_config) (nonblock : Bool) (events : List wait_event)
    (fault : Nat → Bool) (size : Nat) (chan : litepcie_dma_chan) : Option transfer_result :=
  match litepcie_write_wait cfg nonblock events chan with
  | none => none
  | some (ret, chan1) =>
    if ret < 0 then
      some { ret := ret, chan := chan1, lost := 0, copies := [] }
    else
      let st := write_loop cfg fault size
        { len := size, i := 0, lost := 0, copies := [], chan := chan1, faulted := false }
      if st.faulted then
        some { ret := -EFAULT, chan := st.chan, lost := 0, copies := st.copies }
      else
        some { ret := toInt64 ((size - st.len : Nat) : Int), chan := st.chan,
               lost := st.lost, copies := st.copies }

/-! ## Start, stop, open, release and the counter ioctls

The register writes of start and stop do not touch `struct litepcie_dma_chan`;
these definitions are their effect on the counters. -/

/-- Counter effect of `litepcie_dma_writer_start` ("Clear counters"). -/
def litepcie_dma_writer_start (chan : litepcie_dma_chan) : litepcie_dma_chan :=
  { chan with writer_hw_count := 0, writer_hw_count_last := 0, writer_sw_count := 0 }

/-- Counter effect of `litepcie_dma_writer_stop`. -/
def litepcie_dma_writer_stop (chan : litepcie_dma_chan) : litepcie_dma_chan :=
  { chan with writer_hw_count := 0, writer_hw_count_last := 0, writer_sw_count := 0 }

/-- Counter effect of `litepcie_dma_reader_start`. -/
def litepcie_dma_reader_start (chan : litepcie_dma_chan) : litepcie_dma_chan :=
  { chan with reader_hw_count := 0, reader_hw_count_last := 0, reader_sw_count := 0 }

/-- Counter effect of `litepcie_dma_reader_stop`. -/
def litepcie_dma_reader_stop (chan : litepcie_dma_chan) : litepcie_dma_chan :=
  { chan with reader_hw_count := 0, reader_hw_count_last := 0, reader_sw_count := 0 }

/-- The function `litepcie_open` (the allocation of the private record succeeds). -/
def litepcie_open (chan : litepcie_dma_chan) : litepcie_dma_chan :=
  let c1 :=
    if chan.reader_enable = 0 then
      { chan with reader_hw_count := 0, reader_hw_count_last := 0, reader_sw_count := 0 }
    else chan
  if c1.writer_enable = 0 then
    { c1 with writer_hw_count := 0, writer_hw_count_last := 0, writer_sw_count := 0 }
  else c1

/-- The function `litepcie_release`, on the channel. -/
def litepcie_release (chan_priv : litepcie_chan_priv) (chan : litepcie_dma_chan) :
    litepcie_dma_chan :=
  let c1 :=
    if chan_priv.reader then
      { litepcie_dma_reader_stop chan with reader_lock := 0, reader_enable := 0 }
    else chan
  if chan_priv.writer then
    { litepcie_dma_writer_stop c1 with writer_lock := 0, writer_enable := 0 }
  else c1

/-- Case `LITEPCIE_IOCTL_DMA_WRITER` of `litepcie_ioctl` (`m.enable` is a byte). -/
def ioctl_dma_writer (enable : Nat) (chan : litepcie_dma_chan) : litepcie_dma_chan :=
  let c1 :=
    if enable ≠ chan.writer_enable then
      if enable ≠ 0 then litepcie_dma_writer_start chan else litepcie_dma_writer_stop chan
    else chan
  { c1 with writer_enable := enable }

/-- Case `LITEPCIE_IOCTL_DMA_READER` of `litepcie_ioctl`. -/
def ioctl_dma_reader (enable : Nat) (chan : litepcie_dma_chan) : litepcie_dma_chan :=
  let c1 :=
    if enable ≠ chan.reader_enable then
      if enable ≠ 0 then litepcie_dma_reader_start chan else litepcie_dma_reader_stop chan
    else chan
  { c1 with reader_enable := enable }

/-- Case `LITEPCIE_IOCTL_MMAP_DMA_WRITER_UPDATE`: `writer_sw_count = m.sw_count`. -/
def ioctl_mmap_dma_writer_update (sw_count : Int) (chan : litepcie_dma_chan) :
    litepcie_dma_chan :=
  { chan with writer_sw_count := toInt64 sw_count }

/-- Case `LITEPCIE_IOCTL_MMAP_DMA_READER_UPDATE`: `reader_sw_count = m.sw_count`. -/
def ioctl_mmap_dma_reader_update (sw_count : Int) (chan : litepcie_dma_chan) :
    litepcie_dma_chan :=
  { chan with reader_sw_count := toInt64 sw_count }

/-! ## Sequences of operations on a channel

Interrupts that arrive while a call sleeps are operations of their own in a
sequence, so a `read` or `write` of a sequence carries only whether a signal is
pending when it has to sleep. -/

/-- The operations that act on one channel. -/
inductive chan_op where
  | op_open
  | op_release (chan_priv : litepcie_chan_priv)
  | op_dma_reader (enable : Nat)
  | op_dma_writer (enable : Nat)
  | op_irq_reader (loop_status : Nat)
  | op_irq_writer (loop_status : Nat)
  | op_write (nonblock : Bool) (signal : Bool) (fault : Nat → Bool) (size : Nat)
  | op_read (nonblock : Bool) (signal : Bool) (fault : Nat → Bool) (size : Nat)
  | op_reader_update (sw_count : Int)
  | op_writer_update (sw_count : Int)

/-- Events seen by a sleeping call of a sequence. -/
def pending_signal (signal : Bool) : List wait_event :=
  if signal then [wait_event.signal] else []

/-- Channel after one operation.  A `read` or `write` that does not return
changes nothing. -/
def apply_op (cfg : dma_config) (chan : litepcie_dma_chan) : chan_op → litepcie_dma_chan
  | chan_op.op_open => litepcie_open chan
  | chan_op.op_release chan_priv => litepcie_release chan_priv chan
  | chan_op.op_dma_reader enable => ioctl_dma_reader enable chan
  | chan_op.op_dma_writer enable => ioctl_dma_writer enable chan
  | chan_op.op_irq_reader loop_status => irq_reader cfg loop_status chan
  | chan_op.op_irq_writer loop_status => irq_writer cfg loop_status chan
  | chan_op.op_write nonblock signal fault size =>
    match litepcie_write cfg nonblock (pending_signal signal) fault size chan with
    | some r => r.chan
    | none => chan
  | chan_op.op_read nonblock signal fault size =>
    match litepcie_read cfg nonblock (pending_signal signal) fault size chan with
    | some r => r.chan
    | none => chan
  | chan_op.op_reader_update sw_count => ioctl_mmap_dma_reader_update sw_count chan
  | chan_op.op_writer_update sw_count => ioctl_mmap_dma_writer_update sw_count chan

/-- Channel after a sequence of operations. -/
def run_ops (cfg : dma_config) : litepcie_dma_chan → List chan_op → litepcie_dma_chan
  | chan, [] => chan
  | chan, op :: rest => run_ops cfg (apply_op cfg chan op) rest

/-- Side condition on one operation of a sequence: a reader interrupt does not
overflow the 64-bit counter, and a reader progress report does not put
`reader_sw_count` more than `DMA_BUFFER_COUNT` above `reader_hw_count`. -/
def op_in_bounds (cfg : dma_config) (chan : litepcie_dma_chan) : chan_op → Bool
  | chan_op.op_irq_reader loop_status =>
    !carry_overflows cfg.DMA_BUFFER_COUNT chan.reader_hw_count chan.reader_hw_count_last
      loop_status
  | chan_op.op_reader_update sw_count =>
    decide (toInt64 sw_count - chan.reader_hw_count ≤ (cfg.DMA_BUFFER_COUNT : Int))
  | _ => true

/-- Every operation of the sequence satisfies `op_in_bounds` in the state it runs in. -/
def ops_in_bounds (cfg : dma_config) : litepcie_dma_chan → List chan_op → Bool
  | _, [] => true
  | chan, op :: rest => op_in_bounds cfg chan op && ops_in_bounds cfg (apply_op cfg chan op) rest

/-! ## Closed forms used in the statements -/

/-- Number of ring slots one `read` call processes: the full buffers asked for,
capped by the backlog `b`. -/
def read_slots (cfg : dma_config) (size : Nat) (b : Int) : Nat :=
  min (size / cfg.DMA_BUFFER_SIZE) (max b 0).toNat

/-- Number of ring slots one `write` call processes: the full buffers asked for,
capped by the room `N/2 - d`. -/
def write_slots (cfg : dma_config) (size : Nat) (d : Int) : Nat :=
  min (size / cfg.DMA_BUFFER_SIZE) (max (((cfg.DMA_BUFFER_COUNT / 2 : Nat) : Int) - d) 0).toNat

/-- Copies predicted for a `read` that processes `m` slots from loop index `i`,
software count `sw` and backlog `b`: slot `j` is copied when its backlog `b - j`
is at most `N/2`, to caller offset `block_size * (i + j)` from ring index
`(sw + j) % N`. -/
def read_copies (cfg : dma_config) (i : Nat) (sw b : Int) (m : Nat) : List (Nat × Int) :=
  ((List.range m).filter
      (fun j : Nat => decide (b - (j : Int) ≤ ((cfg.DMA_BUFFER_COUNT / 2 : Nat) : Int)))).map
    (fun j : Nat => ((block_size cfg * (i + j)) % 2 ^ 32,
      Int.tmod (sw + (j : Int)) cfg.DMA_BUFFER_COUNT))

/-- Copies predicted for a `write` that processes `m` slots from loop index `i`,
software count `sw` and difference `d = sw_count - hw_count`: slot `j` is copied
when `d + j` is not negative. -/
def write_copies (cfg : dma_config) (i : Nat) (sw d : Int) (m : Nat) : List (Nat × Int) :=
  ((List.range m).filter (fun j : Nat => decide (0 ≤ d + (j : Int)))).map
    (fun j : Nat => ((block_size cfg * (i + j)) % 2 ^ 32,
      Int.tmod (sw + (j : Int)) cfg.DMA_BUFFER_COUNT))

/-- Error number `EINVAL`. -/
def EINVAL : Int := 22

/-- Poll bit `POLLIN` of the kernel headers. -/
def POLLIN : Nat := 0x0001

/-- Poll bit `POLLOUT`. -/
def POLLOUT : Nat := 0x0004

/-- Poll bit `POLLRDNORM`. -/
def POLLRDNORM : Nat := 0x0040

/-- Poll bit `POLLWRNORM`. -/
def POLLWRNORM : Nat := 0x0100

/-- The function `litepcie_poll`: the mask it returns, and the channel afterwards
(`poll_wait` only registers the two wait queues with the poll table). -/
def litepcie_poll (cfg : dma_config) (chan : litepcie_dma_chan) : Nat × litepcie_dma_chan :=
  let mask0 : Nat := 0
  let mask1 : Nat :=
    if sub64 chan.writer_hw_count chan.writer_sw_count > 2 then
      mask0 ||| (POLLIN ||| POLLRDNORM)
    else mask0
  let mask2 : Nat :=
    if sub64 chan.reader_sw_count chan.reader_hw_count
        < ((cfg.DMA_BUFFER_COUNT / 2 : Nat) : Int) then
      mask1 ||| (POLLOUT ||| POLLWRNORM)
    else mask1
  (mask2, chan)

/-! ## Lock ioctl (`LITEPCIE_IOCTL_LOCK`) -/

/-- The argument `struct litepcie_ioctl_lock` (six bytes). -/
structure litepcie_ioctl_lock where
  dma_reader_request : Nat
  dma_writer_request : Nat
  dma_reader_release : Nat
  dma_writer_release : Nat
  dma_reader_status : Nat
  dma_writer_status : Nat
deriving DecidableEq, Repr

/-- The statements of case `LITEPCIE_IOCTL_LOCK` for one direction (the reader
and the writer halves are the same statements on the two sets of fields):
`status = 1`; on a request, `status = 0` if the lock flag is set, otherwise the
lock flag and the caller's ownership flag are set; on a release, both are
cleared.  Result: status, caller's ownership flag, lock flag. -/
def lock_direction (request release : Nat) (owner : Bool) (lock : Nat) : Nat × Bool × Nat :=
  let requested : Nat × Bool × Nat :=
    if request ≠ 0 then
      if lock ≠ 0 then (0, owner, lock) else (1, true, 1)
    else (1, owner, lock)
  if release ≠ 0 then (requested.1, false, 0) else requested

/-- Case `LITEPCIE_IOCTL_LOCK` of `litepcie_ioctl` (the argument is readable and
writable user memory): the structure copied back, the caller's private record and
the channel afterwards. -/
def ioctl_lock (m : litepcie_ioctl_lock) (chan_priv : litepcie_chan_priv)
    (chan : litepcie_dma_chan) :
    litepcie_ioctl_lock × litepcie_chan_priv × litepcie_dma_chan :=
  let r := lock_direction m.dma_reader_request m.dma_reader_release chan_priv.reader
    chan.reader_lock
  let w := lock_direction m.dma_writer_request m.dma_writer_release chan_priv.writer
    chan.writer_lock
  ({ m with dma_reader_status := r.1, dma_writer_status := w.1 },
   { reader := r.2.1, writer := w.2.1 },
   { chan with reader_lock := r.2.2, writer_lock := w.2.2 })

/-! ## Device registers touched by release -/

/-- Value of a mathematical integer converted to `uint32_t`. -/
def toUInt32 (x : Int) : Nat := (x % 2 ^ 32).toNat

/-- Registers written by the paths modelled here, named after the address of the
write: `CSR_PCIE_MSI_ENABLE_ADDR`, and `dmachan->base + PCIE_DMA_..._OFFSET` for
the channel at hand (the offset macros are in `litepcie.h`, not among the
sources).  `TABLE_VALUE_4` is `PCIE_DMA_..._TABLE_VALUE_OFFSET + 4`. -/
inductive csr_reg where
  | PCIE_MSI_ENABLE
  | DMA_WRITER_ENABLE
  | DMA_WRITER_TABLE_VALUE
  | DMA_WRITER_TABLE_VALUE_4
  | DMA_WRITER_TABLE_WE
  | DMA_WRITER_TABLE_LOOP_PROG_N
  | DMA_WRITER_TABLE_FLUSH
  | DMA_READER_ENABLE
  | DMA_READER_TABLE_VALUE
  | DMA_READER_TABLE_VALUE_4
  | DMA_READER_TABLE_WE
  | DMA_READER_TABLE_LOOP_PROG_N
  | DMA_READER_TABLE_FLUSH
  | DMA_LOOPBACK_ENABLE
deriving DecidableEq, Repr

/-- The device registers as the driver sees them: the contents of the MSI enable
register (it reads back what was written) and every `litepcie_writel` so far, in
order. -/
structure litepcie_regs where
  msi_enable : Nat
  writes : List (csr_reg × Nat)
deriving DecidableEq, Repr

/-- The function `litepcie_writel` (a 32-bit write). -/
def litepcie_writel (reg : csr_reg) (val : Nat) (regs : litepcie_regs) : litepcie_regs :=
  { msi_enable := if reg = csr_reg.PCIE_MSI_ENABLE then val % 2 ^ 32 else regs.msi_enable
    writes := regs.writes ++ [(reg, val % 2 ^ 32)] }

/-- The function `litepcie_enable_interrupt`: `v |= (1 << irq_num)` on the MSI
enable register. -/
def litepcie_enable_interrupt (irq_num : Nat) (regs : litepcie_regs) : litepcie_regs :=
  let v : Nat := regs.msi_enable
  litepcie_writel csr_reg.PCIE_MSI_ENABLE (v ||| toUInt32 (toInt32 (2 ^ irq_num))) regs

/-- The function `litepcie_disable_interrupt`: `v &= ~(1 << irq_num)` on the MSI
enable register (`1 << irq_num` and `~` are evaluated in `int`). -/
def litepcie_disable_interrupt (irq_num : Nat) (regs : litepcie_regs) : litepcie_regs :=
  let v : Nat := regs.msi_enable
  litepcie_writel csr_reg.PCIE_MSI_ENABLE
    (v &&& toUInt32 (-(toInt32 (2 ^ irq_num)) - 1)) regs

/-- The fields `reader_interrupt` and `writer_interrupt` of
`struct litepcie_dma_chan`, set once in probe. -/
structure chan_irqs where
  reader_interrupt : Nat
  writer_interrupt : Nat
deriving DecidableEq, Repr

/-- A channel together with the device registers. -/
structure chan_dev where
  chan : litepcie_dma_chan
  regs : litepcie_regs
deriving DecidableEq, Repr

/-- The function `litepcie_dma_reader_stop` with its register writes (the
`udelay(1000)` between them is not represented). -/
def litepcie_dma_reader_stop_dev (d : chan_dev) : chan_dev :=
  let r1 := litepcie_writel csr_reg.DMA_READER_TABLE_LOOP_PROG_N 0 d.regs
  let r2 := litepcie_writel csr_reg.DMA_READER_TABLE_FLUSH 1 r1
  let r3 := litepcie_writel csr_reg.DMA_READER_ENABLE 0 r2
  let r4 := litepcie_writel csr_reg.DMA_READER_TABLE_FLUSH 1 r3
  { chan := litepcie_dma_reader_stop d.chan, regs := r4 }

/-- The function `litepcie_dma_writer_stop` with its register writes. -/
def litepcie_dma_writer_stop_dev (d : chan_dev) : chan_dev :=
  let r1 := litepcie_writel csr_reg.DMA_WRITER_TABLE_LOOP_PROG_N 0 d.regs
  let r2 := litepcie_writel csr_reg.DMA_WRITER_TABLE_FLUSH 1 r1
  let r3 := litepcie_writel csr_reg.DMA_WRITER_ENABLE 0 r2
  let r4 := litepcie_writel csr_reg.DMA_WRITER_TABLE_FLUSH 1 r3
  { chan := litepcie_dma_writer_stop d.chan, regs := r4 }

/-- The function `litepcie_release` with its register accesses. -/
def litepcie_release_dev (irqs : chan_irqs) (chan_priv : litepcie_chan_priv) (d : chan_dev) :
    chan_dev :=
  let d1 : chan_dev :=
    if chan_priv.reader then
      let a : chan_dev :=
        { d with regs := litepcie_disable_interrupt irqs.reader_interrupt d.regs }
      let b := litepcie_dma_reader_stop_dev a
      { b with chan := { b.chan with reader_lock := 0, reader_enable := 0 } }
    else d
  if chan_priv.writer then
    let a : chan_dev :=
      { d1 with regs := litepcie_disable_interrupt irqs.writer_interrupt d1.regs }
    let b := litepcie_dma_writer_stop_dev a
    { b with chan := { b.chan with writer_lock := 0, writer_enable := 0 } }
  else d1

/-! ## Open files of a channel -/

/-- A channel with the private records of its open files, by descriptor; `none`:
not open.  `next_fd` is the descriptor the next `open` gets. -/
structure chan_files where
  chan : litepcie_dma_chan
  files : Nat → Option litepcie_chan_priv
  next_fd : Nat

/-- The channel after probe, with no open file. -/
def files_reset : chan_files :=
  { chan := chan_reset, files := fun _ => none, next_fd := 0 }

/-- Calls made on a channel; all but `open` and the interrupts name the open file
they are made on. -/
inductive file_op where
  | open_file
  | close_file (fd : Nat)
  | lock (fd : Nat) (m : litepcie_ioctl_lock)
  | dma_reader (fd : Nat) (enable : Nat)
  | dma_writer (fd : Nat) (enable : Nat)
  | write (fd : Nat) (nonblock : Bool) (signal : Bool) (fault : Nat → Bool) (size : Nat)
  | read (fd : Nat) (nonblock : Bool) (signal : Bool) (fault : Nat → Bool) (size : Nat)
  | reader_update (fd : Nat) (sw_count : Int)
  | writer_update (fd : Nat) (sw_count : Int)
  | irq_reader (loop_status : Nat)
  | irq_writer (loop_status : Nat)

/-- The lock ioctl made on open file `fd`: the structure copied back (`none` when
`fd` is not open) and the state afterwards. -/
def file_lock (fd : Nat) (m : litepcie_ioctl_lock) (s : chan_files) :
    Option litepcie_ioctl_lock × chan_files :=
  match s.files fd with
  | none => (none, s)
  | some chan_priv =>
    let r := ioctl_lock m chan_priv s.chan
    (some r.1, { s with chan := r.2.2, files := Function.update s.files fd (some r.2.1) })

/-- A call of `chan_op` kind made on open file `fd`; nothing happens when `fd` is
not open. -/
def file_chan_op (cfg : dma_config) (fd : Nat) (op : chan_op) (s : chan_files) : chan_files :=
  match s.files fd with
  | none => s
  | some _ => { s with chan := apply_op cfg s.chan op }

/-- State after one call.  `open` creates a zeroed private record (`kzalloc`);
`close` runs `litepcie_release` with the record of the file and frees it. -/
def apply_file_op (cfg : dma_config) (s : chan_files) : file_op → chan_files
  | file_op.open_file =>
    { chan := litepcie_open s.chan
      files := Function.update s.files s.next_fd (some { reader := false, writer := false })
      next_fd := s.next_fd + 1 }
  | file_op.close_file fd =>
    match s.files fd with
    | none => s
    | some chan_priv =>
      { s with chan := litepcie_release chan_priv s.chan
               files := Function.update s.files fd none }
  | file_op.lock fd m => (file_lock fd m s).2
  | file_op.dma_reader fd enable => file_chan_op cfg fd (chan_op.op_dma_reader enable) s
  | file_op.dma_writer fd enable => file_chan_op cfg fd (chan_op.op_dma_writer enable) s
  | file_op.write fd nonblock signal fault size =>
    file_chan_op cfg fd (chan_op.op_write nonblock signal fault size) s
  | file_op.read fd nonblock signal fault size =>
    file_chan_op cfg fd (chan_op.op_read nonblock signal fault size) s
  | file_op.reader_update fd sw_count => file_chan_op cfg fd (chan_op.op_reader_update sw_count) s
  | file_op.writer_update fd sw_count => file_chan_op cfg fd (chan_op.op_writer_update sw_count) s
  | file_op.irq_reader loop_status => { s with chan := irq_reader cfg loop_status s.chan }
  | file_op.irq_writer loop_status => { s with chan := irq_writer cfg loop_status s.chan }

/-- State after a sequence of calls. -/
def run_file_ops (cfg : dma_config) : chan_files → List file_op → chan_files
  | s, [] => s
  | s, op :: rest => run_file_ops cfg (apply_file_op cfg s op) rest

/-! ## The two directions, uniformly

`true` names the reader direction, `false` the writer direction. -/

/-- Lock flag of a direction. -/
def dir_lock (reader : Bool) (chan : litepcie_dma_chan) : Nat :=
  if reader then chan.reader_lock else chan.writer_lock

/-- Enable flag of a direction. -/
def dir_enable (reader : Bool) (chan : litepcie_dma_chan) : Nat :=
  if reader then chan.reader_enable else chan.writer_enable

/-- Ownership flag of a direction in the private record of an open file. -/
def dir_owner (reader : Bool) (chan_priv : litepcie_chan_priv) : Bool :=
  if reader then chan_priv.reader else chan_priv.writer

/-- Request byte of a direction in the lock argument. -/
def dir_request (reader : Bool) (m : litepcie_ioctl_lock) : Nat :=
  if reader then m.dma_reader_request else m.dma_writer_request

/-- Release byte of a direction in the lock argument. -/
def dir_release (reader : Bool) (m : litepcie_ioctl_lock) : Nat :=
  if reader then m.dma_reader_release else m.dma_writer_release

/-- Status byte of a direction in the lock argument. -/
def dir_status (reader : Bool) (m : litepcie_ioctl_lock) : Nat :=
  if reader then m.dma_reader_status else m.dma_writer_status

/-- Some open file has the ownership flag of the direction set. -/
def has_owner (reader : Bool) (s : chan_files) : Prop :=
  ∃ (fd : Nat) (chan_priv : litepcie_chan_priv),
    s.files fd = some chan_priv ∧ dir_owner reader chan_priv = true

/-- Side condition on a call: a lock call with a release byte set is made by the
open file that has the ownership flag of that direction, or while the lock flag of
the direction is clear. -/
def release_by_holder (s : chan_files) : file_op → Bool
  | file_op.lock fd m =>
    match s.files fd with
    | none => true
    | some chan_priv =>
      (decide (m.dma_reader_release = 0) || chan_priv.reader
        || decide (s.chan.reader_lock = 0)) &&
      (decide (m.dma_writer_release = 0) || chan_priv.writer
        || decide (s.chan.writer_lock = 0))
  | _ => true

/-- Every call of the sequence satisfies `release_by_holder` in the state it is
made in. -/
def releases_by_holder (cfg : dma_config) : chan_files → List file_op → Bool
  | _, [] => true
  | s, op :: rest => release_by_holder s op && releases_by_holder cfg (apply_file_op cfg s op) rest

/-- Side condition on a call: a direction is enabled (non-zero enable byte) only
by an open file that has its ownership flag, and a file that has the ownership
flag makes a lock call with the release byte set only while the direction is
disabled. -/
def enable_by_holder (s : chan_files) : file_op → Bool
  | file_op.dma_reader fd enable =>
    match s.files fd with
    | none => true
    | some chan_priv => decide (enable = 0) || chan_priv.reader
  | file_op.dma_writer fd enable =>
    match s.files fd with
    | none => true
    | some chan_priv => decide (enable = 0) || chan_priv.writer
  | file_op.lock fd m =>
    match s.files fd with
    | none => true
    | some chan_priv =>
      (decide (m.dma_reader_release = 0) || !chan_priv.reader
        || decide (s.chan.reader_enable = 0)) &&
      (decide (m.dma_writer_release = 0) || !chan_priv.writer
        || decide (s.chan.writer_enable = 0))
  | _ => true

/-- Every call of the sequence satisfies `enable_by_holder` in the state it is
made in. -/
def enables_by_holder (cfg : dma_config) : chan_files → List file_op → Bool
  | _, [] => true
  | s, op :: rest => enable_by_holder s op && enables_by_holder cfg (apply_file_op cfg s op) rest

/-- Lock exclusivity: for each direction at most one open file has the ownership
flag, and an open file has it only while the lock flag of the direction is set. -/
def lock_exclusive (s : chan_files) : Prop :=
  ∀ reader : Bool,
    (∀ (i j : Nat) (p q : litepcie_chan_priv),
      s.files i = some p → s.files j = some q →
      dir_owner reader p = true → dir_owner reader q = true → i = j) ∧
    (∀ (i : Nat) (p : litepcie_chan_priv),
      s.files i = some p → dir_owner reader p = true → dir_lock reader s.chan ≠ 0)

/-- Descriptors not yet handed out are not open. -/
def files_fresh (s : chan_files) : Prop :=
  ∀ fd : Nat, s.next_fd ≤ fd → s.files fd = none

/-- A direction whose lock flag is set has an open file with the ownership flag. -/
def locked_has_owner (s : chan_files) : Prop :=
  ∀ reader : Bool, dir_lock reader s.chan ≠ 0 → has_owner reader s

/-- A direction whose enable flag is set has an open file with the ownership flag. -/
def enabled_has_owner (s : chan_files) : Prop :=
  ∀ reader : Bool, dir_enable reader s.chan ≠ 0 → has_owner reader s

/-! ## Descriptor table programming (start of a direction) -/

/-- Constants of the descriptor words, from `config.h` and `litepcie.h` (not among
the sources), taken as parameters: `DMA_BUFFER_PER_IRQ`, the flag words
`DMA_IRQ_DISABLE` and `DMA_LAST_DISABLE`, and whether the macro
`DMA_BUFFER_ALIGNED` is defined. -/
structure dma_table_config where
  DMA_BUFFER_PER_IRQ : Nat
  DMA_IRQ_DISABLE : Nat
  DMA_LAST_DISABLE : Nat
  DMA_BUFFER_ALIGNED : Bool
deriving DecidableEq, Repr

/-- The arrays `reader_handle` and `writer_handle` of `struct litepcie_dma_chan`:
the bus address (`dma_addr_t`, 64 bits) of each buffer, filled once by
`litepcie_dma_init`. -/
structure chan_handles where
  reader_handle : Nat → Nat
  writer_handle : Nat → Nat

/-- The term `(!(i%DMA_BUFFER_PER_IRQ == 0)) * DMA_IRQ_DISABLE` of the descriptor
word of buffer `i`. -/
def table_irq_flag (t : dma_table_config) (i : Nat) : Nat :=
  (if i % t.DMA_BUFFER_PER_IRQ = 0 then 0 else 1) * t.DMA_IRQ_DISABLE

/-- The descriptor word of buffer `i`:
`DMA_LAST_DISABLE | (!(i%DMA_BUFFER_PER_IRQ == 0)) * DMA_IRQ_DISABLE | DMA_BUFFER_SIZE`,
without the first term when `DMA_BUFFER_ALIGNED` is defined. -/
def table_value (cfg : dma_config) (t : dma_table_config) (i : Nat) : Nat :=
  if t.DMA_BUFFER_ALIGNED then table_irq_flag t i ||| cfg.DMA_BUFFER_SIZE
  else t.DMA_LAST_DISABLE ||| table_irq_flag t i ||| cfg.DMA_BUFFER_SIZE

/-- The flags of the descriptor word of buffer `i`: the word without
`DMA_BUFFER_SIZE`. -/
def table_flags (t : dma_table_config) (i : Nat) : Nat :=
  if t.DMA_BUFFER_ALIGNED then table_irq_flag t i
  else t.DMA_LAST_DISABLE ||| table_irq_flag t i

/-- Body of the `for` loop of `litepcie_dma_reader_start` for buffer `i`. -/
def reader_table_entry (cfg : dma_config) (t : dma_table_config) (handle : Nat → Nat)
    (regs : litepcie_regs) (i : Nat) : litepcie_regs :=
  let r1 := litepcie_writel csr_reg.DMA_READER_TABLE_VALUE (table_value cfg t i) regs
  let r2 := litepcie_writel csr_reg.DMA_READER_TABLE_VALUE_4
    ((handle i >>> 0) &&& 0xffffffff) r1
  litepcie_writel csr_reg.DMA_READER_TABLE_WE ((handle i >>> 32) &&& 0xffffffff) r2

/-- Body of the `for` loop of `litepcie_dma_writer_start` for buffer `i`. -/
def writer_table_entry (cfg : dma_config) (t : dma_table_config) (handle : Nat → Nat)
    (regs : litepcie_regs) (i : Nat) : litepcie_regs :=
  let r1 := litepcie_writel csr_reg.DMA_WRITER_TABLE_VALUE (table_value cfg t i) regs
  let r2 := litepcie_writel csr_reg.DMA_WRITER_TABLE_VALUE_4
    ((handle i >>> 0) &&& 0xffffffff) r1
  litepcie_writel csr_reg.DMA_WRITER_TABLE_WE ((handle i >>> 32) &&& 0xffffffff) r2

/-- The function `litepcie_dma_reader_start` with its register writes: the loop
`for (i = 0; i < DMA_BUFFER_COUNT; i++)` is the fold over `0, ..., N-1`. -/
def litepcie_dma_reader_start_dev (cfg : dma_config) (t : dma_table_config)
    (handles : chan_handles) (d : chan_dev) : chan_dev :=
  let r1 := litepcie_writel csr_reg.DMA_READER_ENABLE 0 d.regs
  let r2 := litepcie_writel csr_reg.DMA_READER_TABLE_FLUSH 1 r1
  let r3 := litepcie_writel csr_reg.DMA_READER_TABLE_LOOP_PROG_N 0 r2
  let r4 := (List.range cfg.DMA_BUFFER_COUNT).foldl
    (reader_table_entry cfg t handles.reader_handle) r3
  let r5 := litepcie_writel csr_reg.DMA_READER_TABLE_LOOP_PROG_N 1 r4
  let c := litepcie_dma_reader_start d.chan
  { chan := c, regs := litepcie_writel csr_reg.DMA_READER_ENABLE 1 r5 }

/-- The function `litepcie_dma_writer_start` with its register writes. -/
def litepcie_dma_writer_start_dev (cfg : dma_config) (t : dma_table_config)
    (handles : chan_handles) (d : chan_dev) : chan_dev :=
  let r1 := litepcie_writel csr_reg.DMA_WRITER_ENABLE 0 d.regs
  let r2 := litepcie_writel csr_reg.DMA_WRITER_TABLE_FLUSH 1 r1
  let r3 := litepcie_writel csr_reg.DMA_WRITER_TABLE_LOOP_PROG_N 0 r2
  let r4 := (List.range cfg.DMA_BUFFER_COUNT).foldl
    (writer_table_entry cfg t handles.writer_handle) r3
  let r5 := litepcie_writel csr_reg.DMA_WRITER_TABLE_LOOP_PROG_N 1 r4
  let c := litepcie_dma_writer_start d.chan
  { chan := c, regs := litepcie_writel csr_reg.DMA_WRITER_ENABLE 1 r5 }

/-- The three descriptor writes of buffer `i`, as (register, value) pairs, for the
reader table. -/
def reader_descriptor (cfg : dma_config) (t : dma_table_config) (handle : Nat → Nat)
    (i : Nat) : List (csr_reg × Nat) :=
  [(csr_reg.DMA_READER_TABLE_VALUE, table_value cfg t i % 2 ^ 32),
   (csr_reg.DMA_READER_TABLE_VALUE_4, handle i % 2 ^ 32),
   (csr_reg.DMA_READER_TABLE_WE, handle i / 2 ^ 32 % 2 ^ 32)]

/-- The three descriptor writes of buffer `i` for the writer table. -/
def writer_descriptor (cfg : dma_config) (t : dma_table_config) (handle : Nat → Nat)
    (i : Nat) : List (csr_reg × Nat) :=
  [(csr_reg.DMA_WRITER_TABLE_VALUE, table_value cfg t i % 2 ^ 32),
   (csr_reg.DMA_WRITER_TABLE_VALUE_4, handle i % 2 ^ 32),
   (csr_reg.DMA_WRITER_TABLE_WE, handle i / 2 ^ 32 % 2 ^ 32)]

/-! ## Enable/disable ioctls with their register accesses -/

/-- The fields of `struct litepcie_ioctl_dma_reader` / `..._dma_writer` as the
ioctl uses them. -/
structure litepcie_ioctl_dma where
  enable : Nat
  hw_count : Int
  sw_count : Int
deriving DecidableEq, Repr

/-- Case `LITEPCIE_IOCTL_DMA_READER` of `litepcie_ioctl` with its register
accesses: the structure copied back and the device afterwards. -/
def ioctl_dma_reader_dev (cfg : dma_config) (t : dma_table_config) (handles : chan_handles)
    (irqs : chan_irqs) (m : litepcie_ioctl_dma) (d : chan_dev) :
    litepcie_ioctl_dma × chan_dev :=
  let d1 : chan_dev :=
    if m.enable ≠ d.chan.reader_enable then
      if m.enable ≠ 0 then
        let a := litepcie_dma_reader_start_dev cfg t handles d
        { a with regs := litepcie_enable_interrupt irqs.reader_interrupt a.regs }
      else
        litepcie_dma_reader_stop_dev
          { d with regs := litepcie_disable_interrupt irqs.reader_interrupt d.regs }
    else d
  let d2 : chan_dev := { d1 with chan := { d1.chan with reader_enable := m.enable } }
  ({ m with hw_count := d2.chan.reader_hw_count, sw_count := d2.chan.reader_sw_count }, d2)

/-- Case `LITEPCIE_IOCTL_DMA_WRITER` of `litepcie_ioctl` with its register
accesses. -/
def ioctl_dma_writer_dev (cfg : dma_config) (t : dma_table_config) (handles : chan_handles)
    (irqs : chan_irqs) (m : litepcie_ioctl_dma) (d : chan_dev) :
    litepcie_ioctl_dma × chan_dev :=
  let d1 : chan_dev :=
    if m.enable ≠ d.chan.writer_enable then
      if m.enable ≠ 0 then
        let a := litepcie_dma_writer_start_dev cfg t handles d
        { a with regs := litepcie_enable_interrupt irqs.writer_interrupt a.regs }
      else
        litepcie_dma_writer_stop_dev
          { d with regs := litepcie_disable_interrupt irqs.writer_interrupt d.regs }
    else d
  let d2 : chan_dev := { d1 with chan := { d1.chan with writer_enable := m.enable } }
  ({ m with hw_count := d2.chan.writer_hw_count, sw_count := d2.chan.writer_sw_count }, d2)

/-! ## Interrupt dispatch (`litepcie_interrupt`) -/

/-- One entry of `s->chan[]` as the interrupt handler uses it: the interrupt
numbers, the counters, and the values the two `..._TABLE_LOOP_STATUS` registers
of the channel return when the handler reads them. -/
structure irq_chan where
  irqs : chan_irqs
  chan : litepcie_dma_chan
  reader_loop_status : Nat
  writer_loop_status : Nat
deriving DecidableEq, Repr

/-- The value `(1 << n)`, an `int`, converted to `uint32_t`. -/
def irq_bit (n : Nat) : Nat := toUInt32 (toInt32 (2 ^ n))

/-- Body of the channel loop of `litepcie_interrupt` for one channel:
`irq_vector` is the vector already and-ed with the enable mask, `clear_mask` the
mask accumulated so far. -/
def interrupt_chan (cfg : dma_config) (irq_vector : Nat) (c : irq_chan) (clear_mask : Nat) :
    irq_chan × Nat :=
  let r : irq_chan × Nat :=
    if irq_vector &&& irq_bit c.irqs.reader_interrupt ≠ 0 then
      ({ c with chan := irq_reader cfg c.reader_loop_status c.chan },
        clear_mask ||| irq_bit c.irqs.reader_interrupt)
    else (c, clear_mask)
  if irq_vector &&& irq_bit c.irqs.writer_interrupt ≠ 0 then
    ({ r.1 with chan := irq_writer cfg c.writer_loop_status r.1.chan },
      r.2 ||| irq_bit c.irqs.writer_interrupt)
  else r

/-- The loop `for (i = 0; i < s->channels; i++)` of `litepcie_interrupt`. -/
def interrupt_loop (cfg : dma_config) (irq_vector : Nat) :
    List irq_chan → Nat → List irq_chan × Nat
  | [], clear_mask => ([], clear_mask)
  | c :: rest, clear_mask =>
    let r := interrupt_chan cfg irq_vector c clear_mask
    let t := interrupt_loop cfg irq_vector rest r.2
    (r.1 :: t.1, t.2)

/-- The part of `litepcie_interrupt` from `irq_vector &= irq_enable` on, common to
both ways of obtaining the vector: the channels afterwards and the computed
`clear_mask`. -/
def litepcie_interrupt_dispatch (cfg : dma_config) (irq_vector irq_enable : Nat)
    (chans : List irq_chan) : List irq_chan × Nat :=
  interrupt_loop cfg (irq_vector &&& irq_enable) chans 0

/-- The vector as computed without `CSR_PCIE_MSI_CLEAR_ADDR` (which `csr.h` does
not define): `1 << i` for the first `i < s->irqs` with
`irq == pci_irq_vector(s->dev, i)`, or 0. -/
def msix_irq_vector (irq : Nat) (irqs : Nat) (pci_irq_vector : Nat → Nat) : Nat :=
  match (List.range irqs).find? (fun i => decide (irq = pci_irq_vector i)) with
  | some i => irq_bit i
  | none => 0

/-- The function `litepcie_interrupt`, for the Linux interrupt number `irq`. -/
def litepcie_interrupt (cfg : dma_config) (irq : Nat) (irqs : Nat)
    (pci_irq_vector : Nat → Nat) (irq_enable : Nat) (chans : List irq_chan) :
    List irq_chan × Nat :=
  litepcie_interrupt_dispatch cfg (msix_irq_vector irq irqs pci_irq_vector) irq_enable chans

/-- A direction of an entry of `s->chan[]` after the handler, as the frame property
states it: reconciled when its interrupt bit is set in `v`, untouched otherwise. -/
def dispatched (cfg : dma_config) (v : Nat) (c : irq_chan) : irq_chan :=
  let c1 : litepcie_dma_chan :=
    if v.testBit c.irqs.reader_interrupt then irq_reader cfg c.reader_loop_status c.chan
    else c.chan
  { c with chan :=
      if v.testBit c.irqs.writer_interrupt then irq_writer cfg c.writer_loop_status c1
      else c1 }

/-! ## Zero-copy mapping (`litepcie_mmap`) -/

/-- Constants used by `litepcie_mmap`: `DMA_BUFFER_TOTAL_SIZE` from `config.h` (not
among the sources) and the kernel's `PAGE_SHIFT`. -/
structure mmap_config where
  DMA_BUFFER_TOTAL_SIZE : Nat
  PAGE_SHIFT : Nat
deriving DecidableEq, Repr

/-- The fields of `struct vm_area_struct` that `litepcie_mmap` reads. -/
structure vm_area_struct where
  vm_start : Nat
  vm_end : Nat
  vm_pgoff : Nat
deriving DecidableEq, Repr

/-- Physical addresses `__pa(chan->dma.reader_addr[i])` and
`__pa(chan->dma.writer_addr[i])` of the buffers. -/
structure chan_pools where
  reader_pa : Nat → Nat
  writer_pa : Nat → Nat

/-- Outcome of `litepcie_mmap`: return value and the successful
`remap_pfn_range` calls as (user address, page frame number, size). -/
structure mmap_result where
  ret : Int
  maps : List (Nat × Nat × Nat)
deriving DecidableEq, Repr

/-- The loop `for (i = 0; i < DMA_BUFFER_COUNT; i++)` of `litepcie_mmap` over the
indices still to do; `remap_fails i` says whether `remap_pfn_range` fails for
buffer `i`. -/
def mmap_loop (cfg : dma_config) (mc : mmap_config) (pa : Nat → Nat)
    (remap_fails : Nat → Bool) (vm_start : Nat) :
    List Nat → List (Nat × Nat × Nat) → mmap_result
  | [], maps => { ret := 0, maps := maps }
  | i :: rest, maps =>
    if remap_fails i then { ret := -EAGAIN, maps := maps }
    else
      mmap_loop cfg mc pa remap_fails vm_start rest
        (maps ++ [(toUInt64 ((vm_start : Int) + toInt32 ((i : Int) * cfg.DMA_BUFFER_SIZE)),
                   pa i >>> mc.PAGE_SHIFT, cfg.DMA_BUFFER_SIZE)])

/-- The function `litepcie_mmap`. -/
def litepcie_mmap (cfg : dma_config) (mc : mmap_config) (pools : chan_pools)
    (remap_fails : Nat → Bool) (vma : vm_area_struct) : mmap_result :=
  if toUInt64 ((vma.vm_end : Int) - vma.vm_start) ≠ mc.DMA_BUFFER_TOTAL_SIZE then
    { ret := -EINVAL, maps := [] }
  else if vma.vm_pgoff = 0 then
    mmap_loop cfg mc pools.reader_pa remap_fails vma.vm_start
      (List.range cfg.DMA_BUFFER_COUNT) []
  else if vma.vm_pgoff = mc.DMA_BUFFER_TOTAL_SIZE >>> mc.PAGE_SHIFT then
    mmap_loop cfg mc pools.writer_pa remap_fails vma.vm_start
      (List.range cfg.DMA_BUFFER_COUNT) []
  else { ret := -EINVAL, maps := [] }

/-- The structure filled by case `LITEPCIE_IOCTL_MMAP_DMA_INFO`. -/
structure litepcie_ioctl_mmap_dma_info where
  dma_tx_buf_offset : Nat
  dma_tx_buf_size : Nat
  dma_tx_buf_count : Nat
  dma_rx_buf_offset : Nat
  dma_rx_buf_size : Nat
  dma_rx_buf_count : Nat
deriving DecidableEq, Repr

/-- Case `LITEPCIE_IOCTL_MMAP_DMA_INFO` of `litepcie_ioctl`. -/
def ioctl_mmap_dma_info (cfg : dma_config) (mc : mmap_config) : litepcie_ioctl_mmap_dma_info :=
  { dma_tx_buf_offset := 0
    dma_tx_buf_size := cfg.DMA_BUFFER_SIZE
    dma_tx_buf_count := cfg.DMA_BUFFER_COUNT
    dma_rx_buf_offset := mc.DMA_BUFFER_TOTAL_SIZE
    dma_rx_buf_size := cfg.DMA_BUFFER_SIZE
    dma_rx_buf_count := cfg.DMA_BUFFER_COUNT }

/-! ## Bounded polling of the PTM status (`litepcie_phc_get_syncdevicetime`) -/

/-- Error number `ETIMEDOUT`. -/
def ETIMEDOUT : Int := 110

/-- The mask `PTM_STATUS_VALID`, `1 << CSR_PTM_REQUESTER_STATUS_VALID_OFFSET`. -/
def PTM_STATUS_VALID : Nat := 1 <<< 0

/-- The value `PTM_CONTROL_ENABLE | PTM_CONTROL_TRIGGER`. -/
def PTM_CONTROL_REQUEST : Nat := (1 <<< 0) ||| (1 <<< 1)

/-- Register accesses of `litepcie_phc_get_syncdevicetime`. -/
inductive ptm_access where
  | write_control (val : Nat)
  | read_status
  | read_t1_time_l
  | read_t1_time_h
  | read_master_time_l
  | read_master_time_h
deriving DecidableEq, Repr

/-- The loop `do { reg = readl(STATUS); if ((reg & PTM_STATUS_VALID) != 0) break; }
while (--count);` entered with `count = c + 1` after `n` reads of the status
register, `status i` being the value the read number `i` (from 0) returns: the
final value of `count` and the number of reads made. -/
def ptm_poll (status : Nat → Nat) : Nat → Nat → Nat × Nat
  | 0, n =>
    if status n &&& PTM_STATUS_VALID ≠ 0 then (1, n + 1) else (0, n + 1)
  | c + 1, n =>
    if status n &&& PTM_STATUS_VALID ≠ 0 then (c + 2, n + 1)
    else ptm_poll status c (n + 1)

/-- The function `litepcie_phc_get_syncdevicetime` (`int count = 100`): return
value and register accesses. -/
def litepcie_phc_get_syncdevicetime (status : Nat → Nat) : Int × List ptm_access :=
  let p := ptm_poll status 99 0
  let log : List ptm_access :=
    ptm_access.write_control PTM_CONTROL_REQUEST :: List.replicate p.2 ptm_access.read_status
  if p.1 = 0 then (-ETIMEDOUT, log)
  else
    (0, log ++ [ptm_access.read_t1_time_l, ptm_access.read_t1_time_h,
                ptm_access.read_master_time_l, ptm_access.read_master_time_h])

/-! ## Writer direction: the consumer does not overtake the producer -/

theorem le_or_left (x y : Nat) : x ≤ x ||| y := by
  have h : x &&& (x ||| y) = x := by
    apply Nat.eq_of_testBit_eq
    intro i
    simp only [Nat.testBit_and, Nat.testBit_or]
    cases x.testBit i <;> simp
  calc x = x &&& (x ||| y) := h.symm
    _ ≤ x ||| y := Nat.and_le_right

theorem and_high_mask (x w : Nat) (hx : x < 2 ^ 64) (hw : w ≤ 64) :
    x &&& (2 ^ 64 - 2 ^ w) = x - x % 2 ^ w := by
  have e1 : 2 ^ 64 - 2 ^ w = 2 ^ w * (2 ^ (64 - w) - 1) := by
    have : (2:Nat) ^ 64 = 2 ^ w * 2 ^ (64 - w) := by
      rw [← pow_add]; congr 1; omega
    rw [this, Nat.mul_sub, Nat.mul_one]
  have e2 : x - x % 2 ^ w = 2 ^ w * (x / 2 ^ w) := by
    have := Nat.div_add_mod x (2 ^ w)
    omega
  rw [e1, e2]
  apply Nat.eq_of_testBit_eq
  intro i
  simp only [Nat.testBit_and, Nat.testBit_mul_pow_two, Nat.testBit_two_pow_sub_one,
    ← Nat.shiftRight_eq_div_pow, Nat.testBit_shiftRight]
  by_cases h : w ≤ i
  · have e3 : w + (i - w) = i := by omega
    simp only [h, ge_iff_le, decide_True, Bool.true_and, e3]
    by_cases h2 : i < 64
    · have : i - w < 64 - w := by omega
      simp [this]
    · have hx2 : x.testBit i = false := by
        apply Nat.testBit_lt_two_pow
        calc x < 2 ^ 64 := hx
          _ ≤ 2 ^ i := Nat.pow_le_pow_right (by norm_num) (by omega)
      simp [hx2]
  · simp [h]

theorem or_low_bits (x y w : Nat) (hx : x % 2 ^ w = 0) (hy : y < 2 ^ w) :
    x ||| y = x + y := by
  have e : x = 2 ^ w * (x / 2 ^ w) := by
    have := Nat.div_add_mod x (2 ^ w)
    omega
  rw [e, Nat.mul_add_lt_is_or hy]

theorem hw_count_mask_pow (k : Nat) (hk : k ≤ 15) :
    hw_count_mask (2 ^ k) = 2 ^ 64 - 2 ^ (k + 16) := by
  interval_cases k <;> decide

theorem hw_count_carry_pow (k : Nat) (hk : k ≤ 14) :
    hw_count_carry (2 ^ k) = 2 ^ (k + 16) := by
  interval_cases k <;> decide

theorem toUInt64_lt (x : Int) : toUInt64 x < 2 ^ 64 := by
  unfold toUInt64
  omega

theorem loop_status_raw_lt (N s : Nat) : loop_status_raw N s < 2 ^ 32 := by
  unfold loop_status_raw
  exact Nat.mod_lt _ (by norm_num)

theorem loop_status_raw_word (N index count : Nat) (hi : index < 2 ^ 16) (hc : count < 2 ^ 16) :
    loop_status_raw N (status_word index count) = (count * N + index) % 2 ^ 32 := by
  unfold loop_status_raw status_word
  have h1 : (count * 2 ^ 16 + index) % 2 ^ 32 = count * 2 ^ 16 + index := by
    apply Nat.mod_eq_of_lt
    omega
  have h2 : (count * 2 ^ 16 + index) >>> 16 = count := by
    rw [Nat.shiftRight_eq_div_pow]
    omega
  have h3 : (count * 2 ^ 16 + index) &&& 0xffff = index := by
    show (count * 2 ^ 16 + index) &&& (2 ^ 16 - 1) = index
    rw [Nat.and_pow_two_sub_one_eq_mod]
    omega
  simp only [h1, h2, h3]

/-- The `&=` statement clears the low `k + 16` bits of the counter. -/
theorem masked_eq (k : Nat) (hk : k ≤ 15) (hw : Int) (h1 : -(2:Int) ^ 63 ≤ hw) (h2 : hw < 2 ^ 63) :
    toInt64 ((toUInt64 hw &&& hw_count_mask (2 ^ k) : Nat) : Int) = hw - hw % 2 ^ (k + 16) := by
  rw [hw_count_mask_pow k hk, and_high_mask _ _ (toUInt64_lt hw) (by omega)]
  unfold toInt64 toUInt64
  interval_cases k <;> omega

theorem masked_mod (k : Nat) (hk : k ≤ 15) (m : Int) (hm : m % 2 ^ (k + 16) = 0) :
    toUInt64 m % 2 ^ (k + 16) = 0 := by
  unfold toUInt64
  interval_cases k <;> omega

/-- Value after the `&=` and `|=` statements when `raw` fits the low field. -/
theorem hw_count_replace_eq (k : Nat) (hk : k ≤ 15) (hw : Int) (s : Nat)
    (h1 : -(2:Int) ^ 63 ≤ hw) (h2 : hw < 2 ^ 63)
    (hr : loop_status_raw (2 ^ k) s < 2 ^ (k + 16)) :
    hw_count_replace (2 ^ k) hw s = hw - hw % 2 ^ (k + 16) + loop_status_raw (2 ^ k) s := by
  unfold hw_count_replace
  simp only []
  rw [masked_eq k hk hw h1 h2]
  have hm : (hw - hw % 2 ^ (k + 16)) % 2 ^ (k + 16) = 0 := by
    interval_cases k <;> omega
  rw [or_low_bits _ _ (k + 16) (masked_mod k hk _ hm) hr]
  generalize loop_status_raw (2 ^ k) s = r at hr ⊢
  unfold toInt64 toUInt64
  interval_cases k <;> omega

theorem hw_count_replace_ge (k : Nat) (hk : k ≤ 15) (hw : Int) (s : Nat)
    (h1 : 0 ≤ hw) (h2 : hw < 2 ^ 63) :
    hw - hw % 2 ^ (k + 16) ≤ hw_count_replace (2 ^ k) hw s ∧
      hw_count_replace (2 ^ k) hw s < 2 ^ 63 := by
  unfold hw_count_replace
  simp only []
  rw [masked_eq k hk hw (by omega) h2]
  have hr := loop_status_raw_lt (2 ^ k) s
  generalize loop_status_raw (2 ^ k) s = r at hr ⊢
  have hm0 : 0 ≤ hw - hw % 2 ^ (k + 16) := by
    interval_cases k <;> omega
  have hm1 : hw - hw % 2 ^ (k + 16) < 2 ^ 63 := by
    interval_cases k <;> omega
  generalize hw - hw % 2 ^ (k + 16) = m at hm0 hm1 ⊢
  have hu : toUInt64 m = m.toNat := by
    unfold toUInt64
    omega
  rw [hu]
  have hle := le_or_left m.toNat r
  have hlt : m.toNat ||| r < 2 ^ 63 :=
    Nat.or_lt_two_pow (by omega) (by omega)
  generalize m.toNat ||| r = o at hle hlt ⊢
  unfold toInt64
  omega

/-- One interrupt never lowers a counter that equals its `last` copy. -/
theorem reconcile_step_mono (k : Nat) (hk : k ≤ 14) (h : Int) (s : Nat)
    (h0 : 0 ≤ h) (h1 : h < 2 ^ 63) (hno : carry_overflows (2 ^ k) h h s = false) :
    ∃ h2 : Int, reconcile (2 ^ k) h h s = (h2, h2) ∧ h ≤ h2 ∧ h2 < 2 ^ 63 := by
  obtain ⟨hlo, hhi⟩ := hw_count_replace_ge k (by omega) h s h0 h1
  unfold carry_overflows at hno
  unfold reconcile
  simp only [] at hno ⊢
  rw [hw_count_carry_pow k hk] at hno ⊢
  generalize hw_count_replace (2 ^ k) h s = r at hlo hhi hno ⊢
  simp only [decide_eq_false_iff_not, not_and, not_not] at hno
  by_cases hc : h > r
  · have hr := hno hc
    refine ⟨toInt64 (r + 2 ^ (k + 16)), by simp [hc], ?_, ?_⟩
    · unfold toInt64
      interval_cases k <;> omega
    · unfold toInt64
      interval_cases k <;> omega
  · exact ⟨r, by simp [hc], by omega, hhi⟩

theorem reconcile_run_chain (k : Nat) (hk : k ≤ 14) (statuses : List Nat) :
    ∀ h : Int, 0 ≤ h → h < 2 ^ 63 → no_overflow (2 ^ k) (h, h) statuses = true →
      List.Chain (fun a b : Int => a ≤ b) h
        ((reconcile_run (2 ^ k) (h, h) statuses).map Prod.fst) := by
  induction statuses with
  | nil => intro h _ _ _; simp [reconcile_run]
  | cons s rest ih =>
    intro h h0 h1 hno
    simp only [no_overflow, Bool.and_eq_true, Bool.not_eq_true'] at hno
    obtain ⟨h2, e, hle, hlt⟩ := reconcile_step_mono k hk h s h0 h1 hno.1
    simp only [reconcile_run, List.map_cons, List.chain_cons, e]
    rw [e] at hno
    exact ⟨hle, ih h2 (by omega) hlt hno.2⟩

/-- C1 as stated, refuted: with `DMA_BUFFER_COUNT = 2 ^ 15`, a power of two, the
`int` constant `1 << (ilog2(N) + 16)` is `1 << 31`, that is `-2 ^ 31`.  From reset,
the two interrupts with status words 5 and 0 overflow nothing in 64 bits and give
`hw_count = 5` and then `hw_count = -2147483648`: the sequence decreases. -/
theorem reconcile_decreases_large_ring :
    no_overflow (2 ^ 15) (0, 0) [5, 0] = true ∧
    (reconcile_run (2 ^ 15) (0, 0) [5, 0]).map Prod.fst = [5, -2147483648] ∧
    ¬ List.Chain (fun a b : Int => a ≤ b) 0
      ((reconcile_run (2 ^ 15) (0, 0) [5, 0]).map Prod.fst) := by
  have e : (reconcile_run (2 ^ 15) (0, 0) [5, 0]).map Prod.fst = [5, -2147483648] := by
    decide
  refine ⟨by decide, e, ?_⟩
  rw [e]
  intro h
  rw [List.chain_cons, List.chain_cons] at h
  exact absurd h.2.1 (by decide)

/-- C1, amended. Monotonicity of the counter reconciler for
`DMA_BUFFER_COUNT = 2 ^ k` with `k ≤ 14` (the powers of two for which the `int`
expression `1 << (ilog2(N) + 16)` is positive): from the reset state
`hw_count = hw_count_last = 0`, over any finite sequence of completion
interrupts with arbitrary loop-status words, the successive `hw_count` values
(preceded by the initial 0) form a non-decreasing sequence, provided no interrupt
overflows the 64-bit counter. -/
theorem reconcile_monotonic (k : Nat) (hk : k ≤ 14) (statuses : List Nat)
    (hno : no_overflow (2 ^ k) (0, 0) statuses = true) :
    List.Chain (fun a b : Int => a ≤ b) 0
      ((reconcile_run (2 ^ k) (0, 0) statuses).map Prod.fst) :=
  reconcile_run_chain k hk statuses 0 (by norm_num) (by norm_num) hno

theorem reconcile_monotonic_witness :
    no_overflow (2 ^ 4) (0, 0) [status_word 15 0, status_word 0 1, 5, 4294967295] = true ∧
    List.Chain (fun a b : Int => a ≤ b) 0
      ((reconcile_run (2 ^ 4) (0, 0)
        [status_word 15 0, status_word 0 1, 5, 4294967295]).map Prod.fst) :=
  ⟨by decide, reconcile_monotonic 4 (by decide) _ (by decide)⟩

/-- The handler step in arithmetic form, when the status fields give a `raw`
value that fits the low `k + 16` bits and the carry, if added, stays in range. -/
theorem reconcile_arith (k index count : Nat) (hw last : Int) (hk : k ≤ 14)
    (hi : index < 2 ^ 16) (hc : count < 2 ^ 16)
    (hraw : count * 2 ^ k + index < 2 ^ (k + 16))
    (h1 : -(2 : Int) ^ 63 ≤ hw) (h2 : hw < 2 ^ 63)
    (hov : last > hw - hw % 2 ^ (k + 16) + ((count * 2 ^ k + index : Nat) : Int) →
      hw - hw % 2 ^ (k + 16) + ((count * 2 ^ k + index : Nat) : Int) + 2 ^ (k + 16) < 2 ^ 63) :
    reconcile (2 ^ k) hw last (status_word index count)
      = reconcile_spec (k + 16) (count * 2 ^ k + index) hw last := by
  have hlt : count * 2 ^ k + index < 2 ^ 32 :=
    lt_of_lt_of_le hraw (Nat.pow_le_pow_right (by norm_num) (by omega))
  have hrw : loop_status_raw (2 ^ k) (status_word index count) = count * 2 ^ k + index := by
    rw [loop_status_raw_word _ _ _ hi hc, Nat.mod_eq_of_lt hlt]
  have hrep := hw_count_replace_eq k (by omega) hw (status_word index count) h1 h2
    (by rw [hrw]; exact hraw)
  unfold reconcile reconcile_spec
  simp only []
  rw [hrep, hrw, hw_count_carry_pow k hk]
  generalize count * 2 ^ k + index = raw at hraw hlt hov
  by_cases hb : last > hw - hw % 2 ^ (k + 16) + (raw : Int)
  · have hv : toInt64 (hw - hw % 2 ^ (k + 16) + (raw : Int) + 2 ^ (k + 16))
        = hw - hw % 2 ^ (k + 16) + (raw : Int) + 2 ^ (k + 16) := by
      have := hov hb
      unfold toInt64
      interval_cases k <;> omega
    simp only [hb, if_true, hv]
  · simp only [hb, if_false]

/-- C3 as stated, refuted: for `N = 2 ^ 16` the C mask is 0, so it clears bit 32
of the pattern `2 ^ 32`, which is not among the low `w = 32` bits; and for
`N = 2 ^ 15` (`w = 31`), with `hw_count = hw_count_last = 5` and status word 0
(`raw = 0`, `v = 0`, `hw_count_last > v`), the handler yields `-2 ^ 31` where the
specified function yields `v + 2 ^ w = 2 ^ 31`. -/
theorem reconcile_differs_large_ring :
    (2 ^ 32 : Nat) < 2 ^ 64 ∧
    (2 ^ 32 : Nat) &&& hw_count_mask (2 ^ 16) = 0 ∧
    (2 ^ 32 : Nat) - 2 ^ 32 % 2 ^ (16 + 16) = 2 ^ 32 ∧
    ilog2 (2 ^ 15) + 16 = 15 + 16 ∧
    reconcile (2 ^ 15) 5 5 (status_word 0 0) = (-2147483648, -2147483648) ∧
    reconcile_spec (15 + 16) (0 * 2 ^ 15 + 0) 5 5 = (2147483648, 2147483648) := by
  decide

/-- C3, amended. The reconciliation step equals the specified pure function for
`DMA_BUFFER_COUNT = 2 ^ k` with `k ≤ 14` (the powers of two for which the `int`
expressions of the handler keep their mathematical value) and `w = k + 16`: the C
mask clears exactly the low `w` bits of any 64-bit pattern, and for status fields `index`, `count` with `raw = count * N + index < 2 ^ w`
the handler yields `reconcile_spec`: `v` is `hw_count` with its low `w` bits replaced
by `raw`, the new `hw_count` is `v + 2 ^ w` if `hw_count_last > v` and `v` otherwise,
and `hw_count_last` is set to the new `hw_count`.  `hw_count` is any `int64_t` value
at least `2 ^ 31` below the maximum, so that the carry does not overflow. -/
theorem reconcile_eq_spec (k index count : Nat) (hw last : Int) (hk : k ≤ 14)
    (hi : index < 2 ^ 16) (hc : count < 2 ^ 16)
    (hraw : count * 2 ^ k + index < 2 ^ (k + 16))
    (h1 : -(2 : Int) ^ 63 ≤ hw) (h2 : hw < 2 ^ 63 - 2 ^ 31) :
    (∀ x : Nat, x < 2 ^ 64 → x &&& hw_count_mask (2 ^ k) = x - x % 2 ^ (k + 16)) ∧
    ilog2 (2 ^ k) + 16 = k + 16 ∧
    reconcile (2 ^ k) hw last (status_word index count)
      = reconcile_spec (k + 16) (count * 2 ^ k + index) hw last := by
  refine ⟨?_, ?_, reconcile_arith k index count hw last hk hi hc hraw h1 (by omega) ?_⟩
  · intro x hx
    rw [hw_count_mask_pow k (by omega), and_high_mask x (k + 16) hx (by omega)]
  · interval_cases k <;> decide
  · intro _
    have hr : ((count * 2 ^ k + index : Nat) : Int) < 2 ^ (k + 16) := by exact_mod_cast hraw
    generalize ((count * 2 ^ k + index : Nat) : Int) = raw at hr
    interval_cases k <;> omega

theorem reconcile_eq_spec_witness :
    reconcile (2 ^ 4) 1048575 1048575 (status_word 0 0)
      = reconcile_spec (4 + 16) (0 * 2 ^ 4 + 0) 1048575 1048575 ∧
    reconcile_spec (4 + 16) (0 * 2 ^ 4 + 0) 1048575 1048575 = (1048576, 1048576) :=
  ⟨(reconcile_eq_spec 4 0 0 1048575 1048575 (by decide) (by decide) (by decide)
      (by decide) (by decide) (by decide)).2.2, by decide⟩

/-- C2 as stated, refuted: with `N = 2 ^ 15` (`w = 31`), `T = 2 ^ 31 - 1` and
`T2 = 2 ^ 31` (so `T ≤ T2 < T + 2 ^ w`), the interrupt with `index = T2 mod N = 0`
and `count = (T2 div N) mod 2 ^ 16 = 0` sets `hw_count` to `-2147483648`, not to
`T2`: the `int` carry `1 << 31` is negative. -/
theorem reconcile_inexact_large_ring :
    (2 ^ 31 - 1 : Nat) ≤ 2 ^ 31 ∧ (2 ^ 31 : Nat) < (2 ^ 31 - 1) + 2 ^ (15 + 16) ∧
    ilog2 (2 ^ 15) + 16 = 15 + 16 ∧
    reconcile (2 ^ 15) ((2 ^ 31 - 1 : Nat) : Int) ((2 ^ 31 - 1 : Nat) : Int)
        (status_word (2 ^ 31 % 2 ^ 15) (2 ^ 31 / 2 ^ 15 % 2 ^ 16))
      = (-2147483648, -2147483648) ∧
    (-2147483648 : Int) ≠ ((2 ^ 31 : Nat) : Int) := by
  decide

/-- C2, amended. Wraparound compensation is exact for `N = 2 ^ k` with `k ≤ 14`.
With `w = k + 16`: if `hw_count = hw_count_last = T` and the true cumulative count
`T2` satisfies `T ≤ T2 < T + 2 ^ w` (and fits an `int64_t`), then the interrupt whose
status word has `index = T2 mod N` and `count = (T2 div N) mod 2 ^ 16` sets
`hw_count` (and `hw_count_last`) to exactly `T2`.  Scenario A (`N = 16`): from 0,
`(index = 15, count = 0)` gives 15 and then `(index = 0, count = 1)` gives 16. -/
theorem reconcile_exact (k T T2 : Nat) (hk : k ≤ 14) (hle : T ≤ T2)
    (hlt : T2 < T + 2 ^ (k + 16)) (h63 : T2 < 2 ^ 63) :
    reconcile (2 ^ k) (T : Int) (T : Int)
        (status_word (T2 % 2 ^ k) (T2 / 2 ^ k % 2 ^ 16)) = ((T2 : Int), (T2 : Int)) ∧
    reconcile 16 0 0 (status_word 15 0) = (15, 15) ∧
    reconcile 16 15 15 (status_word 0 1) = (16, 16) := by
  refine ⟨?_, by decide, by decide⟩
  have hi : T2 % 2 ^ k < 2 ^ 16 :=
    lt_of_lt_of_le (Nat.mod_lt _ (by positivity)) (Nat.pow_le_pow_right (by norm_num) (by omega))
  have hc : T2 / 2 ^ k % 2 ^ 16 < 2 ^ 16 := Nat.mod_lt _ (by norm_num)
  have hraw : T2 / 2 ^ k % 2 ^ 16 * 2 ^ k + T2 % 2 ^ k = T2 % 2 ^ (k + 16) := by
    interval_cases k <;> omega
  have hrawlt : T2 / 2 ^ k % 2 ^ 16 * 2 ^ k + T2 % 2 ^ k < 2 ^ (k + 16) := by
    rw [hraw]; exact Nat.mod_lt _ (by positivity)
  have e := reconcile_arith k _ _ (T : Int) (T : Int) hk hi hc hrawlt (by omega) (by omega) (by
    intro _
    rw [hraw]
    interval_cases k <;> omega)
  rw [e, hraw]
  unfold reconcile_spec
  simp only []
  have hfin : (if (T : Int) > (T : Int) - (T : Int) % 2 ^ (k + 16) + ((T2 % 2 ^ (k + 16) : Nat) : Int)
      then (T : Int) - (T : Int) % 2 ^ (k + 16) + ((T2 % 2 ^ (k + 16) : Nat) : Int) + 2 ^ (k + 16)
      else (T : Int) - (T : Int) % 2 ^ (k + 16) + ((T2 % 2 ^ (k + 16) : Nat) : Int)) = (T2 : Int) := by
    split_ifs with hb
    · interval_cases k <;> omega
    · interval_cases k <;> omega
  rw [hfin]

theorem reconcile_exact_witness :
    (16 : Nat) ≤ 1048579 ∧
    reconcile (2 ^ 4) ((16 : Nat) : Int) ((16 : Nat) : Int)
        (status_word (1048579 % 2 ^ 4) (1048579 / 2 ^ 4 % 2 ^ 16))
      = (((1048579 : Nat) : Int), ((1048579 : Nat) : Int)) :=
  ⟨by decide, (reconcile_exact 4 16 1048579 (by decide) (by decide) (by decide) (by decide)).1⟩

/-! ## Transfer layer: non-blocking calls -/

/-- C4. A non-blocking read on a channel whose writer direction has
`hw_count == sw_count` returns `-EAGAIN` (would block, not zero bytes), copies
nothing, reports no overflow and leaves the whole channel, hence `sw_count` and
every other counter, unchanged. -/
theorem read_nonblock_would_block (cfg : dma_config) (events : List wait_event)
    (fault : Nat → Bool) (size : Nat) (chan : litepcie_dma_chan)
    (heq : chan.writer_hw_count = chan.writer_sw_count) :
    litepcie_read cfg true events fault size chan
        = some { ret := -EAGAIN, chan := chan, lost := 0, copies := [] } ∧
      -EAGAIN ≠ (0 : Int) ∧ -EAGAIN < (0 : Int) := by
  refine ⟨?_, by decide, by decide⟩
  simp [litepcie_read, litepcie_read_wait, heq, EAGAIN]

theorem read_nonblock_would_block_witness :
    litepcie_read ⟨16, 8192⟩ true [] (fun _ => false) 8192
        { chan_reset with writer_hw_count := 7, writer_hw_count_last := 7, writer_sw_count := 7 }
      = some { ret := -EAGAIN,
               chan := { chan_reset with
                 writer_hw_count := 7, writer_hw_count_last := 7, writer_sw_count := 7 },
               lost := 0, copies := [] } :=
  (read_nonblock_would_block ⟨16, 8192⟩ [] (fun _ => false) 8192
    { chan_reset with writer_hw_count := 7, writer_hw_count_last := 7, writer_sw_count := 7 }
    rfl).1

/-- C5 (the code at the failing input). A non-blocking write on the freshly
started reader direction (`hw_count = sw_count = 0`, the whole ring free) returns
`-EAGAIN`, and a non-blocking write with no room (`sw_count - hw_count = N/2`,
`N = 16`) does not: it returns 0 bytes.  The test made is
`reader_hw_count == reader_sw_count`, not `sw_count - hw_count >= N/2`. -/
theorem write_nonblock_fresh_would_block :
    litepcie_write ⟨16, 8192⟩ true [] (fun _ => false) 8192 chan_reset
        = some { ret := -EAGAIN, chan := chan_reset, lost := 0, copies := [] } ∧
    sub64 chan_reset.reader_sw_count chan_reset.reader_hw_count < ((16 / 2 : Nat) : Int) ∧
    litepcie_write ⟨16, 8192⟩ true [] (fun _ => false) 8192
        { chan_reset with reader_sw_count := 8 }
      = some { ret := 0, chan := { chan_reset with reader_sw_count := 8 },
               lost := 0, copies := [] } := by
  decide

/-! ## Transfer layer: the copy loops in closed form -/

theorem read_copies_succ (cfg : dma_config) (i : Nat) (sw b : Int) (m : Nat) :
    read_copies cfg i sw b (m + 1)
      = (if b ≤ ((cfg.DMA_BUFFER_COUNT / 2 : Nat) : Int)
          then [((block_size cfg * i) % 2 ^ 32, Int.tmod sw cfg.DMA_BUFFER_COUNT)] else [])
        ++ read_copies cfg (i + 1) (sw + 1) (b - 1) m := by
  unfold read_copies
  generalize ((cfg.DMA_BUFFER_COUNT / 2 : Nat) : Int) = t
  rw [List.range_succ_eq_map, List.filter_cons]
  have e1 : ∀ j : Nat, (b - 1 - (j : Int) ≤ t) ↔ (b - ((j + 1 : Nat) : Int) ≤ t) := by
    intro j; push_cast; omega
  have e2 : ∀ j : Nat, sw + 1 + (j : Int) = sw + ((j + 1 : Nat) : Int) := by
    intro j; push_cast; omega
  have e3 : ∀ j : Nat, i + 1 + j = i + (j + 1) := by intro j; omega
  simp only [List.filter_map, List.map_map, Function.comp_def, Nat.succ_eq_add_one, e1, e2, e3]
  by_cases hb : b ≤ t
  · simp [hb]
  · simp [hb]

theorem write_copies_succ (cfg : dma_config) (i : Nat) (sw d : Int) (m : Nat) :
    write_copies cfg i sw d (m + 1)
      = (if 0 ≤ d
          then [((block_size cfg * i) % 2 ^ 32, Int.tmod sw cfg.DMA_BUFFER_COUNT)] else [])
        ++ write_copies cfg (i + 1) (sw + 1) (d + 1) m := by
  unfold write_copies
  rw [List.range_succ_eq_map, List.filter_cons]
  have e1 : ∀ j : Nat, (0 ≤ d + 1 + (j : Int)) ↔ (0 ≤ d + ((j + 1 : Nat) : Int)) := by
    intro j; push_cast; omega
  have e2 : ∀ j : Nat, sw + 1 + (j : Int) = sw + ((j + 1 : Nat) : Int) := by
    intro j; push_cast; omega
  have e3 : ∀ j : Nat, i + 1 + j = i + (j + 1) := by intro j; omega
  simp only [List.filter_map, List.map_map, Function.comp_def, Nat.succ_eq_add_one, e1, e2, e3]
  by_cases hb : 0 ≤ d
  · simp [hb]
  · simp [hb]

theorem read_loop_closed (cfg : dma_config) (fault : Nat → Bool)
    (hf : ∀ i, fault i = false) :
    ∀ (q fuel r i lost : Nat) (copies : List (Nat × Int)) (chan : litepcie_dma_chan)
      (fl : Bool), q ≤ fuel → r < cfg.DMA_BUFFER_SIZE →
      -(2 : Int) ^ 63 ≤ chan.writer_sw_count →
      chan.writer_sw_count
        + ((min q (max (sub64 chan.writer_hw_count chan.writer_sw_count) 0).toNat : Nat) : Int)
        < 2 ^ 63 →
      read_loop cfg fault fuel
          { len := q * cfg.DMA_BUFFER_SIZE + r, i := i, lost := lost, copies := copies,
            chan := chan, faulted := fl }
        = { len := (q - min q (max (sub64 chan.writer_hw_count chan.writer_sw_count) 0).toNat)
                    * cfg.DMA_BUFFER_SIZE + r,
            i := i + min q (max (sub64 chan.writer_hw_count chan.writer_sw_count) 0).toNat,
            lost := lost + min (min q (max (sub64 chan.writer_hw_count chan.writer_sw_count) 0).toNat)
              (max (sub64 chan.writer_hw_count chan.writer_sw_count
                - ((cfg.DMA_BUFFER_COUNT / 2 : Nat) : Int)) 0).toNat,
            copies := copies ++ read_copies cfg i chan.writer_sw_count
              (sub64 chan.writer_hw_count chan.writer_sw_count)
              (min q (max (sub64 chan.writer_hw_count chan.writer_sw_count) 0).toNat),
            chan := { chan with writer_sw_count := chan.writer_sw_count
              + ((min q (max (sub64 chan.writer_hw_count chan.writer_sw_count) 0).toNat : Nat) : Int) },
            faulted := fl } := by
  intro q
  induction q with
  | zero =>
    intro fuel r i lost copies chan fl _ hr _ _
    have hlen : ¬ cfg.DMA_BUFFER_SIZE ≤ r := by omega
    cases fuel with
    | zero => simp [read_loop, read_copies]
    | succ f => simp [read_loop, read_copies, hlen]
  | succ q ih =>
    intro fuel r i lost copies chan fl hq hr hsw hno
    obtain ⟨f, rfl⟩ : ∃ f, fuel = f + 1 := ⟨fuel - 1, by omega⟩
    have hlen : cfg.DMA_BUFFER_SIZE ≤ (q + 1) * cfg.DMA_BUFFER_SIZE + r := by
      rw [Nat.succ_mul]; omega
    have hsub : (q + 1) * cfg.DMA_BUFFER_SIZE + r - cfg.DMA_BUFFER_SIZE
        = q * cfg.DMA_BUFFER_SIZE + r := by
      rw [Nat.succ_mul]; omega
    rw [read_loop]
    simp only [hlen, if_true, hsub, hf, Bool.false_eq_true, if_false]
    generalize hbdef : sub64 chan.writer_hw_count chan.writer_sw_count = b at hno ⊢
    generalize htdef : ((cfg.DMA_BUFFER_COUNT / 2 : Nat) : Int) = t
    have ht : 0 ≤ t := by rw [← htdef]; exact Int.ofNat_nonneg _
    by_cases hb : b > 0
    · have hsw1 : toInt64 (chan.writer_sw_count + 1) = chan.writer_sw_count + 1 := by
        unfold toInt64; omega
      have hb1 : sub64 chan.writer_hw_count (chan.writer_sw_count + 1) = b - 1 := by
        rw [← hbdef]; rw [← hbdef] at hb
        unfold sub64 toInt64 at hb ⊢; omega
      have hm : min (q + 1) (max b 0).toNat = min q (max (b - 1) 0).toNat + 1 := by
        omega
      simp only [hb, if_true, hsw1]
      by_cases hov : b > t
      · simp only [hov, if_true]
        rw [ih f r (i + 1) (lost + 1) copies _ fl (by omega) hr (by simp only []; omega)
          (by simp only [hb1]; omega)]
        simp only [hb1, htdef, hm, read_copies_succ]
        have hnot : ¬ b ≤ t := by omega
        simp only [hnot, if_false, List.nil_append, Nat.add_sub_add_right]
        congr 1
        · omega
        · omega
        · push_cast; congr 1; omega
      · simp only [hov, if_false]
        rw [ih f r (i + 1) lost _ _ fl (by omega) hr (by simp only []; omega)
          (by simp only [hb1]; omega)]
        simp only [hb1, htdef, hm, read_copies_succ]
        have hle : b ≤ t := by omega
        simp only [hle, if_true, Nat.add_sub_add_right, List.append_assoc]
        congr 1
        · omega
        · omega
        · push_cast; congr 1; omega
    · have hm : min (q + 1) (max b 0).toNat = 0 := by omega
      simp only [hb, if_false, hm, read_copies]
      simp

theorem write_loop_closed (cfg : dma_config) (fault : Nat → Bool)
    (hf : ∀ i, fault i = false) (hN : cfg.DMA_BUFFER_COUNT < 2 ^ 31) :
    ∀ (q fuel r i lost : Nat) (copies : List (Nat × Int)) (chan : litepcie_dma_chan)
      (fl : Bool), q ≤ fuel → r < cfg.DMA_BUFFER_SIZE →
      -(2 : Int) ^ 63 ≤ chan.reader_sw_count →
      chan.reader_sw_count
        + ((min q (max (((cfg.DMA_BUFFER_COUNT / 2 : Nat) : Int)
            - sub64 chan.reader_sw_count chan.reader_hw_count) 0).toNat : Nat) : Int)
        < 2 ^ 63 →
      write_loop cfg fault fuel
          { len := q * cfg.DMA_BUFFER_SIZE + r, i := i, lost := lost, copies := copies,
            chan := chan, faulted := fl }
        = { len := (q - min q (max (((cfg.DMA_BUFFER_COUNT / 2 : Nat) : Int)
                      - sub64 chan.reader_sw_count chan.reader_hw_count) 0).toNat)
                    * cfg.DMA_BUFFER_SIZE + r,
            i := i + min q (max (((cfg.DMA_BUFFER_COUNT / 2 : Nat) : Int)
                      - sub64 chan.reader_sw_count chan.reader_hw_count) 0).toNat,
            lost := lost + min (min q (max (((cfg.DMA_BUFFER_COUNT / 2 : Nat) : Int)
                      - sub64 chan.reader_sw_count chan.reader_hw_count) 0).toNat)
              (max (-sub64 chan.reader_sw_count chan.reader_hw_count) 0).toNat,
            copies := copies ++ write_copies cfg i chan.reader_sw_count
              (sub64 chan.reader_sw_count chan.reader_hw_count)
              (min q (max (((cfg.DMA_BUFFER_COUNT / 2 : Nat) : Int)
                      - sub64 chan.reader_sw_count chan.reader_hw_count) 0).toNat),
            chan := { chan with reader_sw_count := chan.reader_sw_count
              + ((min q (max (((cfg.DMA_BUFFER_COUNT / 2 : Nat) : Int)
                      - sub64 chan.reader_sw_count chan.reader_hw_count) 0).toNat : Nat) : Int) },
            faulted := fl } := by
  intro q
  induction q with
  | zero =>
    intro fuel r i lost copies chan fl _ hr _ _
    have hlen : ¬ cfg.DMA_BUFFER_SIZE ≤ r := by omega
    cases fuel with
    | zero => simp [write_loop, write_copies]
    | succ f => simp [write_loop, write_copies, hlen]
  | succ q ih =>
    intro fuel r i lost copies chan fl hq hr hsw hno
    obtain ⟨f, rfl⟩ : ∃ f, fuel = f + 1 := ⟨fuel - 1, by omega⟩
    have hlen : cfg.DMA_BUFFER_SIZE ≤ (q + 1) * cfg.DMA_BUFFER_SIZE + r := by
      rw [Nat.succ_mul]; omega
    have hsub : (q + 1) * cfg.DMA_BUFFER_SIZE + r - cfg.DMA_BUFFER_SIZE
        = q * cfg.DMA_BUFFER_SIZE + r := by
      rw [Nat.succ_mul]; omega
    rw [write_loop]
    simp only [hlen, if_true, hsub, hf, Bool.false_eq_true, if_false]
    have ht1 : ((cfg.DMA_BUFFER_COUNT / 2 : Nat) : Int) < 2 ^ 30 := by omega
    generalize hddef : sub64 chan.reader_sw_count chan.reader_hw_count = d at hno ⊢
    generalize htdef : ((cfg.DMA_BUFFER_COUNT / 2 : Nat) : Int) = t at hno ht1 ⊢
    have ht : 0 ≤ t := by rw [← htdef]; exact Int.ofNat_nonneg _
    by_cases hb : d < t
    · have hsw1 : toInt64 (chan.reader_sw_count + 1) = chan.reader_sw_count + 1 := by
        unfold toInt64; omega
      have hd1 : sub64 (chan.reader_sw_count + 1) chan.reader_hw_count = d + 1 := by
        rw [← hddef]; rw [← hddef] at hb
        unfold sub64 toInt64 at hb ⊢; omega
      have hm : min (q + 1) (max (t - d) 0).toNat = min q (max (t - (d + 1)) 0).toNat + 1 := by
        omega
      simp only [hb, if_true, hsw1]
      by_cases hun : d < 0
      · simp only [hun, if_true]
        rw [ih f r (i + 1) (lost + 1) copies _ fl (by omega) hr (by simp only []; omega)
          (by simp only [hd1, htdef]; omega)]
        simp only [hd1, htdef, hm, write_copies_succ]
        have hnot : ¬ 0 ≤ d := by omega
        simp only [hnot, if_false, List.nil_append, Nat.add_sub_add_right]
        congr 1
        · omega
        · omega
        · push_cast; congr 1; omega
      · simp only [hun, if_false]
        rw [ih f r (i + 1) lost _ _ fl (by omega) hr (by simp only []; omega)
          (by simp only [hd1, htdef]; omega)]
        simp only [hd1, htdef, hm, write_copies_succ]
        have hle : 0 ≤ d := by omega
        simp only [hle, if_true, Nat.add_sub_add_right, List.append_assoc]
        congr 1
        · omega
        · omega
        · push_cast; congr 1; omega
    · have hm : min (q + 1) (max (t - d) 0).toNat = 0 := by omega
      simp only [hb, if_false, hm, write_copies]
      simp

/-! ## Transfer layer: what one call transfers -/

theorem wait_writer_sw (cfg : dma_config) (cond : litepcie_dma_chan → Bool)
    (events : List wait_event) :
    ∀ (chan c1 : litepcie_dma_chan) (ret : Int),
      wait_event_interruptible cond (irq_writer cfg) events chan = some (ret, c1) →
      c1.writer_sw_count = chan.writer_sw_count := by
  induction events with
  | nil =>
    intro chan c1 ret h
    unfold wait_event_interruptible at h
    by_cases hc : cond chan = true
    · simp [hc] at h; rw [← h.2]
    · simp [hc] at h
  | cons e rest ih =>
    intro chan c1 ret h
    unfold wait_event_interruptible at h
    by_cases hc : cond chan = true
    · simp [hc] at h; rw [← h.2]
    · cases e with
      | signal => simp [hc] at h; rw [← h.2]
      | irq st =>
        simp only [hc, Bool.false_eq_true, if_false] at h
        rw [ih _ _ _ h]
        simp [irq_writer]

theorem read_wait_sw (cfg : dma_config) (nonblock : Bool) (events : List wait_event)
    (chan c1 : litepcie_dma_chan) (ret : Int)
    (h : litepcie_read_wait cfg nonblock events chan = some (ret, c1)) :
    c1.writer_sw_count = chan.writer_sw_count := by
  unfold litepcie_read_wait at h
  cases nonblock with
  | true =>
    by_cases he : chan.writer_hw_count = chan.writer_sw_count
    · simp [he] at h; rw [← h.2]
    · simp [he] at h; rw [← h.2]
  | false =>
    simp only [Bool.false_eq_true, if_false] at h
    exact wait_writer_sw cfg _ events chan c1 ret h

theorem read_after_wait (cfg : dma_config) (nonblock : Bool) (events : List wait_event)
    (fault : Nat → Bool) (size : Nat) (chan chan1 : litepcie_dma_chan)
    (hB : 0 < cfg.DMA_BUFFER_SIZE) (hf : ∀ i, fault i = false)
    (hwait : litepcie_read_wait cfg nonblock events chan = some (0, chan1))
    (hsize : size < 2 ^ 63)
    (hsw : -(2 : Int) ^ 63 ≤ chan1.writer_sw_count)
    (hno : chan1.writer_sw_count
      + (read_slots cfg size (sub64 chan1.writer_hw_count chan1.writer_sw_count) : Int)
      < 2 ^ 63) :
    litepcie_read cfg nonblock events fault size chan
      = some
        { ret := ((read_slots cfg size (sub64 chan1.writer_hw_count chan1.writer_sw_count)
            * cfg.DMA_BUFFER_SIZE : Nat) : Int),
          chan := { chan1 with writer_sw_count := chan1.writer_sw_count
            + (read_slots cfg size (sub64 chan1.writer_hw_count chan1.writer_sw_count) : Int) },
          lost := min (read_slots cfg size (sub64 chan1.writer_hw_count chan1.writer_sw_count))
            (max (sub64 chan1.writer_hw_count chan1.writer_sw_count
              - ((cfg.DMA_BUFFER_COUNT / 2 : Nat) : Int)) 0).toNat,
          copies := read_copies cfg 0 chan1.writer_sw_count
            (sub64 chan1.writer_hw_count chan1.writer_sw_count)
            (read_slots cfg size (sub64 chan1.writer_hw_count chan1.writer_sw_count)) } := by
  have key := read_loop_closed cfg fault hf (size / cfg.DMA_BUFFER_SIZE) size
    (size % cfg.DMA_BUFFER_SIZE) 0 0 [] chan1 false (Nat.div_le_self _ _)
    (Nat.mod_lt _ hB) hsw hno
  rw [Nat.div_add_mod'] at key
  unfold litepcie_read
  simp only [hwait, lt_self_iff_false, if_false, key, Bool.false_eq_true]
  unfold read_slots
  have hm : min (size / cfg.DMA_BUFFER_SIZE)
      (max (sub64 chan1.writer_hw_count chan1.writer_sw_count) 0).toNat
      ≤ size / cfg.DMA_BUFFER_SIZE := Nat.min_le_left _ _
  generalize min (size / cfg.DMA_BUFFER_SIZE)
    (max (sub64 chan1.writer_hw_count chan1.writer_sw_count) 0).toNat = m at hm ⊢
  have hret : size - ((size / cfg.DMA_BUFFER_SIZE - m) * cfg.DMA_BUFFER_SIZE
      + size % cfg.DMA_BUFFER_SIZE) = m * cfg.DMA_BUFFER_SIZE := by
    have h1 := Nat.div_add_mod' size cfg.DMA_BUFFER_SIZE
    have h2 : (size / cfg.DMA_BUFFER_SIZE - m) * cfg.DMA_BUFFER_SIZE
        = size / cfg.DMA_BUFFER_SIZE * cfg.DMA_BUFFER_SIZE - m * cfg.DMA_BUFFER_SIZE :=
      Nat.sub_mul _ _ _
    have h3 : m * cfg.DMA_BUFFER_SIZE ≤ size / cfg.DMA_BUFFER_SIZE * cfg.DMA_BUFFER_SIZE :=
      Nat.mul_le_mul_right _ hm
    omega
  have hle : m * cfg.DMA_BUFFER_SIZE ≤ size := by omega
  rw [hret]
  have h64 : toInt64 ((m * cfg.DMA_BUFFER_SIZE : Nat) : Int)
      = ((m * cfg.DMA_BUFFER_SIZE : Nat) : Int) := by
    generalize m * cfg.DMA_BUFFER_SIZE = x at hle
    unfold toInt64
    omega
  rw [h64]
  simp

theorem range_filter_gt_length (b t : Int) (n : Nat) :
    ((List.range n).filter (fun j : Nat => decide (b - (j : Int) > t))).length
      = min n (max (b - t) 0).toNat := by
  induction n with
  | zero => simp
  | succ n ih =>
    rw [List.range_succ, List.filter_append, List.length_append, ih]
    by_cases h : b - (n : Int) > t
    · simp only [List.filter_cons, h, decide_True, if_true, List.filter_nil, List.length_singleton]
      omega
    · simp only [List.filter_cons, h, decide_False, Bool.false_eq_true, if_false,
        List.filter_nil, List.length_nil]
      omega

theorem read_copies_length_of_le (cfg : dma_config) (i : Nat) (sw b : Int) (m : Nat)
    (hb : b ≤ ((cfg.DMA_BUFFER_COUNT / 2 : Nat) : Int)) :
    (read_copies cfg i sw b m).length = m := by
  unfold read_copies
  rw [List.length_map, List.filter_eq_self.mpr, List.length_range]
  intro j _
  simp only [decide_eq_true_eq]
  omega

theorem range_filter_le_length (b t : Int) (n : Nat) :
    ((List.range n).filter (fun j : Nat => decide (b - (j : Int) ≤ t))).length
      = n - min n (max (b - t) 0).toNat := by
  induction n with
  | zero => simp
  | succ n ih =>
    rw [List.range_succ, List.filter_append, List.length_append, ih]
    by_cases h : b - (n : Int) ≤ t
    · simp only [List.filter_cons, h, decide_True, if_true, List.filter_nil, List.length_singleton]
      omega
    · simp only [List.filter_cons, h, decide_False, Bool.false_eq_true, if_false,
        List.filter_nil, List.length_nil]
      omega

theorem read_copies_length (cfg : dma_config) (i : Nat) (sw b : Int) (m : Nat) :
    (read_copies cfg i sw b m).length
      = m - min m (max (b - ((cfg.DMA_BUFFER_COUNT / 2 : Nat) : Int)) 0).toNat := by
  unfold read_copies
  rw [List.length_map, range_filter_le_length]

theorem range_filter_nonneg_length (d : Int) (n : Nat) :
    ((List.range n).filter (fun j : Nat => decide (0 ≤ d + (j : Int)))).length
      = n - min n (max (-d) 0).toNat := by
  induction n with
  | zero => simp
  | succ n ih =>
    rw [List.range_succ, List.filter_append, List.length_append, ih]
    by_cases h : 0 ≤ d + (n : Int)
    · simp only [List.filter_cons, h, decide_True, if_true, List.filter_nil, List.length_singleton]
      omega
    · simp only [List.filter_cons, h, decide_False, Bool.false_eq_true, if_false,
        List.filter_nil, List.length_nil]
      omega

theorem write_copies_length (cfg : dma_config) (i : Nat) (sw d : Int) (m : Nat) :
    (write_copies cfg i sw d m).length = m - min m (max (-d) 0).toNat := by
  unfold write_copies
  rw [List.length_map, range_filter_nonneg_length]

/-- C6. Read transfer count.  For a read of `size` bytes that passes the wait in
state `chan1` with backlog `b = writer_hw_count - writer_sw_count`, every copy
succeeding: the call returns, its return value is exactly `n * DMA_BUFFER_SIZE`
with `n = min (size / DMA_BUFFER_SIZE) (max b 0)` (a multiple of the buffer size,
at most `size`), `writer_sw_count` has grown by exactly `n` and `writer_hw_count`
is untouched; the `n` slots are the skipped ones plus the copied ones, so skipped
slots count like copied ones. -/
theorem read_transfer_count (cfg : dma_config) (nonblock : Bool) (events : List wait_event)
    (fault : Nat → Bool) (size : Nat) (chan chan1 : litepcie_dma_chan)
    (hB : 0 < cfg.DMA_BUFFER_SIZE) (hf : ∀ i, fault i = false)
    (hwait : litepcie_read_wait cfg nonblock events chan = some (0, chan1))
    (hsize : size < 2 ^ 63)
    (hsw : -(2 : Int) ^ 63 ≤ chan1.writer_sw_count)
    (hno : chan1.writer_sw_count
      + (read_slots cfg size (sub64 chan1.writer_hw_count chan1.writer_sw_count) : Int)
      < 2 ^ 63) :
    ∃ r : transfer_result,
      litepcie_read cfg nonblock events fault size chan = some r ∧
      r.ret = ((read_slots cfg size (sub64 chan1.writer_hw_count chan1.writer_sw_count)
        * cfg.DMA_BUFFER_SIZE : Nat) : Int) ∧
      r.ret ≤ (size : Int) ∧
      r.chan.writer_sw_count = chan.writer_sw_count
        + (read_slots cfg size (sub64 chan1.writer_hw_count chan1.writer_sw_count) : Int) ∧
      r.chan.writer_hw_count = chan1.writer_hw_count ∧
      r.lost + r.copies.length
        = read_slots cfg size (sub64 chan1.writer_hw_count chan1.writer_sw_count) := by
  refine ⟨_, read_after_wait cfg nonblock events fault size chan chan1 hB hf hwait hsize hsw hno,
    rfl, ?_, ?_, rfl, ?_⟩
  · simp only []
    have h1 : read_slots cfg size (sub64 chan1.writer_hw_count chan1.writer_sw_count)
        ≤ size / cfg.DMA_BUFFER_SIZE := Nat.min_le_left _ _
    have h2 := Nat.mul_le_mul_right cfg.DMA_BUFFER_SIZE h1
    have h3 := Nat.div_mul_le_self size cfg.DMA_BUFFER_SIZE
    exact_mod_cast le_trans h2 h3
  · simp only []
    rw [read_wait_sw cfg nonblock events chan chan1 0 hwait]
  · simp only []
    rw [read_copies_length]
    omega

theorem read_transfer_count_witness :
    ∃ r : transfer_result,
      litepcie_read ⟨16, 8192⟩ true [] (fun _ => false) (20 * 8192 + 5)
        { chan_reset with writer_hw_count := 12 } = some r ∧
      r.ret = ((read_slots ⟨16, 8192⟩ (20 * 8192 + 5) (sub64 12 0) * 8192 : Nat) : Int) ∧
      r.ret ≤ ((20 * 8192 + 5 : Nat) : Int) ∧
      r.chan.writer_sw_count
        = 0 + (read_slots ⟨16, 8192⟩ (20 * 8192 + 5) (sub64 12 0) : Int) ∧
      r.chan.writer_hw_count = 12 ∧
      r.lost + r.copies.length = read_slots ⟨16, 8192⟩ (20 * 8192 + 5) (sub64 12 0) :=
  read_transfer_count ⟨16, 8192⟩ true [] (fun _ => false) (20 * 8192 + 5)
    { chan_reset with writer_hw_count := 12 } { chan_reset with writer_hw_count := 12 }
    (by decide) (fun _ => rfl) (by decide) (by decide) (by decide) (by decide)

/-- C7. Overflow rule in read.  For a read that passes the wait in state `chan1`
with backlog `b` and processes `n` slots, every copy succeeding: slot `j` is copied
exactly when its backlog `b - j` is at most `N/2` (the copies are `read_copies`),
the reported overflow count is the number of slots `j < n` with `b - j > N/2`,
which is `min n (max (b - N/2) 0)`; and if `b ≤ N/2` no overflow is reported and
all `n` slots are copied. -/
theorem read_overflow_rule (cfg : dma_config) (nonblock : Bool) (events : List wait_event)
    (fault : Nat → Bool) (size : Nat) (chan chan1 : litepcie_dma_chan)
    (hB : 0 < cfg.DMA_BUFFER_SIZE) (hf : ∀ i, fault i = false)
    (hwait : litepcie_read_wait cfg nonblock events chan = some (0, chan1))
    (hsize : size < 2 ^ 63)
    (hsw : -(2 : Int) ^ 63 ≤ chan1.writer_sw_count)
    (hno : chan1.writer_sw_count
      + (read_slots cfg size (sub64 chan1.writer_hw_count chan1.writer_sw_count) : Int)
      < 2 ^ 63) :
    ∃ r : transfer_result,
      litepcie_read cfg nonblock events fault size chan = some r ∧
      r.copies = read_copies cfg 0 chan1.writer_sw_count
        (sub64 chan1.writer_hw_count chan1.writer_sw_count)
        (read_slots cfg size (sub64 chan1.writer_hw_count chan1.writer_sw_count)) ∧
      r.lost = ((List.range
          (read_slots cfg size (sub64 chan1.writer_hw_count chan1.writer_sw_count))).filter
        (fun j : Nat => decide (sub64 chan1.writer_hw_count chan1.writer_sw_count - (j : Int)
          > ((cfg.DMA_BUFFER_COUNT / 2 : Nat) : Int)))).length ∧
      r.lost = min (read_slots cfg size (sub64 chan1.writer_hw_count chan1.writer_sw_count))
        (max (sub64 chan1.writer_hw_count chan1.writer_sw_count
          - ((cfg.DMA_BUFFER_COUNT / 2 : Nat) : Int)) 0).toNat ∧
      (sub64 chan1.writer_hw_count chan1.writer_sw_count
          ≤ ((cfg.DMA_BUFFER_COUNT / 2 : Nat) : Int) →
        r.lost = 0 ∧ r.copies.length
          = read_slots cfg size (sub64 chan1.writer_hw_count chan1.writer_sw_count)) := by
  refine ⟨_, read_after_wait cfg nonblock events fault size chan chan1 hB hf hwait hsize hsw hno,
    rfl, ?_, rfl, ?_⟩
  · simp only []
    rw [range_filter_gt_length]
  · intro hb
    simp only []
    refine ⟨?_, read_copies_length_of_le cfg 0 _ _ _ hb⟩
    omega

theorem read_overflow_rule_witness :
    ∃ r : transfer_result,
      litepcie_read ⟨16, 8192⟩ true [] (fun _ => false) (20 * 8192)
        { chan_reset with writer_hw_count := 12 } = some r ∧
      r.copies = read_copies ⟨16, 8192⟩ 0 0 (sub64 12 0)
        (read_slots ⟨16, 8192⟩ (20 * 8192) (sub64 12 0)) ∧
      r.lost = ((List.range (read_slots ⟨16, 8192⟩ (20 * 8192) (sub64 12 0))).filter
        (fun j : Nat => decide (sub64 12 0 - (j : Int) > ((16 / 2 : Nat) : Int)))).length ∧
      r.lost = min (read_slots ⟨16, 8192⟩ (20 * 8192) (sub64 12 0))
        (max (sub64 12 0 - ((16 / 2 : Nat) : Int)) 0).toNat ∧
      (sub64 12 0 ≤ ((16 / 2 : Nat) : Int) →
        r.lost = 0 ∧ r.copies.length = read_slots ⟨16, 8192⟩ (20 * 8192) (sub64 12 0)) :=
  read_overflow_rule ⟨16, 8192⟩ true [] (fun _ => false) (20 * 8192)
    { chan_reset with writer_hw_count := 12 } { chan_reset with writer_hw_count := 12 }
    (by decide) (fun _ => rfl) (by decide) (by decide) (by decide) (by decide)

theorem wait_reader_sw (cfg : dma_config) (cond : litepcie_dma_chan → Bool)
    (events : List wait_event) :
    ∀ (chan c1 : litepcie_dma_chan) (ret : Int),
      wait_event_interruptible cond (irq_reader cfg) events chan = some (ret, c1) →
      c1.reader_sw_count = chan.reader_sw_count := by
  induction events with
  | nil =>
    intro chan c1 ret h
    unfold wait_event_interruptible at h
    by_cases hc : cond chan = true
    · simp [hc] at h; rw [← h.2]
    · simp [hc] at h
  | cons e rest ih =>
    intro chan c1 ret h
    unfold wait_event_interruptible at h
    by_cases hc : cond chan = true
    · simp [hc] at h; rw [← h.2]
    · cases e with
      | signal => simp [hc] at h; rw [← h.2]
      | irq st =>
        simp only [hc, Bool.false_eq_true, if_false] at h
        rw [ih _ _ _ h]
        simp [irq_reader]

theorem write_wait_sw (cfg : dma_config) (nonblock : Bool) (events : List wait_event)
    (chan c1 : litepcie_dma_chan) (ret : Int)
    (h : litepcie_write_wait cfg nonblock events chan = some (ret, c1)) :
    c1.reader_sw_count = chan.reader_sw_count := by
  unfold litepcie_write_wait at h
  cases nonblock with
  | true =>
    by_cases he : chan.reader_hw_count = chan.reader_sw_count
    · simp [he] at h; rw [← h.2]
    · simp [he] at h; rw [← h.2]
  | false =>
    simp only [Bool.false_eq_true, if_false] at h
    exact wait_reader_sw cfg _ events chan c1 ret h

theorem write_after_wait (cfg : dma_config) (nonblock : Bool) (events : List wait_event)
    (fault : Nat → Bool) (size : Nat) (chan chan1 : litepcie_dma_chan)
    (hB : 0 < cfg.DMA_BUFFER_SIZE) (hN : cfg.DMA_BUFFER_COUNT < 2 ^ 31)
    (hf : ∀ i, fault i = false)
    (hwait : litepcie_write_wait cfg nonblock events chan = some (0, chan1))
    (hsize : size < 2 ^ 63)
    (hsw : -(2 : Int) ^ 63 ≤ chan1.reader_sw_count)
    (hno : chan1.reader_sw_count
      + (write_slots cfg size (sub64 chan1.reader_sw_count chan1.reader_hw_count) : Int)
      < 2 ^ 63) :
    litepcie_write cfg nonblock events fault size chan
      = some
        { ret := ((write_slots cfg size (sub64 chan1.reader_sw_count chan1.reader_hw_count)
            * cfg.DMA_BUFFER_SIZE : Nat) : Int),
          chan := { chan1 with reader_sw_count := chan1.reader_sw_count
            + (write_slots cfg size (sub64 chan1.reader_sw_count chan1.reader_hw_count) : Int) },
          lost := min (write_slots cfg size (sub64 chan1.reader_sw_count chan1.reader_hw_count))
            (max (-sub64 chan1.reader_sw_count chan1.reader_hw_count) 0).toNat,
          copies := write_copies cfg 0 chan1.reader_sw_count
            (sub64 chan1.reader_sw_count chan1.reader_hw_count)
            (write_slots cfg size (sub64 chan1.reader_sw_count chan1.reader_hw_count)) } := by
  have key := write_loop_closed cfg fault hf hN (size / cfg.DMA_BUFFER_SIZE) size
    (size % cfg.DMA_BUFFER_SIZE) 0 0 [] chan1 false (Nat.div_le_self _ _)
    (Nat.mod_lt _ hB) hsw hno
  rw [Nat.div_add_mod'] at key
  unfold litepcie_write
  simp only [hwait, lt_self_iff_false, if_false, key, Bool.false_eq_true]
  unfold write_slots
  have hm : min (size / cfg.DMA_BUFFER_SIZE)
      (max (((cfg.DMA_BUFFER_COUNT / 2 : Nat) : Int)
        - sub64 chan1.reader_sw_count chan1.reader_hw_count) 0).toNat
      ≤ size / cfg.DMA_BUFFER_SIZE := Nat.min_le_left _ _
  generalize min (size / cfg.DMA_BUFFER_SIZE)
    (max (((cfg.DMA_BUFFER_COUNT / 2 : Nat) : Int)
      - sub64 chan1.reader_sw_count chan1.reader_hw_count) 0).toNat = m at hm ⊢
  have hret : size - ((size / cfg.DMA_BUFFER_SIZE - m) * cfg.DMA_BUFFER_SIZE
      + size % cfg.DMA_BUFFER_SIZE) = m * cfg.DMA_BUFFER_SIZE := by
    have h1 := Nat.div_add_mod' size cfg.DMA_BUFFER_SIZE
    have h2 : (size / cfg.DMA_BUFFER_SIZE - m) * cfg.DMA_BUFFER_SIZE
        = size / cfg.DMA_BUFFER_SIZE * cfg.DMA_BUFFER_SIZE - m * cfg.DMA_BUFFER_SIZE :=
      Nat.sub_mul _ _ _
    have h3 : m * cfg.DMA_BUFFER_SIZE ≤ size / cfg.DMA_BUFFER_SIZE * cfg.DMA_BUFFER_SIZE :=
      Nat.mul_le_mul_right _ hm
    omega
  have hle : m * cfg.DMA_BUFFER_SIZE ≤ size := by omega
  rw [hret]
  have h64 : toInt64 ((m * cfg.DMA_BUFFER_SIZE : Nat) : Int)
      = ((m * cfg.DMA_BUFFER_SIZE : Nat) : Int) := by
    generalize m * cfg.DMA_BUFFER_SIZE = x at hle
    unfold toInt64
    omega
  rw [h64]
  simp

/-- C9. Write transfer count.  For a write of `size` bytes that passes the wait in
state `chan1` with `d = reader_sw_count - reader_hw_count`, every copy succeeding:
the call returns exactly `n * DMA_BUFFER_SIZE` with
`n = min (size / DMA_BUFFER_SIZE) (max (N/2 - d) 0)`, `reader_sw_count` has grown
by exactly `n`, `reader_hw_count` is untouched, the `n` slots are the skipped ones
plus the copied ones, and afterwards `reader_sw_count - reader_hw_count ≤ max d (N/2)`. -/
theorem write_transfer_count (cfg : dma_config) (nonblock : Bool) (events : List wait_event)
    (fault : Nat → Bool) (size : Nat) (chan chan1 : litepcie_dma_chan)
    (hB : 0 < cfg.DMA_BUFFER_SIZE) (hN : cfg.DMA_BUFFER_COUNT < 2 ^ 31)
    (hf : ∀ i, fault i = false)
    (hwait : litepcie_write_wait cfg nonblock events chan = some (0, chan1))
    (hsize : size < 2 ^ 63)
    (hsw : -(2 : Int) ^ 63 ≤ chan1.reader_sw_count)
    (hno : chan1.reader_sw_count
      + (write_slots cfg size (sub64 chan1.reader_sw_count chan1.reader_hw_count) : Int)
      < 2 ^ 63) :
    ∃ r : transfer_result,
      litepcie_write cfg nonblock events fault size chan = some r ∧
      r.ret = ((write_slots cfg size (sub64 chan1.reader_sw_count chan1.reader_hw_count)
        * cfg.DMA_BUFFER_SIZE : Nat) : Int) ∧
      r.chan.reader_sw_count = chan.reader_sw_count
        + (write_slots cfg size (sub64 chan1.reader_sw_count chan1.reader_hw_count) : Int) ∧
      r.chan.reader_hw_count = chan1.reader_hw_count ∧
      r.lost + r.copies.length
        = write_slots cfg size (sub64 chan1.reader_sw_count chan1.reader_hw_count) ∧
      sub64 r.chan.reader_sw_count r.chan.reader_hw_count
        ≤ max (sub64 chan1.reader_sw_count chan1.reader_hw_count)
            ((cfg.DMA_BUFFER_COUNT / 2 : Nat) : Int) := by
  refine ⟨_, write_after_wait cfg nonblock events fault size chan chan1 hB hN hf hwait hsize
    hsw hno, rfl, ?_, rfl, ?_, ?_⟩
  · simp only []
    rw [write_wait_sw cfg nonblock events chan chan1 0 hwait]
  · simp only []
    rw [write_copies_length]
    omega
  · simp only []
    have h2 : write_slots cfg size (sub64 chan1.reader_sw_count chan1.reader_hw_count)
        ≤ (max (((cfg.DMA_BUFFER_COUNT / 2 : Nat) : Int)
          - sub64 chan1.reader_sw_count chan1.reader_hw_count) 0).toNat := Nat.min_le_right _ _
    generalize write_slots cfg size (sub64 chan1.reader_sw_count chan1.reader_hw_count) = n
      at h2 hno ⊢
    have ht1 : ((cfg.DMA_BUFFER_COUNT / 2 : Nat) : Int) < 2 ^ 30 := by omega
    generalize ((cfg.DMA_BUFFER_COUNT / 2 : Nat) : Int) = t at h2 ht1 ⊢
    unfold sub64 toInt64 at h2 ⊢
    omega

theorem write_transfer_count_witness :
    ∃ r : transfer_result,
      litepcie_write ⟨16, 8192⟩ false [] (fun _ => false) (10 * 8192)
        { chan_reset with reader_sw_count := 4 } = some r ∧
      r.ret = ((write_slots ⟨16, 8192⟩ (10 * 8192) (sub64 4 0) * 8192 : Nat) : Int) ∧
      r.chan.reader_sw_count = 4 + (write_slots ⟨16, 8192⟩ (10 * 8192) (sub64 4 0) : Int) ∧
      r.chan.reader_hw_count = 0 ∧
      r.lost + r.copies.length = write_slots ⟨16, 8192⟩ (10 * 8192) (sub64 4 0) ∧
      sub64 r.chan.reader_sw_count r.chan.reader_hw_count
        ≤ max (sub64 4 0) ((16 / 2 : Nat) : Int) :=
  write_transfer_count ⟨16, 8192⟩ false [] (fun _ => false) (10 * 8192)
    { chan_reset with reader_sw_count := 4 } { chan_reset with reader_sw_count := 4 }
    (by decide) (by decide) (fun _ => rfl) (by decide) (by decide) (by decide) (by decide)

/-! ## Ring index -/

theorem ring_index_nonneg (k : Int) (N : Nat) (hk : 0 ≤ k) (hN : 0 < N) :
    Int.tmod k N = k % (N : Int) ∧ 0 ≤ Int.tmod k N ∧ Int.tmod k N < (N : Int) := by
  have e : Int.tmod k N = k % (N : Int) := by
    rw [Int.tmod_eq_emod hk (Int.ofNat_nonneg N)]
  rw [e]
  exact ⟨rfl, Int.emod_nonneg _ (by omega), Int.emod_lt_of_pos _ (by omega)⟩

/-- C8 (the code at the failing input). With `N = 16`, after the progress report
`LITEPCIE_IOCTL_MMAP_DMA_WRITER_UPDATE` with `sw_count = -3` on the reset channel,
a non-blocking read of one buffer copies from ring index `-3`: the C remainder
`writer_sw_count % DMA_BUFFER_COUNT` of a negative counter, outside `0..15`, where
`k mod N` is 13. -/
theorem read_negative_ring_index :
    run_ops ⟨16, 8192⟩ chan_reset [chan_op.op_writer_update (-3)]
      = { chan_reset with writer_sw_count := -3 } ∧
    (litepcie_read ⟨16, 8192⟩ true [] (fun _ => false) 8192
        { chan_reset with writer_sw_count := -3 }).map (fun r => (r.ret, r.copies))
      = some (8192, [(0, -3)]) ∧
    ¬ (0 ≤ (-3 : Int)) ∧ (-3 : Int) % 16 = 13 := by
  decide

/-! ## Backpressure bound -/

theorem wait_pending_signal (cond : litepcie_dma_chan → Bool)
    (wake : Nat → litepcie_dma_chan → litepcie_dma_chan) (signal : Bool)
    (chan c1 : litepcie_dma_chan) (ret : Int)
    (h : wait_event_interruptible cond wake (pending_signal signal) chan = some (ret, c1)) :
    c1 = chan := by
  cases signal with
  | true =>
    simp only [pending_signal, if_true] at h
    unfold wait_event_interruptible at h
    by_cases hc : cond chan = true
    · simp [hc] at h; exact h.2.symm
    · simp [hc] at h; exact h.2.symm
  | false =>
    simp only [pending_signal, Bool.false_eq_true, if_false] at h
    unfold wait_event_interruptible at h
    by_cases hc : cond chan = true
    · simp [hc] at h; exact h.2.symm
    · simp [hc] at h

/-- The bound on the ring size is needed for the backpressure bound as well: with
`N = 2 ^ 15`, after open and enable, the reader interrupts with status words 5 and
0 overflow nothing in 64 bits and leave `sw_count - hw_count = 2 ^ 31 > N`. -/
theorem reader_backlog_large_ring :
    ops_in_bounds ⟨2 ^ 15, 8192⟩ chan_reset
      [chan_op.op_open, chan_op.op_dma_reader 1, chan_op.op_irq_reader 5,
       chan_op.op_irq_reader 0] = true ∧
    (run_ops ⟨2 ^ 15, 8192⟩ chan_reset
      [chan_op.op_open, chan_op.op_dma_reader 1, chan_op.op_irq_reader 5,
       chan_op.op_irq_reader 0]).reader_sw_count
      - (run_ops ⟨2 ^ 15, 8192⟩ chan_reset
      [chan_op.op_open, chan_op.op_dma_reader 1, chan_op.op_irq_reader 5,
       chan_op.op_irq_reader 0]).reader_hw_count = 2147483648 ∧
    ¬ ((2147483648 : Int) ≤ ((2 ^ 15 : Nat) : Int)) := by
  decide

theorem range_filter_neg_length (d : Int) (n : Nat) :
    ((List.range n).filter (fun j : Nat => decide (d + (j : Int) < 0))).length
      = min n (max (-d) 0).toNat := by
  induction n with
  | zero => simp
  | succ n ih =>
    rw [List.range_succ, List.filter_append, List.length_append, ih]
    by_cases h : d + (n : Int) < 0
    · simp only [List.filter_cons, h, decide_True, if_true, List.filter_nil, List.length_singleton]
      omega
    · simp only [List.filter_cons, h, decide_False, Bool.false_eq_true, if_false,
        List.filter_nil, List.length_nil]
      omega

theorem wait_cond_entry (cond : litepcie_dma_chan → Bool)
    (wake : Nat → litepcie_dma_chan → litepcie_dma_chan) (events : List wait_event)
    (chan : litepcie_dma_chan) (h : cond chan = true) :
    wait_event_interruptible cond wake events chan = some (0, chan) := by
  unfold wait_event_interruptible
  simp [h]

theorem write_wait_entry (cfg : dma_config) (nonblock : Bool) (events : List wait_event)
    (chan chan1 : litepcie_dma_chan)
    (hwait : litepcie_write_wait cfg nonblock events chan = some (0, chan1))
    (h : nonblock = true ∨ sub64 chan.reader_sw_count chan.reader_hw_count
      < ((cfg.DMA_BUFFER_COUNT / 2 : Nat) : Int)) :
    chan1 = chan := by
  unfold litepcie_write_wait at hwait
  cases nonblock with
  | true =>
    by_cases he : chan.reader_hw_count = chan.reader_sw_count
    · simp [he, EAGAIN] at hwait
    · simp [he] at hwait; exact hwait.symm
  | false =>
    simp only [Bool.false_eq_true, if_false] at hwait
    have hc : sub64 chan.reader_sw_count chan.reader_hw_count
        < ((cfg.DMA_BUFFER_COUNT / 2 : Nat) : Int) := by
      rcases h with h | h
      · exact absurd h (by decide)
      · exact h
    rw [wait_cond_entry _ _ events chan (by simpa using hc)] at hwait
    simp at hwait
    exact hwait.symm

/-- C11. Underflow rule in write.  For a write that passes the wait in state
`chan1` with `d = reader_sw_count - reader_hw_count` and processes `n` slots, every
copy succeeding: slot `j` is copied exactly when `d + j` is not negative (the copies
are `write_copies`), the reported underflow count is the number of slots `j < n`
with `d + j < 0`, which is `min n (max (-d) 0)`; `reader_sw_count` advances by one
for every slot, skipped or copied; and if `d ≥ 0` the underflow count is zero and
all `n` slots are copied.  `chan1` is the state on entry when the call does not
sleep. -/
theorem write_underflow_rule (cfg : dma_config) (nonblock : Bool) (events : List wait_event)
    (fault : Nat → Bool) (size : Nat) (chan chan1 : litepcie_dma_chan)
    (hB : 0 < cfg.DMA_BUFFER_SIZE) (hN : cfg.DMA_BUFFER_COUNT < 2 ^ 31)
    (hf : ∀ i, fault i = false)
    (hwait : litepcie_write_wait cfg nonblock events chan = some (0, chan1))
    (hsize : size < 2 ^ 63)
    (hsw : -(2 : Int) ^ 63 ≤ chan1.reader_sw_count)
    (hno : chan1.reader_sw_count
      + (write_slots cfg size (sub64 chan1.reader_sw_count chan1.reader_hw_count) : Int)
      < 2 ^ 63) :
    ∃ r : transfer_result,
      litepcie_write cfg nonblock events fault size chan = some r ∧
      r.copies = write_copies cfg 0 chan1.reader_sw_count
        (sub64 chan1.reader_sw_count chan1.reader_hw_count)
        (write_slots cfg size (sub64 chan1.reader_sw_count chan1.reader_hw_count)) ∧
      r.lost = ((List.range
          (write_slots cfg size (sub64 chan1.reader_sw_count chan1.reader_hw_count))).filter
        (fun j : Nat =>
          decide (sub64 chan1.reader_sw_count chan1.reader_hw_count + (j : Int) < 0))).length ∧
      r.lost = min (write_slots cfg size (sub64 chan1.reader_sw_count chan1.reader_hw_count))
        (max (-sub64 chan1.reader_sw_count chan1.reader_hw_count) 0).toNat ∧
      r.chan.reader_sw_count = chan.reader_sw_count + ((r.lost + r.copies.length : Nat) : Int) ∧
      (0 ≤ sub64 chan1.reader_sw_count chan1.reader_hw_count →
        r.lost = 0 ∧ r.copies.length
          = write_slots cfg size (sub64 chan1.reader_sw_count chan1.reader_hw_count)) ∧
      (nonblock = true ∨ sub64 chan.reader_sw_count chan.reader_hw_count
          < ((cfg.DMA_BUFFER_COUNT / 2 : Nat) : Int) → chan1 = chan) := by
  refine ⟨_, write_after_wait cfg nonblock events fault size chan chan1 hB hN hf hwait hsize
    hsw hno, rfl, ?_, rfl, ?_, ?_, write_wait_entry cfg nonblock events chan chan1 hwait⟩
  · simp only []
    rw [range_filter_neg_length]
  · simp only []
    rw [write_copies_length, write_wait_sw cfg nonblock events chan chan1 0 hwait]
    congr 1
    push_cast
    omega
  · intro hd
    simp only []
    rw [write_copies_length]
    omega

theorem write_underflow_rule_witness :
    ∃ r : transfer_result,
      litepcie_write ⟨16, 8192⟩ true [] (fun _ => false) (20 * 8192)
        { chan_reset with reader_hw_count := 3 } = some r ∧
      r.copies = write_copies ⟨16, 8192⟩ 0 0 (sub64 0 3)
        (write_slots ⟨16, 8192⟩ (20 * 8192) (sub64 0 3)) ∧
      r.lost = ((List.range (write_slots ⟨16, 8192⟩ (20 * 8192) (sub64 0 3))).filter
        (fun j : Nat => decide (sub64 0 3 + (j : Int) < 0))).length ∧
      r.lost = min (write_slots ⟨16, 8192⟩ (20 * 8192) (sub64 0 3))
        (max (-sub64 0 3) 0).toNat ∧
      r.chan.reader_sw_count = 0 + ((r.lost + r.copies.length : Nat) : Int) ∧
      (0 ≤ sub64 0 3 →
        r.lost = 0 ∧ r.copies.length = write_slots ⟨16, 8192⟩ (20 * 8192) (sub64 0 3)) ∧
      (true = true ∨ sub64 0 3 < ((16 / 2 : Nat) : Int) →
        ({ chan_reset with reader_hw_count := 3 } : litepcie_dma_chan)
          = { chan_reset with reader_hw_count := 3 }) :=
  write_underflow_rule ⟨16, 8192⟩ true [] (fun _ => false) (20 * 8192)
    { chan_reset with reader_hw_count := 3 } { chan_reset with reader_hw_count := 3 }
    (by decide) (by decide) (fun _ => rfl) (by decide) (by decide) (by decide) (by decide)

/-- C12 as stated, refuted: with `N = 16` and 8192-byte buffers, a blocking write
of `10 * 8192` bytes entered with 4 slots of room (`sw_count - hw_count = 4`,
`N/2 = 8`) and no interrupt during the copy loop returns `4 * 8192`, a short count,
with `reader_sw_count = 8`. -/
theorem blocking_write_short_count :
    (litepcie_write ⟨16, 8192⟩ false [] (fun _ => false) (10 * 8192)
        { chan_reset with reader_sw_count := 4 }).map
      (fun r => (r.ret, r.lost, r.chan.reader_sw_count)) = some (4 * 8192, 0, 8) ∧
    (4 * 8192 : Int) ≠ 10 * 8192 := by
  decide

/-- C12, amended. With `N = 16` and 8192-byte buffers, a blocking write of
`10 * 8192` bytes whose wait ends in a state with 4 slots of room
(`reader_sw_count - reader_hw_count = 4`) returns exactly `4 * 8192` bytes moved
with zero underflows, whatever events are still pending: the four slots are copied,
`reader_sw_count` advances by 4 to the limit `N/2`, and the loop leaves there
without sleeping again (the hardware count being unchanged during the loop). -/
theorem blocking_write_four_free (events : List wait_event) (fault : Nat → Bool)
    (chan chan1 : litepcie_dma_chan) (hf : ∀ i, fault i = false)
    (hwait : litepcie_write_wait ⟨16, 8192⟩ false events chan = some (0, chan1))
    (hd : sub64 chan1.reader_sw_count chan1.reader_hw_count = 4)
    (hsw : -(2 : Int) ^ 63 ≤ chan1.reader_sw_count)
    (hno : chan1.reader_sw_count + 4 < 2 ^ 63) :
    ∃ r : transfer_result,
      litepcie_write ⟨16, 8192⟩ false events fault (10 * 8192) chan = some r ∧
      r.ret = 4 * 8192 ∧ r.lost = 0 ∧ r.copies.length = 4 ∧
      r.chan.reader_sw_count = chan.reader_sw_count + 4 ∧
      sub64 r.chan.reader_sw_count r.chan.reader_hw_count = 8 := by
  have hn : write_slots ⟨16, 8192⟩ (10 * 8192)
      (sub64 chan1.reader_sw_count chan1.reader_hw_count) = 4 := by
    rw [hd]; decide
  have h := write_after_wait ⟨16, 8192⟩ false events fault (10 * 8192) chan chan1
    (by decide) (by decide) hf hwait (by decide) hsw (by rw [hn]; exact_mod_cast hno)
  rw [hn, hd] at h
  refine ⟨_, h, ?_, ?_, ?_, ?_, ?_⟩
  · simp only []
    norm_num
  · simp only []
    decide
  · simp only []
    rw [write_copies_length]
    decide
  · simp only []
    rw [write_wait_sw ⟨16, 8192⟩ false events chan chan1 0 hwait]
    norm_num
  · simp only []
    unfold sub64 toInt64 at hd ⊢
    push_cast
    omega

theorem blocking_write_four_free_witness :
    ∃ r : transfer_result,
      litepcie_write ⟨16, 8192⟩ false [wait_event.irq (status_word 6 0), wait_event.signal]
        (fun _ => false) (10 * 8192) { chan_reset with reader_sw_count := 10 } = some r ∧
      r.ret = 4 * 8192 ∧ r.lost = 0 ∧ r.copies.length = 4 ∧
      r.chan.reader_sw_count = 10 + 4 ∧
      sub64 r.chan.reader_sw_count r.chan.reader_hw_count = 8 :=
  blocking_write_four_free [wait_event.irq (status_word 6 0), wait_event.signal]
    (fun _ => false) { chan_reset with reader_sw_count := 10 }
    { chan_reset with reader_sw_count := 10, reader_hw_count := 6, reader_hw_count_last := 6 }
    (fun _ => rfl) (by decide) (by decide) (by decide) (by decide)

/-! ## Short requests and interrupted waits -/

theorem read_loop_short (cfg : dma_config) (fault : Nat → Bool) (fuel : Nat) (st : loop_state)
    (h : st.len < cfg.DMA_BUFFER_SIZE) : read_loop cfg fault fuel st = st := by
  cases fuel with
  | zero => rfl
  | succ f =>
    rw [read_loop]
    simp [Nat.not_le.mpr h]

theorem write_loop_short (cfg : dma_config) (fault : Nat → Bool) (fuel : Nat) (st : loop_state)
    (h : st.len < cfg.DMA_BUFFER_SIZE) : write_loop cfg fault fuel st = st := by
  cases fuel with
  | zero => rfl
  | succ f =>
    rw [write_loop]
    simp [Nat.not_le.mpr h]

theorem wait_result_fold (cond : litepcie_dma_chan → Bool)
    (wake : Nat → litepcie_dma_chan → litepcie_dma_chan) (events : List wait_event) :
    ∀ (chan c1 : litepcie_dma_chan) (ret : Int),
      wait_event_interruptible cond wake events chan = some (ret, c1) →
      (ret = 0 ∨ ret = -ERESTARTSYS) ∧
      ∃ statuses : List Nat, c1 = statuses.foldl (fun c s => wake s c) chan := by
  induction events with
  | nil =>
    intro chan c1 ret h
    unfold wait_event_interruptible at h
    by_cases hc : cond chan = true
    · simp [hc] at h
      exact ⟨Or.inl h.1.symm, [], h.2.symm⟩
    · simp [hc] at h
  | cons e rest ih =>
    intro chan c1 ret h
    unfold wait_event_interruptible at h
    by_cases hc : cond chan = true
    · simp [hc] at h
      exact ⟨Or.inl h.1.symm, [], h.2.symm⟩
    · cases e with
      | signal =>
        simp [hc] at h
        exact ⟨Or.inr h.1.symm, [], h.2.symm⟩
      | irq st =>
        simp only [hc, Bool.false_eq_true, if_false] at h
        obtain ⟨hr, statuses, hs⟩ := ih _ _ _ h
        exact ⟨hr, st :: statuses, by simpa using hs⟩

theorem read_wait_ret (cfg : dma_config) (nonblock : Bool) (events : List wait_event)
    (chan c1 : litepcie_dma_chan) (ret : Int)
    (h : litepcie_read_wait cfg nonblock events chan = some (ret, c1)) :
    ret = 0 ∨ ret = -EAGAIN ∨ ret = -ERESTARTSYS := by
  unfold litepcie_read_wait at h
  cases nonblock with
  | true =>
    by_cases he : chan.writer_hw_count = chan.writer_sw_count
    · simp [he] at h; exact Or.inr (Or.inl h.1.symm)
    · simp [he] at h; exact Or.inl h.1.symm
  | false =>
    simp only [Bool.false_eq_true, if_false] at h
    rcases (wait_result_fold _ _ events chan c1 ret h).1 with h0 | h1
    · exact Or.inl h0
    · exact Or.inr (Or.inr h1)

theorem write_wait_ret (cfg : dma_config) (nonblock : Bool) (events : List wait_event)
    (chan c1 : litepcie_dma_chan) (ret : Int)
    (h : litepcie_write_wait cfg nonblock events chan = some (ret, c1)) :
    ret = 0 ∨ ret = -EAGAIN ∨ ret = -ERESTARTSYS := by
  unfold litepcie_write_wait at h
  cases nonblock with
  | true =>
    by_cases he : chan.reader_hw_count = chan.reader_sw_count
    · simp [he] at h; exact Or.inr (Or.inl h.1.symm)
    · simp [he] at h; exact Or.inl h.1.symm
  | false =>
    simp only [Bool.false_eq_true, if_false] at h
    rcases (wait_result_fold _ _ events chan c1 ret h).1 with h0 | h1
    · exact Or.inl h0
    · exact Or.inr (Or.inr h1)

theorem read_short (cfg : dma_config) (nonblock : Bool) (events : List wait_event)
    (fault : Nat → Bool) (size : Nat) (chan : litepcie_dma_chan)
    (hs : size < cfg.DMA_BUFFER_SIZE) :
    litepcie_read cfg nonblock events fault size chan
      = (litepcie_read_wait cfg nonblock events chan).map
          (fun p => { ret := if p.1 < 0 then p.1 else 0, chan := p.2, lost := 0, copies := [] }) := by
  unfold litepcie_read
  cases hw : litepcie_read_wait cfg nonblock events chan with
  | none => rfl
  | some p =>
    obtain ⟨ret, c1⟩ := p
    simp only [Option.map_some']
    rw [read_loop_short cfg fault size _ hs]
    by_cases hr : ret < 0
    · simp [hr]
    · simp [hr, toInt64]

theorem write_short (cfg : dma_config) (nonblock : Bool) (events : List wait_event)
    (fault : Nat → Bool) (size : Nat) (chan : litepcie_dma_chan)
    (hs : size < cfg.DMA_BUFFER_SIZE) :
    litepcie_write cfg nonblock events fault size chan
      = (litepcie_write_wait cfg nonblock events chan).map
          (fun p => { ret := if p.1 < 0 then p.1 else 0, chan := p.2, lost := 0, copies := [] }) := by
  unfold litepcie_write
  cases hw : litepcie_write_wait cfg nonblock events chan with
  | none => rfl
  | some p =>
    obtain ⟨ret, c1⟩ := p
    simp only [Option.map_some']
    rw [write_loop_short cfg fault size _ hs]
    by_cases hr : ret < 0
    · simp [hr]
    · simp [hr, toInt64]

/-- C13 as stated, refuted: with 8192-byte buffers, a non-blocking read of 100
bytes with one completed buffer waiting, and a non-blocking write of 100 bytes
with room, return 0, not `-EINVAL`. -/
theorem short_transfer_not_rejected :
    (litepcie_read ⟨16, 8192⟩ true [] (fun _ => false) 100
        { chan_reset with writer_hw_count := 1, writer_hw_count_last := 1 }).map (fun r => r.ret)
      = some 0 ∧
    (litepcie_write ⟨16, 8192⟩ true [] (fun _ => false) 100
        { chan_reset with reader_hw_count := 1, reader_hw_count_last := 1,
                          reader_sw_count := 2 }).map (fun r => r.ret)
      = some 0 ∧
    (0 : Int) ≠ -EINVAL := by
  decide

/-- C13, amended. A read or write call whose length is smaller than one full
buffer is not rejected: it goes through the usual wait, and when the wait ends with
result `ret` in state `c1` the call returns `ret` if it is negative (would-block or
interrupted) and 0 otherwise, copies nothing, reports nothing and leaves the
channel as it was at the end of the wait (as on entry for a non-blocking call); the
result is never `-EINVAL`. -/
theorem short_transfer_returns_zero (cfg : dma_config) (nonblock : Bool)
    (events : List wait_event) (fault : Nat → Bool) (size : Nat) (chan : litepcie_dma_chan)
    (hs : size < cfg.DMA_BUFFER_SIZE) :
    litepcie_read cfg nonblock events fault size chan
      = (litepcie_read_wait cfg nonblock events chan).map
          (fun p => { ret := if p.1 < 0 then p.1 else 0, chan := p.2, lost := 0, copies := [] }) ∧
    litepcie_write cfg nonblock events fault size chan
      = (litepcie_write_wait cfg nonblock events chan).map
          (fun p => { ret := if p.1 < 0 then p.1 else 0, chan := p.2, lost := 0, copies := [] }) ∧
    (∀ r, litepcie_read cfg nonblock events fault size chan = some r →
      r.ret ≠ -EINVAL ∧ (r.ret = 0 ∨ r.ret = -EAGAIN ∨ r.ret = -ERESTARTSYS)) ∧
    (∀ r, litepcie_write cfg nonblock events fault size chan = some r →
      r.ret ≠ -EINVAL ∧ (r.ret = 0 ∨ r.ret = -EAGAIN ∨ r.ret = -ERESTARTSYS)) ∧
    (nonblock = true → chan.writer_hw_count ≠ chan.writer_sw_count →
      litepcie_read cfg nonblock events fault size chan
        = some { ret := 0, chan := chan, lost := 0, copies := [] }) ∧
    (nonblock = true → chan.reader_hw_count ≠ chan.reader_sw_count →
      litepcie_write cfg nonblock events fault size chan
        = some { ret := 0, chan := chan, lost := 0, copies := [] }) := by
  have key : ∀ ret : Int, (ret = 0 ∨ ret = -EAGAIN ∨ ret = -ERESTARTSYS) →
      (if ret < 0 then ret else 0) ≠ -EINVAL ∧
      ((if ret < 0 then ret else 0) = 0 ∨ (if ret < 0 then ret else 0) = -EAGAIN
        ∨ (if ret < 0 then ret else 0) = -ERESTARTSYS) := by
    intro ret h
    rcases h with h | h | h <;> subst h <;> decide
  refine ⟨read_short cfg nonblock events fault size chan hs,
    write_short cfg nonblock events fault size chan hs, ?_, ?_, ?_, ?_⟩
  · intro r hr
    rw [read_short cfg nonblock events fault size chan hs] at hr
    cases hw : litepcie_read_wait cfg nonblock events chan with
    | none => rw [hw] at hr; simp at hr
    | some p =>
      obtain ⟨ret, c1⟩ := p
      rw [hw] at hr
      simp only [Option.map_some', Option.some.injEq] at hr
      rw [← hr]
      exact key ret (read_wait_ret cfg nonblock events chan c1 ret hw)
  · intro r hr
    rw [write_short cfg nonblock events fault size chan hs] at hr
    cases hw : litepcie_write_wait cfg nonblock events chan with
    | none => rw [hw] at hr; simp at hr
    | some p =>
      obtain ⟨ret, c1⟩ := p
      rw [hw] at hr
      simp only [Option.map_some', Option.some.injEq] at hr
      rw [← hr]
      exact key ret (write_wait_ret cfg nonblock events chan c1 ret hw)
  · intro hn hne
    rw [read_short cfg nonblock events fault size chan hs]
    simp [litepcie_read_wait, hn, hne]
  · intro hn hne
    rw [write_short cfg nonblock events fault size chan hs]
    simp [litepcie_write_wait, hn, hne]

theorem short_transfer_returns_zero_witness :
    litepcie_read ⟨16, 8192⟩ true [] (fun _ => false) 8191
        { chan_reset with writer_hw_count := 2 }
      = some { ret := 0, chan := { chan_reset with writer_hw_count := 2 }, lost := 0,
               copies := [] } :=
  (short_transfer_returns_zero ⟨16, 8192⟩ true [] (fun _ => false) 8191
    { chan_reset with writer_hw_count := 2 } (by decide)).2.2.2.2.1 rfl (by decide)

theorem read_wait_blocking_frame (cfg : dma_config) (events : List wait_event)
    (chan c1 : litepcie_dma_chan) (ret : Int)
    (h : litepcie_read_wait cfg false events chan = some (ret, c1)) :
    (ret = 0 ∨ ret = -ERESTARTSYS) ∧
    ∃ statuses : List Nat, c1 = statuses.foldl (fun c s => irq_writer cfg s c) chan := by
  unfold litepcie_read_wait at h
  simp only [Bool.false_eq_true, if_false] at h
  exact wait_result_fold _ _ events chan c1 ret h

theorem write_wait_blocking_frame (cfg : dma_config) (events : List wait_event)
    (chan c1 : litepcie_dma_chan) (ret : Int)
    (h : litepcie_write_wait cfg false events chan = some (ret, c1)) :
    (ret = 0 ∨ ret = -ERESTARTSYS) ∧
    ∃ statuses : List Nat, c1 = statuses.foldl (fun c s => irq_reader cfg s c) chan := by
  unfold litepcie_write_wait at h
  simp only [Bool.false_eq_true, if_false] at h
  exact wait_result_fold _ _ events chan c1 ret h

/-- C14. Interrupted wait.  If the blocking wait of a read (of a write) returns a
negative value `ret`, ending in state `c1`, the call returns `ret`, which is
`-ERESTARTSYS` (distinct from `-EAGAIN` and from every byte count), copies no
buffer, reports nothing and returns the channel `c1` untouched: `c1` is the entry
state after the completion interrupts that preceded the signal, so the software
counters are those of entry, and `c1` is the entry state itself when the signal
comes first. -/
theorem interrupted_wait_returns (cfg : dma_config) (events : List wait_event)
    (fault : Nat → Bool) (size : Nat) (chan : litepcie_dma_chan) :
    (∀ (ret : Int) (c1 : litepcie_dma_chan),
      litepcie_read_wait cfg false events chan = some (ret, c1) → ret < 0 →
        litepcie_read cfg false events fault size chan
          = some { ret := ret, chan := c1, lost := 0, copies := [] } ∧
        ret = -ERESTARTSYS ∧ ret ≠ -EAGAIN ∧
        c1.writer_sw_count = chan.writer_sw_count ∧
        (∃ statuses : List Nat, c1 = statuses.foldl (fun c s => irq_writer cfg s c) chan)) ∧
    (∀ (ret : Int) (c1 : litepcie_dma_chan),
      litepcie_write_wait cfg false events chan = some (ret, c1) → ret < 0 →
        litepcie_write cfg false events fault size chan
          = some { ret := ret, chan := c1, lost := 0, copies := [] } ∧
        ret = -ERESTARTSYS ∧ ret ≠ -EAGAIN ∧
        c1.reader_sw_count = chan.reader_sw_count ∧
        (∃ statuses : List Nat, c1 = statuses.foldl (fun c s => irq_reader cfg s c) chan)) ∧
    (∀ rest : List wait_event, events = wait_event.signal :: rest →
      (¬ sub64 chan.writer_hw_count chan.writer_sw_count > 0 →
        litepcie_read cfg false events fault size chan
          = some { ret := -ERESTARTSYS, chan := chan, lost := 0, copies := [] }) ∧
      (¬ sub64 chan.reader_sw_count chan.reader_hw_count
            < ((cfg.DMA_BUFFER_COUNT / 2 : Nat) : Int) →
        litepcie_write cfg false events fault size chan
          = some { ret := -ERESTARTSYS, chan := chan, lost := 0, copies := [] })) := by
  refine ⟨?_, ?_, ?_⟩
  · intro ret c1 hw hneg
    obtain ⟨hr, hst⟩ := read_wait_blocking_frame cfg events chan c1 ret hw
    have hE : ret = -ERESTARTSYS := by
      rcases hr with h | h
      · omega
      · exact h
    refine ⟨?_, hE, by rw [hE]; decide, read_wait_sw cfg false events chan c1 ret hw, hst⟩
    unfold litepcie_read
    simp [hw, hneg]
  · intro ret c1 hw hneg
    obtain ⟨hr, hst⟩ := write_wait_blocking_frame cfg events chan c1 ret hw
    have hE : ret = -ERESTARTSYS := by
      rcases hr with h | h
      · omega
      · exact h
    refine ⟨?_, hE, by rw [hE]; decide, write_wait_sw cfg false events chan c1 ret hw, hst⟩
    unfold litepcie_write
    simp [hw, hneg]
  · intro rest he
    subst he
    constructor
    · intro hc
      have hwt : litepcie_read_wait cfg false (wait_event.signal :: rest) chan
          = some (-ERESTARTSYS, chan) := by
        unfold litepcie_read_wait
        unfold wait_event_interruptible
        simp only [Bool.false_eq_true, if_false, decide_eq_true_eq, hc]
      unfold litepcie_read
      rw [hwt]
      simp [ERESTARTSYS]
    · intro hc
      have hwt : litepcie_write_wait cfg false (wait_event.signal :: rest) chan
          = some (-ERESTARTSYS, chan) := by
        unfold litepcie_write_wait
        unfold wait_event_interruptible
        simp only [Bool.false_eq_true, if_false, decide_eq_true_eq, hc]
      unfold litepcie_write
      rw [hwt]
      simp [ERESTARTSYS]

theorem interrupted_wait_returns_witness :
    litepcie_read ⟨16, 8192⟩ false [wait_event.irq 0, wait_event.signal] (fun _ => false)
        (4 * 8192) chan_reset
      = some { ret := -512, chan := chan_reset, lost := 0, copies := [] } ∧
    litepcie_write ⟨16, 8192⟩ false [wait_event.signal] (fun _ => false) (4 * 8192)
        { chan_reset with reader_sw_count := 8 }
      = some { ret := -512, chan := { chan_reset with reader_sw_count := 8 }, lost := 0,
               copies := [] } :=
  ⟨((interrupted_wait_returns ⟨16, 8192⟩ [wait_event.irq 0, wait_event.signal]
      (fun _ => false) (4 * 8192) chan_reset).1 (-512) chan_reset (by decide) (by decide)).1,
   ((interrupted_wait_returns ⟨16, 8192⟩ [wait_event.signal]
      (fun _ => false) (4 * 8192) { chan_reset with reader_sw_count := 8 }).2.1 (-512)
      { chan_reset with reader_sw_count := 8 } (by decide) (by decide)).1⟩

/-! ## Readiness query -/

/-- C15. Readiness query.  `litepcie_poll` returns a mask in which `POLLIN` and
`POLLRDNORM` are both set if `writer_hw_count - writer_sw_count > 2` and both clear
otherwise, `POLLOUT` and `POLLWRNORM` are both set if
`reader_sw_count - reader_hw_count < N/2` and both clear otherwise, and no other
bit is set; the channel (counters, lock and enable flags) is returned unchanged. -/
theorem poll_readiness (cfg : dma_config) (chan : litepcie_dma_chan) :
    (litepcie_poll cfg chan).2 = chan ∧
    ((litepcie_poll cfg chan).1 &&& (POLLIN ||| POLLRDNORM) = POLLIN ||| POLLRDNORM
      ↔ sub64 chan.writer_hw_count chan.writer_sw_count > 2) ∧
    ((litepcie_poll cfg chan).1 &&& (POLLIN ||| POLLRDNORM) = 0
      ↔ ¬ sub64 chan.writer_hw_count chan.writer_sw_count > 2) ∧
    ((litepcie_poll cfg chan).1 &&& (POLLOUT ||| POLLWRNORM) = POLLOUT ||| POLLWRNORM
      ↔ sub64 chan.reader_sw_count chan.reader_hw_count
          < ((cfg.DMA_BUFFER_COUNT / 2 : Nat) : Int)) ∧
    ((litepcie_poll cfg chan).1 &&& (POLLOUT ||| POLLWRNORM) = 0
      ↔ ¬ sub64 chan.reader_sw_count chan.reader_hw_count
          < ((cfg.DMA_BUFFER_COUNT / 2 : Nat) : Int)) ∧
    (litepcie_poll cfg chan).1 &&& (POLLIN ||| POLLRDNORM ||| POLLOUT ||| POLLWRNORM)
      = (litepcie_poll cfg chan).1 := by
  unfold litepcie_poll
  generalize ((cfg.DMA_BUFFER_COUNT / 2 : Nat) : Int) = t
  by_cases hr : sub64 chan.writer_hw_count chan.writer_sw_count > 2 <;>
    by_cases hw : sub64 chan.reader_sw_count chan.reader_hw_count < t <;>
    simp only [hr, hw, if_true, if_false, not_true_eq_false, not_false_eq_true, iff_true,
      iff_false, true_and] <;>
    decide

/-! ## Lock ioctl -/

theorem ioctl_lock_dir (reader : Bool) (m : litepcie_ioctl_lock)
    (chan_priv : litepcie_chan_priv) (chan : litepcie_dma_chan) :
    (dir_status reader (ioctl_lock m chan_priv chan).1,
      dir_owner reader (ioctl_lock m chan_priv chan).2.1,
      dir_lock reader (ioctl_lock m chan_priv chan).2.2)
      = lock_direction (dir_request reader m) (dir_release reader m)
          (dir_owner reader chan_priv) (dir_lock reader chan) := by
  cases reader <;> rfl

theorem lock_direction_request (request release : Nat) (owner : Bool) (lock : Nat)
    (hq : request ≠ 0) (hl : release = 0) :
    lock_direction request release owner lock
      = if lock ≠ 0 then (0, owner, lock) else (1, true, 1) := by
  simp [lock_direction, hq, hl]

theorem lock_direction_release (request release : Nat) (owner : Bool) (lock : Nat)
    (hl : release ≠ 0) :
    (lock_direction request release owner lock).2 = (false, 0) ∧
    (request = 0 → (lock_direction request release owner lock).1 = 1) := by
  unfold lock_direction
  simp only [hl, ne_eq, not_false_eq_true, if_true, true_and]
  intro hq
  simp [hq]

theorem lock_direction_idem (request release : Nat) (owner : Bool) (lock : Nat) :
    (lock_direction request release
        (lock_direction request release owner lock).2.1
        (lock_direction request release owner lock).2.2).2
      = (lock_direction request release owner lock).2 := by
  unfold lock_direction
  by_cases hq : request = 0 <;> by_cases hl : release = 0 <;> by_cases hk : lock = 0 <;>
    simp [hq, hl, hk]

theorem ioctl_lock_status (reader : Bool) (m : litepcie_ioctl_lock)
    (chan_priv : litepcie_chan_priv) (chan : litepcie_dma_chan) :
    dir_status reader (ioctl_lock m chan_priv chan).1
      = (lock_direction (dir_request reader m) (dir_release reader m)
          (dir_owner reader chan_priv) (dir_lock reader chan)).1 :=
  congrArg Prod.fst (ioctl_lock_dir reader m chan_priv chan)

theorem ioctl_lock_owner (reader : Bool) (m : litepcie_ioctl_lock)
    (chan_priv : litepcie_chan_priv) (chan : litepcie_dma_chan) :
    dir_owner reader (ioctl_lock m chan_priv chan).2.1
      = (lock_direction (dir_request reader m) (dir_release reader m)
          (dir_owner reader chan_priv) (dir_lock reader chan)).2.1 :=
  congrArg (fun t => t.2.1) (ioctl_lock_dir reader m chan_priv chan)

theorem ioctl_lock_lock (reader : Bool) (m : litepcie_ioctl_lock)
    (chan_priv : litepcie_chan_priv) (chan : litepcie_dma_chan) :
    dir_lock reader (ioctl_lock m chan_priv chan).2.2
      = (lock_direction (dir_request reader m) (dir_release reader m)
          (dir_owner reader chan_priv) (dir_lock reader chan)).2.2 :=
  congrArg (fun t => t.2.2) (ioctl_lock_dir reader m chan_priv chan)

theorem file_lock_open (fd : Nat) (m : litepcie_ioctl_lock) (s : chan_files)
    (chan_priv : litepcie_chan_priv) (h : s.files fd = some chan_priv) :
    file_lock fd m s
      = (some (ioctl_lock m chan_priv s.chan).1,
         { s with chan := (ioctl_lock m chan_priv s.chan).2.2
                  files := Function.update s.files fd (some (ioctl_lock m chan_priv s.chan).2.1) }) := by
  unfold file_lock
  rw [h]

/-- A request-only lock call on open file `fd`, in terms of the state before. -/
theorem file_lock_request (reader : Bool) (fd : Nat) (m : litepcie_ioctl_lock) (s : chan_files)
    (chan_priv : litepcie_chan_priv) (hopen : s.files fd = some chan_priv)
    (hq : dir_request reader m ≠ 0) (hl : dir_release reader m = 0) :
    ∃ (m2 : litepcie_ioctl_lock) (p2 : litepcie_chan_priv),
      (file_lock fd m s).1 = some m2 ∧ (file_lock fd m s).2.files fd = some p2 ∧
      (dir_lock reader s.chan = 0 →
        dir_status reader m2 = 1 ∧ dir_lock reader (file_lock fd m s).2.chan = 1 ∧
        dir_owner reader p2 = true) ∧
      (dir_lock reader s.chan ≠ 0 →
        dir_status reader m2 = 0 ∧
        dir_lock reader (file_lock fd m s).2.chan = dir_lock reader s.chan ∧
        dir_owner reader p2 = dir_owner reader chan_priv) ∧
      (∀ fd2, fd2 ≠ fd → (file_lock fd m s).2.files fd2 = s.files fd2) := by
  rw [file_lock_open fd m s chan_priv hopen]
  refine ⟨(ioctl_lock m chan_priv s.chan).1, (ioctl_lock m chan_priv s.chan).2.1, rfl,
    by simp [Function.update], ?_, ?_, ?_⟩
  · intro h0
    have e : lock_direction (dir_request reader m) (dir_release reader m)
        (dir_owner reader chan_priv) (dir_lock reader s.chan) = (1, true, 1) := by
      rw [lock_direction_request _ _ _ _ hq hl]
      simp [h0]
    refine ⟨?_, ?_, ?_⟩
    · rw [ioctl_lock_status, e]
    · show dir_lock reader (ioctl_lock m chan_priv s.chan).2.2 = 1
      rw [ioctl_lock_lock, e]
    · rw [ioctl_lock_owner, e]
  · intro h1
    have e : lock_direction (dir_request reader m) (dir_release reader m)
        (dir_owner reader chan_priv) (dir_lock reader s.chan)
        = (0, dir_owner reader chan_priv, dir_lock reader s.chan) := by
      rw [lock_direction_request _ _ _ _ hq hl]
      simp [h1]
    refine ⟨?_, ?_, ?_⟩
    · rw [ioctl_lock_status, e]
    · show dir_lock reader (ioctl_lock m chan_priv s.chan).2.2 = dir_lock reader s.chan
      rw [ioctl_lock_lock, e]
    · rw [ioctl_lock_owner, e]
  · intro fd2 hne
    simp [Function.update, hne]

/-- A lock call with the release byte set, on open file `fd`. -/
theorem file_lock_release (reader : Bool) (fd : Nat) (m : litepcie_ioctl_lock) (s : chan_files)
    (chan_priv : litepcie_chan_priv) (hopen : s.files fd = some chan_priv)
    (hl : dir_release reader m ≠ 0) :
    ∃ (m2 : litepcie_ioctl_lock) (p2 : litepcie_chan_priv),
      (file_lock fd m s).1 = some m2 ∧ (file_lock fd m s).2.files fd = some p2 ∧
      dir_lock reader (file_lock fd m s).2.chan = 0 ∧ dir_owner reader p2 = false ∧
      (dir_request reader m = 0 → dir_status reader m2 = 1) ∧
      (∀ fd2, fd2 ≠ fd → (file_lock fd m s).2.files fd2 = s.files fd2) := by
  rw [file_lock_open fd m s chan_priv hopen]
  obtain ⟨e1, e2⟩ := lock_direction_release (dir_request reader m) (dir_release reader m)
    (dir_owner reader chan_priv) (dir_lock reader s.chan) hl
  refine ⟨(ioctl_lock m chan_priv s.chan).1, (ioctl_lock m chan_priv s.chan).2.1, rfl,
    by simp [Function.update], ?_, ?_, ?_, ?_⟩
  · show dir_lock reader (ioctl_lock m chan_priv s.chan).2.2 = 0
    rw [ioctl_lock_lock]
    exact congrArg Prod.snd e1
  · rw [ioctl_lock_owner]
    exact congrArg Prod.fst e1
  · intro hq
    rw [ioctl_lock_status]
    exact e2 hq
  · intro fd2 hne
    simp [Function.update, hne]

/-- C16. Lock request.  A lock call made on an open file with the request byte of
a direction set and its release byte clear is granted (status 1) exactly when the
lock flag of the direction is clear, and then sets the lock flag and the caller's
ownership flag; when the lock flag is set it is denied (status 0) and the lock
flag, the caller's ownership flag and the records of all other open files are
unchanged.  Consequently, on a free direction, of two successive requests by two
open files `a` and `b` the first is granted and the second denied, and after `a`
releases, a further request by `b` is granted. -/
theorem lock_request (reader : Bool) (a b : Nat) (m mrel : litepcie_ioctl_lock)
    (s : chan_files) (pa pb : litepcie_chan_priv) (hab : a ≠ b)
    (ha : s.files a = some pa) (hb : s.files b = some pb)
    (hq : dir_request reader m ≠ 0) (hl : dir_release reader m = 0)
    (hrel : dir_release reader mrel ≠ 0) :
    (∃ (m2 : litepcie_ioctl_lock) (p2 : litepcie_chan_priv),
      (file_lock a m s).1 = some m2 ∧ (file_lock a m s).2.files a = some p2 ∧
      (dir_status reader m2 = 1 ↔ dir_lock reader s.chan = 0) ∧
      (dir_lock reader s.chan = 0 →
        dir_status reader m2 = 1 ∧ dir_lock reader (file_lock a m s).2.chan = 1 ∧
        dir_owner reader p2 = true) ∧
      (dir_lock reader s.chan ≠ 0 →
        dir_status reader m2 = 0 ∧
        dir_lock reader (file_lock a m s).2.chan = dir_lock reader s.chan ∧
        dir_owner reader p2 = dir_owner reader pa) ∧
      (∀ fd2, fd2 ≠ a → (file_lock a m s).2.files fd2 = s.files fd2)) ∧
    (dir_lock reader s.chan = 0 →
      (file_lock a m s).1.map (dir_status reader) = some 1 ∧
      (file_lock b m (file_lock a m s).2).1.map (dir_status reader) = some 0 ∧
      (file_lock b m (file_lock a mrel (file_lock b m (file_lock a m s).2).2).2).1.map
        (dir_status reader) = some 1) := by
  constructor
  · obtain ⟨m2, p2, e1, e2, h0, h1, hf⟩ := file_lock_request reader a m s pa ha hq hl
    refine ⟨m2, p2, e1, e2, ?_, h0, h1, hf⟩
    constructor
    · intro hs
      by_contra hne
      have := (h1 hne).1
      omega
    · intro h
      exact (h0 h).1
  · intro hfree
    obtain ⟨m2, p2, e1, e2, h0, _, hf⟩ := file_lock_request reader a m s pa ha hq hl
    obtain ⟨hs1, hk1, _⟩ := h0 hfree
    have hb1 : (file_lock a m s).2.files b = some pb := by
      rw [hf b (Ne.symm hab)]; exact hb
    obtain ⟨m3, p3, e3, e4, _, h3, hf3⟩ :=
      file_lock_request reader b m (file_lock a m s).2 pb hb1 hq hl
    have hk1' : dir_lock reader (file_lock a m s).2.chan ≠ 0 := by rw [hk1]; decide
    obtain ⟨hs3, _, _⟩ := h3 hk1'
    have ha2 : (file_lock b m (file_lock a m s).2).2.files a = some p2 := by
      rw [hf3 a hab]; exact e2
    obtain ⟨m4, p4, e5, _, hk4, _, _, hf4⟩ :=
      file_lock_release reader a mrel (file_lock b m (file_lock a m s).2).2 p2 ha2 hrel
    have hb4 : (file_lock a mrel (file_lock b m (file_lock a m s).2).2).2.files b = some p3 := by
      rw [hf4 b (Ne.symm hab)]; exact e4
    obtain ⟨m5, p5, e6, _, h5, _, _⟩ :=
      file_lock_request reader b m _ p3 hb4 hq hl
    obtain ⟨hs5, _, _⟩ := h5 hk4
    refine ⟨?_, ?_, ?_⟩
    · rw [e1]; simp [hs1]
    · rw [e3]; simp [hs3]
    · rw [e6]; simp [hs5]

theorem lock_request_witness :
    (file_lock 0 ⟨1, 0, 0, 0, 0, 0⟩
        (run_file_ops ⟨16, 8192⟩ files_reset [file_op.open_file, file_op.open_file])).1.map
      (dir_status true) = some 1 ∧
    (file_lock 1 ⟨1, 0, 0, 0, 0, 0⟩ (file_lock 0 ⟨1, 0, 0, 0, 0, 0⟩
        (run_file_ops ⟨16, 8192⟩ files_reset [file_op.open_file, file_op.open_file])).2).1.map
      (dir_status true) = some 0 ∧
    (file_lock 1 ⟨1, 0, 0, 0, 0, 0⟩ (file_lock 0 ⟨0, 0, 1, 0, 0, 0⟩
      (file_lock 1 ⟨1, 0, 0, 0, 0, 0⟩ (file_lock 0 ⟨1, 0, 0, 0, 0, 0⟩
        (run_file_ops ⟨16, 8192⟩ files_reset
          [file_op.open_file, file_op.open_file])).2).2).2).1.map
      (dir_status true) = some 1 :=
  (lock_request true 0 1 ⟨1, 0, 0, 0, 0, 0⟩ ⟨0, 0, 1, 0, 0, 0⟩
    (run_file_ops ⟨16, 8192⟩ files_reset [file_op.open_file, file_op.open_file])
    ⟨false, false⟩ ⟨false, false⟩ (by decide) (by decide) (by decide) (by decide) (by decide)
    (by decide)).2 (by decide)

theorem ioctl_lock_idem (m : litepcie_ioctl_lock) (chan_priv : litepcie_chan_priv)
    (chan : litepcie_dma_chan) :
    (ioctl_lock m (ioctl_lock m chan_priv chan).2.1 (ioctl_lock m chan_priv chan).2.2).2
      = (ioctl_lock m chan_priv chan).2 := by
  have hr := lock_direction_idem m.dma_reader_request m.dma_reader_release chan_priv.reader
    chan.reader_lock
  have hw := lock_direction_idem m.dma_writer_request m.dma_writer_release chan_priv.writer
    chan.writer_lock
  rw [Prod.ext_iff] at hr hw
  unfold ioctl_lock
  simp only [hr.1, hr.2, hw.1, hw.2]

/-- C17 as stated, refuted: open file 0 holds the reader lock; a lock call by open
file 1 with the reader release byte set (and the reader request byte set as well)
reports status 0, while clearing the lock flag. -/
theorem release_with_request_reports_denied :
    (file_lock 1 ⟨1, 0, 1, 0, 0, 0⟩
        (run_file_ops ⟨16, 8192⟩ files_reset
          [file_op.open_file, file_op.open_file, file_op.lock 0 ⟨1, 0, 0, 0, 0, 0⟩])).1.map
      (dir_status true) = some 0 ∧
    (run_file_ops ⟨16, 8192⟩ files_reset
      [file_op.open_file, file_op.open_file,
       file_op.lock 0 ⟨1, 0, 0, 0, 0, 0⟩]).chan.reader_lock = 1 ∧
    (file_lock 1 ⟨1, 0, 1, 0, 0, 0⟩
        (run_file_ops ⟨16, 8192⟩ files_reset
          [file_op.open_file, file_op.open_file,
           file_op.lock 0 ⟨1, 0, 0, 0, 0, 0⟩])).2.chan.reader_lock = 0 := by
  decide

/-- C17, amended. A lock call made on any open file with the release byte of a
direction set leaves the lock flag of the direction clear and the caller's
ownership flag clear, whether or not the lock was held and whoever held it; when
the request byte of the direction is clear the call reports success (status 1);
and making the same call a second time changes nothing (channel, private records
and descriptors are as after the first call). -/
theorem lock_release (reader : Bool) (fd : Nat) (m : litepcie_ioctl_lock) (s : chan_files)
    (chan_priv : litepcie_chan_priv) (hopen : s.files fd = some chan_priv)
    (hrel : dir_release reader m ≠ 0) :
    dir_lock reader (file_lock fd m s).2.chan = 0 ∧
    (file_lock fd m s).2.files fd ≠ none ∧
    ((file_lock fd m s).2.files fd).map (dir_owner reader) = some false ∧
    (dir_request reader m = 0 → (file_lock fd m s).1.map (dir_status reader) = some 1) ∧
    (file_lock fd m (file_lock fd m s).2).2.chan = (file_lock fd m s).2.chan ∧
    (file_lock fd m (file_lock fd m s).2).2.files = (file_lock fd m s).2.files ∧
    (file_lock fd m (file_lock fd m s).2).2.next_fd = (file_lock fd m s).2.next_fd := by
  obtain ⟨m2, p2, e1, e2, hk, ho, hst, _⟩ := file_lock_release reader fd m s chan_priv hopen hrel
  refine ⟨hk, by rw [e2]; simp, by rw [e2]; simp [ho], ?_, ?_, ?_, ?_⟩
  · intro hq
    rw [e1]; simp [hst hq]
  all_goals
    have hs2 : (file_lock fd m s).2.files fd = some (ioctl_lock m chan_priv s.chan).2.1 := by
      rw [file_lock_open fd m s chan_priv hopen]; simp [Function.update]
    have hidem := ioctl_lock_idem m chan_priv s.chan
    rw [Prod.ext_iff] at hidem
    have e2 := file_lock_open fd m (file_lock fd m s).2 _ hs2
    have e1 := file_lock_open fd m s chan_priv hopen
    first
      | (rw [e2]; done)
      | (rw [e2]; simp only [e1, hidem.1, hidem.2, Function.update_idem])

theorem lock_release_witness :
    dir_lock true (file_lock 1 ⟨0, 0, 1, 0, 0, 0⟩
      (run_file_ops ⟨16, 8192⟩ files_reset
        [file_op.open_file, file_op.open_file,
         file_op.lock 0 ⟨1, 0, 0, 0, 0, 0⟩])).2.chan = 0 ∧
    (file_lock 1 ⟨0, 0, 1, 0, 0, 0⟩
      (run_file_ops ⟨16, 8192⟩ files_reset
        [file_op.open_file, file_op.open_file,
         file_op.lock 0 ⟨1, 0, 0, 0, 0, 0⟩])).1.map (dir_status true) = some 1 :=
  ⟨(lock_release true 1 ⟨0, 0, 1, 0, 0, 0⟩
      (run_file_ops ⟨16, 8192⟩ files_reset
        [file_op.open_file, file_op.open_file, file_op.lock 0 ⟨1, 0, 0, 0, 0, 0⟩])
      ⟨false, false⟩ (by decide) (by decide)).1,
   (lock_release true 1 ⟨0, 0, 1, 0, 0, 0⟩
      (run_file_ops ⟨16, 8192⟩ files_reset
        [file_op.open_file, file_op.open_file, file_op.lock 0 ⟨1, 0, 0, 0, 0, 0⟩])
      ⟨false, false⟩ (by decide) (by decide)).2.2.2.1 (by decide)⟩

/-! ## Calls that leave locks and private records alone -/

theorem write_loop_frame (cfg : dma_config) (fault : Nat → Bool) :
    ∀ (fuel : Nat) (st : loop_state),
      (write_loop cfg fault fuel st).chan
        = { st.chan with reader_sw_count := (write_loop cfg fault fuel st).chan.reader_sw_count } := by
  intro fuel
  induction fuel with
  | zero => intro st; simp [write_loop]
  | succ f ih =>
    intro st
    rw [write_loop]
    split_ifs with c1 c2 c3 c4
    · rw [ih]
    · rfl
    · rw [ih]
    · rfl
    · rfl

theorem read_loop_frame (cfg : dma_config) (fault : Nat → Bool) :
    ∀ (fuel : Nat) (st : loop_state),
      (read_loop cfg fault fuel st).chan
        = { st.chan with writer_sw_count := (read_loop cfg fault fuel st).chan.writer_sw_count } := by
  intro fuel
  induction fuel with
  | zero => intro st; simp [read_loop]
  | succ f ih =>
    intro st
    rw [read_loop]
    split_ifs with c1 c2 c3 c4
    · rw [ih]
    · rfl
    · rw [ih]
    · rfl
    · rfl

theorem write_wait_pending (cfg : dma_config) (nonblock signal : Bool)
    (chan c1 : litepcie_dma_chan) (ret : Int)
    (h : litepcie_write_wait cfg nonblock (pending_signal signal) chan = some (ret, c1)) :
    c1 = chan := by
  unfold litepcie_write_wait at h
  cases nonblock with
  | true =>
    by_cases he : chan.reader_hw_count = chan.reader_sw_count
    · simp [he] at h; exact h.2.symm
    · simp [he] at h; exact h.2.symm
  | false =>
    simp only [Bool.false_eq_true, if_false] at h
    exact wait_pending_signal _ _ signal chan c1 ret h

theorem read_wait_pending (cfg : dma_config) (nonblock signal : Bool)
    (chan c1 : litepcie_dma_chan) (ret : Int)
    (h : litepcie_read_wait cfg nonblock (pending_signal signal) chan = some (ret, c1)) :
    c1 = chan := by
  unfold litepcie_read_wait at h
  cases nonblock with
  | true =>
    by_cases he : chan.writer_hw_count = chan.writer_sw_count
    · simp [he] at h; exact h.2.symm
    · simp [he] at h; exact h.2.symm
  | false =>
    simp only [Bool.false_eq_true, if_false] at h
    exact wait_pending_signal _ _ signal chan c1 ret h

theorem write_result_frame (cfg : dma_config) (nonblock signal : Bool) (fault : Nat → Bool)
    (size : Nat) (chan : litepcie_dma_chan) (r : transfer_result)
    (h : litepcie_write cfg nonblock (pending_signal signal) fault size chan = some r) :
    r.chan = { chan with reader_sw_count := r.chan.reader_sw_count } := by
  unfold litepcie_write at h
  cases hwt : litepcie_write_wait cfg nonblock (pending_signal signal) chan with
  | none => rw [hwt] at h; simp at h
  | some p =>
    obtain ⟨ret, c1⟩ := p
    have hc1 := write_wait_pending cfg nonblock signal chan c1 ret hwt
    subst hc1
    rw [hwt] at h
    simp only [] at h
    have hl := write_loop_frame cfg fault size
      { len := size, i := 0, lost := 0, copies := [], chan := c1, faulted := false }
    split_ifs at h with c1' c2'
    · simp only [Option.some.injEq] at h; rw [← h]
    · simp only [Option.some.injEq] at h; rw [← h]; exact hl
    · simp only [Option.some.injEq] at h; rw [← h]; exact hl

theorem read_result_frame (cfg : dma_config) (nonblock signal : Bool) (fault : Nat → Bool)
    (size : Nat) (chan : litepcie_dma_chan) (r : transfer_result)
    (h : litepcie_read cfg nonblock (pending_signal signal) fault size chan = some r) :
    r.chan = { chan with writer_sw_count := r.chan.writer_sw_count } := by
  unfold litepcie_read at h
  cases hwt : litepcie_read_wait cfg nonblock (pending_signal signal) chan with
  | none => rw [hwt] at h; simp at h
  | some p =>
    obtain ⟨ret, c1⟩ := p
    have hc1 := read_wait_pending cfg nonblock signal chan c1 ret hwt
    subst hc1
    rw [hwt] at h
    simp only [] at h
    have hl := read_loop_frame cfg fault size
      { len := size, i := 0, lost := 0, copies := [], chan := c1, faulted := false }
    split_ifs at h with c1' c2'
    · simp only [Option.some.injEq] at h; rw [← h]
    · simp only [Option.some.injEq] at h; rw [← h]; exact hl
    · simp only [Option.some.injEq] at h; rw [← h]; exact hl

/-- Every channel operation other than release leaves both lock flags alone. -/
theorem apply_op_lock (cfg : dma_config) (chan : litepcie_dma_chan) (op : chan_op)
    (hrel : ∀ p, op ≠ chan_op.op_release p) (reader : Bool) :
    dir_lock reader (apply_op cfg chan op) = dir_lock reader chan := by
  cases op with
  | op_open =>
    simp only [apply_op, litepcie_open]
    split_ifs <;> cases reader <;> rfl
  | op_release p => exact absurd rfl (hrel p)
  | op_dma_reader enable =>
    simp only [apply_op, ioctl_dma_reader, litepcie_dma_reader_start, litepcie_dma_reader_stop]
    split_ifs <;> cases reader <;> rfl
  | op_dma_writer enable =>
    simp only [apply_op, ioctl_dma_writer, litepcie_dma_writer_start, litepcie_dma_writer_stop]
    split_ifs <;> cases reader <;> rfl
  | op_irq_reader loop_status => cases reader <;> rfl
  | op_irq_writer loop_status => cases reader <;> rfl
  | op_write nonblock signal fault size =>
    simp only [apply_op]
    cases hw : litepcie_write cfg nonblock (pending_signal signal) fault size chan with
    | none => rfl
    | some r =>
      simp only []
      rw [write_result_frame cfg nonblock signal fault size chan r hw]
      cases reader <;> rfl
  | op_read nonblock signal fault size =>
    simp only [apply_op]
    cases hr : litepcie_read cfg nonblock (pending_signal signal) fault size chan with
    | none => rfl
    | some r =>
      simp only []
      rw [read_result_frame cfg nonblock signal fault size chan r hr]
      cases reader <;> rfl
  | op_reader_update sw_count => cases reader <;> rfl
  | op_writer_update sw_count => cases reader <;> rfl

/-- Every channel operation other than release and the enable ioctls leaves both
enable flags alone. -/
theorem apply_op_enable (cfg : dma_config) (chan : litepcie_dma_chan) (op : chan_op)
    (hrel : ∀ p, op ≠ chan_op.op_release p) (hr : ∀ e, op ≠ chan_op.op_dma_reader e)
    (hw : ∀ e, op ≠ chan_op.op_dma_writer e) (reader : Bool) :
    dir_enable reader (apply_op cfg chan op) = dir_enable reader chan := by
  cases op with
  | op_open =>
    simp only [apply_op, litepcie_open]
    split_ifs <;> cases reader <;> rfl
  | op_release p => exact absurd rfl (hrel p)
  | op_dma_reader enable => exact absurd rfl (hr enable)
  | op_dma_writer enable => exact absurd rfl (hw enable)
  | op_irq_reader loop_status => cases reader <;> rfl
  | op_irq_writer loop_status => cases reader <;> rfl
  | op_write nonblock signal fault size =>
    simp only [apply_op]
    cases hw : litepcie_write cfg nonblock (pending_signal signal) fault size chan with
    | none => rfl
    | some r =>
      simp only []
      rw [write_result_frame cfg nonblock signal fault size chan r hw]
      cases reader <;> rfl
  | op_read nonblock signal fault size =>
    simp only [apply_op]
    cases hr : litepcie_read cfg nonblock (pending_signal signal) fault size chan with
    | none => rfl
    | some r =>
      simp only []
      rw [read_result_frame cfg nonblock signal fault size chan r hr]
      cases reader <;> rfl
  | op_reader_update sw_count => cases reader <;> rfl
  | op_writer_update sw_count => cases reader <;> rfl

/-! ## Lock exclusivity -/

theorem lock_direction_cases (request release : Nat) (owner : Bool) (lock : Nat) :
    (release ≠ 0 ∧ (lock_direction request release owner lock).2 = (false, 0)) ∨
    (release = 0 ∧ request ≠ 0 ∧ lock = 0 ∧
      (lock_direction request release owner lock).2 = (true, 1)) ∨
    (release = 0 ∧ (request = 0 ∨ lock ≠ 0) ∧
      (lock_direction request release owner lock).2 = (owner, lock)) := by
  unfold lock_direction
  by_cases hl : release = 0 <;> by_cases hq : request = 0 <;> by_cases hk : lock = 0 <;>
    simp [hl, hq, hk]

theorem release_dir_lock (reader : Bool) (p : litepcie_chan_priv) (chan : litepcie_dma_chan) :
    dir_lock reader (litepcie_release p chan)
      = if dir_owner reader p = true then 0 else dir_lock reader chan := by
  obtain ⟨pr, pw⟩ := p
  cases reader <;> cases pr <;> cases pw <;> rfl

theorem release_dir_enable (reader : Bool) (p : litepcie_chan_priv) (chan : litepcie_dma_chan) :
    dir_enable reader (litepcie_release p chan)
      = if dir_owner reader p = true then 0 else dir_enable reader chan := by
  obtain ⟨pr, pw⟩ := p
  cases reader <;> cases pr <;> cases pw <;> rfl

theorem file_chan_op_frame (cfg : dma_config) (fd : Nat) (op : chan_op) (s : chan_files)
    (hrel : ∀ p, op ≠ chan_op.op_release p) :
    (file_chan_op cfg fd op s).files = s.files ∧
    (file_chan_op cfg fd op s).next_fd = s.next_fd ∧
    ∀ reader, dir_lock reader (file_chan_op cfg fd op s).chan = dir_lock reader s.chan := by
  unfold file_chan_op
  cases s.files fd with
  | none => exact ⟨rfl, rfl, fun _ => rfl⟩
  | some p => exact ⟨rfl, rfl, fun reader => apply_op_lock cfg s.chan op hrel reader⟩

theorem release_by_holder_lock (reader : Bool) (fd : Nat) (m : litepcie_ioctl_lock)
    (s : chan_files) (p : litepcie_chan_priv) (hp : s.files fd = some p)
    (h : release_by_holder s (file_op.lock fd m) = true) :
    dir_release reader m = 0 ∨ dir_owner reader p = true ∨ dir_lock reader s.chan = 0 := by
  simp only [release_by_holder, hp, Bool.and_eq_true, Bool.or_eq_true, decide_eq_true_eq] at h
  cases reader with
  | true =>
    rcases h.1 with (h1 | h1) | h1
    · exact Or.inl h1
    · exact Or.inr (Or.inl h1)
    · exact Or.inr (Or.inr h1)
  | false =>
    rcases h.2 with (h1 | h1) | h1
    · exact Or.inl h1
    · exact Or.inr (Or.inl h1)
    · exact Or.inr (Or.inr h1)

theorem lock_exclusive_of_same (s t : chan_files) (hf : t.files = s.files)
    (hl : ∀ reader, dir_lock reader t.chan = dir_lock reader s.chan)
    (h : lock_exclusive s) : lock_exclusive t := by
  intro reader
  obtain ⟨h1, h2⟩ := h reader
  rw [hf, hl reader]
  exact ⟨h1, h2⟩

theorem lock_exclusive_step (cfg : dma_config) (s : chan_files) (op : file_op)
    (h : lock_exclusive s) (hop : release_by_holder s op = true) :
    lock_exclusive (apply_file_op cfg s op) := by
  cases op with
  | open_file =>
    intro reader
    obtain ⟨h1, h2⟩ := h reader
    simp only [apply_file_op]
    have hnew : ∀ (i : Nat) (p : litepcie_chan_priv),
        Function.update s.files s.next_fd (some { reader := false, writer := false }) i = some p →
        dir_owner reader p = true → s.files i = some p := by
      intro i p hi ho
      by_cases e : i = s.next_fd
      · subst e
        simp only [Function.update_same, Option.some.injEq] at hi
        subst hi
        cases reader <;> simp [dir_owner] at ho
      · rwa [Function.update_noteq e] at hi
    refine ⟨?_, ?_⟩
    · intro i j p q hi hj hp hq
      exact h1 i j p q (hnew i p hi hp) (hnew j q hj hq) hp hq
    · intro i p hi hp
      have := h2 i p (hnew i p hi hp) hp
      rwa [show dir_lock reader (litepcie_open s.chan) = dir_lock reader s.chan from
        apply_op_lock cfg s.chan chan_op.op_open (by intro p; simp) reader]
  | close_file fd =>
    simp only [apply_file_op]
    cases hfd : s.files fd with
    | none => exact h
    | some p0 =>
      intro reader
      obtain ⟨h1, h2⟩ := h reader
      simp only []
      have hold : ∀ (i : Nat) (p : litepcie_chan_priv),
          Function.update s.files fd none i = some p → i ≠ fd ∧ s.files i = some p := by
        intro i p hi
        by_cases e : i = fd
        · subst e; simp at hi
        · exact ⟨e, by rwa [Function.update_noteq e] at hi⟩
      refine ⟨?_, ?_⟩
      · intro i j p q hi hj hp hq
        exact h1 i j p q (hold i p hi).2 (hold j q hj).2 hp hq
      · intro i p hi hp
        obtain ⟨hne, hi'⟩ := hold i p hi
        rw [release_dir_lock]
        by_cases ho : dir_owner reader p0 = true
        · exact absurd (h1 i fd p p0 hi' hfd hp ho) hne
        · simp only [ho, Bool.false_eq_true, if_false]
          exact h2 i p hi' hp
  | lock fd m =>
    simp only [apply_file_op]
    cases hfd : s.files fd with
    | none =>
      have : file_lock fd m s = (none, s) := by unfold file_lock; rw [hfd]
      rw [this]; exact h
    | some p0 =>
      rw [file_lock_open fd m s p0 hfd]
      intro reader
      obtain ⟨h1, h2⟩ := h reader
      have hdisc := release_by_holder_lock reader fd m s p0 hfd hop
      have hown := ioctl_lock_owner reader m p0 s.chan
      have hlock := ioctl_lock_lock reader m p0 s.chan
      simp only []
      have hold : ∀ (i : Nat) (p : litepcie_chan_priv),
          Function.update s.files fd (some (ioctl_lock m p0 s.chan).2.1) i = some p →
          (i = fd ∧ p = (ioctl_lock m p0 s.chan).2.1) ∨ (i ≠ fd ∧ s.files i = some p) := by
        intro i p hi
        by_cases e : i = fd
        · subst e
          simp only [Function.update_same, Option.some.injEq] at hi
          exact Or.inl ⟨rfl, hi.symm⟩
        · exact Or.inr ⟨e, by rwa [Function.update_noteq e] at hi⟩
      rcases lock_direction_cases (dir_request reader m) (dir_release reader m)
        (dir_owner reader p0) (dir_lock reader s.chan) with ⟨hl, e⟩ | ⟨hl, hq, hk, e⟩ | ⟨hl, hqk, e⟩
      · -- released
        rw [e] at hown hlock
        simp only [] at hown hlock
        have hnot : ∀ (i : Nat) (p : litepcie_chan_priv), i ≠ fd → s.files i = some p →
            dir_owner reader p = true → False := by
          intro i p hne hi hp
          rcases hdisc with hd | hd | hd
          · exact hl hd
          · exact hne (h1 i fd p p0 hi hfd hp hd)
          · exact h2 i p hi hp hd
        refine ⟨?_, ?_⟩
        · intro i j p q hi hj hp hq
          rcases hold i p hi with ⟨_, rfl⟩ | ⟨hne, hi'⟩
          · rw [hown] at hp; exact absurd hp (by decide)
          · exact absurd (hnot i p hne hi' hp) id
        · intro i p hi hp
          rcases hold i p hi with ⟨_, rfl⟩ | ⟨hne, hi'⟩
          · rw [hown] at hp; exact absurd hp (by decide)
          · exact absurd (hnot i p hne hi' hp) id
      · -- granted
        rw [e] at hown hlock
        simp only [] at hown hlock
        have hnot : ∀ (i : Nat) (p : litepcie_chan_priv), s.files i = some p →
            dir_owner reader p = true → False := by
          intro i p hi hp
          exact h2 i p hi hp hk
        refine ⟨?_, ?_⟩
        · intro i j p q hi hj hp hq
          rcases hold i p hi with ⟨ei, _⟩ | ⟨_, hi'⟩
          · rcases hold j q hj with ⟨ej, _⟩ | ⟨_, hj'⟩
            · rw [ei, ej]
            · exact absurd (hnot j q hj' hq) id
          · exact absurd (hnot i p hi' hp) id
        · intro i p hi hp
          show dir_lock reader (ioctl_lock m p0 s.chan).2.2 ≠ 0
          rw [hlock]; decide
      · -- unchanged
        rw [e] at hown hlock
        simp only [] at hown hlock
        have hback : ∀ (i : Nat) (p : litepcie_chan_priv),
            Function.update s.files fd (some (ioctl_lock m p0 s.chan).2.1) i = some p →
            dir_owner reader p = true →
            ∃ p1, s.files i = some p1 ∧ dir_owner reader p1 = true := by
          intro i p hi hp
          rcases hold i p hi with ⟨ei, ep⟩ | ⟨_, hi'⟩
          · subst ei; subst ep
            exact ⟨p0, hfd, by rw [← hown]; exact hp⟩
          · exact ⟨p, hi', hp⟩
        refine ⟨?_, ?_⟩
        · intro i j p q hi hj hp hq
          obtain ⟨p1, hi1, hp1⟩ := hback i p hi hp
          obtain ⟨q1, hj1, hq1⟩ := hback j q hj hq
          exact h1 i j p1 q1 hi1 hj1 hp1 hq1
        · intro i p hi hp
          obtain ⟨p1, hi1, hp1⟩ := hback i p hi hp
          show dir_lock reader (ioctl_lock m p0 s.chan).2.2 ≠ 0
          rw [hlock]
          exact h2 i p1 hi1 hp1
  | dma_reader fd enable =>
    obtain ⟨e1, _, e3⟩ := file_chan_op_frame cfg fd (chan_op.op_dma_reader enable) s
      (by intro p; simp)
    exact lock_exclusive_of_same s _ e1 e3 h
  | dma_writer fd enable =>
    obtain ⟨e1, _, e3⟩ := file_chan_op_frame cfg fd (chan_op.op_dma_writer enable) s
      (by intro p; simp)
    exact lock_exclusive_of_same s _ e1 e3 h
  | write fd nonblock signal fault size =>
    obtain ⟨e1, _, e3⟩ := file_chan_op_frame cfg fd
      (chan_op.op_write nonblock signal fault size) s (by intro p; simp)
    exact lock_exclusive_of_same s _ e1 e3 h
  | read fd nonblock signal fault size =>
    obtain ⟨e1, _, e3⟩ := file_chan_op_frame cfg fd
      (chan_op.op_read nonblock signal fault size) s (by intro p; simp)
    exact lock_exclusive_of_same s _ e1 e3 h
  | reader_update fd sw_count =>
    obtain ⟨e1, _, e3⟩ := file_chan_op_frame cfg fd (chan_op.op_reader_update sw_count) s
      (by intro p; simp)
    exact lock_exclusive_of_same s _ e1 e3 h
  | writer_update fd sw_count =>
    obtain ⟨e1, _, e3⟩ := file_chan_op_frame cfg fd (chan_op.op_writer_update sw_count) s
      (by intro p; simp)
    exact lock_exclusive_of_same s _ e1 e3 h
  | irq_reader loop_status =>
    exact lock_exclusive_of_same s _ rfl (fun reader => by cases reader <;> rfl) h
  | irq_writer loop_status =>
    exact lock_exclusive_of_same s _ rfl (fun reader => by cases reader <;> rfl) h

theorem lock_exclusive_run (cfg : dma_config) (ops : List file_op) :
    ∀ s : chan_files, lock_exclusive s → releases_by_holder cfg s ops = true →
      lock_exclusive (run_file_ops cfg s ops) := by
  induction ops with
  | nil => intro s h _; exact h
  | cons op rest ih =>
    intro s h hb
    simp only [releases_by_holder, Bool.and_eq_true] at hb
    exact ih _ (lock_exclusive_step cfg s op h hb.1) hb.2

/-- C18 as stated, refuted: two files are opened; file 0 requests the reader lock
(granted), file 1 releases it and then requests it (granted).  After the release
file 0 still has its ownership flag while the lock flag is clear, and after the
second grant both open files have the reader ownership flag. -/
theorem two_owners_after_foreign_release :
    (run_file_ops ⟨16, 8192⟩ files_reset
      [file_op.open_file, file_op.open_file, file_op.lock 0 ⟨1, 0, 0, 0, 0, 0⟩,
       file_op.lock 1 ⟨0, 0, 1, 0, 0, 0⟩]).files 0 = some ⟨true, false⟩ ∧
    (run_file_ops ⟨16, 8192⟩ files_reset
      [file_op.open_file, file_op.open_file, file_op.lock 0 ⟨1, 0, 0, 0, 0, 0⟩,
       file_op.lock 1 ⟨0, 0, 1, 0, 0, 0⟩]).chan.reader_lock = 0 ∧
    (run_file_ops ⟨16, 8192⟩ files_reset
      [file_op.open_file, file_op.open_file, file_op.lock 0 ⟨1, 0, 0, 0, 0, 0⟩,
       file_op.lock 1 ⟨0, 0, 1, 0, 0, 0⟩, file_op.lock 1 ⟨1, 0, 0, 0, 0, 0⟩]).files 0
      = some ⟨true, false⟩ ∧
    (run_file_ops ⟨16, 8192⟩ files_reset
      [file_op.open_file, file_op.open_file, file_op.lock 0 ⟨1, 0, 0, 0, 0, 0⟩,
       file_op.lock 1 ⟨0, 0, 1, 0, 0, 0⟩, file_op.lock 1 ⟨1, 0, 0, 0, 0, 0⟩]).files 1
      = some ⟨true, false⟩ ∧
    (0 : Nat) ≠ 1 := by
  decide

/-- C18, amended. In every state reached from probe through any sequence of calls
by any number of open files (open, lock request, lock release, close, and the other
calls and interrupts) in which a release is made only by the open file that has
the ownership flag of the direction or while the lock flag of the direction is
clear, for each direction at most one open file has the ownership flag, and an
open file has it only while the lock flag of the direction is set. -/
theorem lock_exclusivity (cfg : dma_config) (ops : List file_op)
    (hrel : releases_by_holder cfg files_reset ops = true) (reader : Bool) :
    (∀ (i j : Nat) (p q : litepcie_chan_priv),
      (run_file_ops cfg files_reset ops).files i = some p →
      (run_file_ops cfg files_reset ops).files j = some q →
      dir_owner reader p = true → dir_owner reader q = true → i = j) ∧
    (∀ (i : Nat) (p : litepcie_chan_priv),
      (run_file_ops cfg files_reset ops).files i = some p → dir_owner reader p = true →
      dir_lock reader (run_file_ops cfg files_reset ops).chan ≠ 0) := by
  have h0 : lock_exclusive files_reset := by
    intro r
    refine ⟨?_, ?_⟩
    · intro i j p q hi
      simp [files_reset] at hi
    · intro i p hi
      simp [files_reset] at hi
  exact lock_exclusive_run cfg ops files_reset h0 hrel reader

theorem lock_exclusivity_witness :
    releases_by_holder ⟨16, 8192⟩ files_reset
      [file_op.open_file, file_op.open_file, file_op.lock 0 ⟨1, 0, 0, 0, 0, 0⟩,
       file_op.lock 1 ⟨1, 0, 0, 0, 0, 0⟩, file_op.lock 0 ⟨0, 0, 1, 0, 0, 0⟩,
       file_op.lock 1 ⟨1, 0, 0, 0, 0, 0⟩, file_op.close_file 1] = true ∧
    (∀ (i : Nat) (p : litepcie_chan_priv),
      (run_file_ops ⟨16, 8192⟩ files_reset
        [file_op.open_file, file_op.open_file, file_op.lock 0 ⟨1, 0, 0, 0, 0, 0⟩,
         file_op.lock 1 ⟨1, 0, 0, 0, 0, 0⟩, file_op.lock 0 ⟨0, 0, 1, 0, 0, 0⟩,
         file_op.lock 1 ⟨1, 0, 0, 0, 0, 0⟩, file_op.close_file 1]).files i = some p →
      dir_owner true p = true →
      dir_lock true (run_file_ops ⟨16, 8192⟩ files_reset
        [file_op.open_file, file_op.open_file, file_op.lock 0 ⟨1, 0, 0, 0, 0, 0⟩,
         file_op.lock 1 ⟨1, 0, 0, 0, 0, 0⟩, file_op.lock 0 ⟨0, 0, 1, 0, 0, 0⟩,
         file_op.lock 1 ⟨1, 0, 0, 0, 0, 0⟩, file_op.close_file 1]).chan ≠ 0) :=
  ⟨by decide, (lock_exclusivity ⟨16, 8192⟩ _ (by decide) true).2⟩

/-! ## Close force-stops the directions the file owns -/

theorem disable_mask_bit (n : Nat) (hn : n < 32) :
    (toUInt32 (-(toInt32 (2 ^ n)) - 1)).testBit n = false := by
  interval_cases n <;> decide

theorem disable_interrupt_bit (n : Nat) (hn : n < 32) (regs : litepcie_regs) :
    (litepcie_disable_interrupt n regs).msi_enable.testBit n = false := by
  show ((regs.msi_enable &&& toUInt32 (-(toInt32 (2 ^ n)) - 1)) % 2 ^ 32).testBit n = false
  rw [Nat.testBit_mod_two_pow, Nat.testBit_and, disable_mask_bit n hn]
  simp

theorem disable_interrupt_keeps_clear (n k : Nat) (regs : litepcie_regs)
    (h : regs.msi_enable.testBit k = false) :
    (litepcie_disable_interrupt n regs).msi_enable.testBit k = false := by
  show ((regs.msi_enable &&& toUInt32 (-(toInt32 (2 ^ n)) - 1)) % 2 ^ 32).testBit k = false
  rw [Nat.testBit_mod_two_pow, Nat.testBit_and, h]
  simp

theorem release_dev_chan (irqs : chan_irqs) (chan_priv : litepcie_chan_priv) (d : chan_dev) :
    (litepcie_release_dev irqs chan_priv d).chan = litepcie_release chan_priv d.chan := by
  obtain ⟨pr, pw⟩ := chan_priv
  cases pr <;> cases pw <;> rfl

theorem disable_interrupt_writes (n : Nat) (regs : litepcie_regs) :
    (litepcie_disable_interrupt n regs).writes
      = regs.writes ++ [(csr_reg.PCIE_MSI_ENABLE, (litepcie_disable_interrupt n regs).msi_enable)] := by
  simp [litepcie_disable_interrupt, litepcie_writel]

theorem reader_stop_dev_regs (d : chan_dev) :
    (litepcie_dma_reader_stop_dev d).regs.msi_enable = d.regs.msi_enable ∧
    (litepcie_dma_reader_stop_dev d).regs.writes
      = d.regs.writes ++ [(csr_reg.DMA_READER_TABLE_LOOP_PROG_N, 0),
          (csr_reg.DMA_READER_TABLE_FLUSH, 1), (csr_reg.DMA_READER_ENABLE, 0),
          (csr_reg.DMA_READER_TABLE_FLUSH, 1)] := by
  simp [litepcie_dma_reader_stop_dev, litepcie_writel]

theorem writer_stop_dev_regs (d : chan_dev) :
    (litepcie_dma_writer_stop_dev d).regs.msi_enable = d.regs.msi_enable ∧
    (litepcie_dma_writer_stop_dev d).regs.writes
      = d.regs.writes ++ [(csr_reg.DMA_WRITER_TABLE_LOOP_PROG_N, 0),
          (csr_reg.DMA_WRITER_TABLE_FLUSH, 1), (csr_reg.DMA_WRITER_ENABLE, 0),
          (csr_reg.DMA_WRITER_TABLE_FLUSH, 1)] := by
  simp [litepcie_dma_writer_stop_dev, litepcie_writel]

/-- State of the registers after the reader half of `litepcie_release`. -/
theorem release_dev_reader_half (irqs : chan_irqs) (d : chan_dev) (hr : irqs.reader_interrupt < 32) :
    (litepcie_release_dev irqs ⟨true, false⟩ d).regs.msi_enable.testBit irqs.reader_interrupt
      = false ∧
    (litepcie_release_dev irqs ⟨true, false⟩ d).regs.writes
      = d.regs.writes ++
        [(csr_reg.PCIE_MSI_ENABLE,
            (litepcie_disable_interrupt irqs.reader_interrupt d.regs).msi_enable),
         (csr_reg.DMA_READER_TABLE_LOOP_PROG_N, 0), (csr_reg.DMA_READER_TABLE_FLUSH, 1),
         (csr_reg.DMA_READER_ENABLE, 0), (csr_reg.DMA_READER_TABLE_FLUSH, 1)] := by
  have h1 := reader_stop_dev_regs
    { d with regs := litepcie_disable_interrupt irqs.reader_interrupt d.regs }
  constructor
  · show (litepcie_dma_reader_stop_dev
      { d with regs := litepcie_disable_interrupt irqs.reader_interrupt d.regs }).regs.msi_enable.testBit
        irqs.reader_interrupt = false
    rw [h1.1]
    exact disable_interrupt_bit _ hr d.regs
  · show (litepcie_dma_reader_stop_dev
      { d with regs := litepcie_disable_interrupt irqs.reader_interrupt d.regs }).regs.writes = _
    rw [h1.2]
    simp only []
    rw [disable_interrupt_writes]
    simp

/-- State of the registers after the writer half of `litepcie_release`. -/
theorem release_dev_writer_half (irqs : chan_irqs) (reader : Bool) (d : chan_dev)
    (hw : irqs.writer_interrupt < 32) :
    (litepcie_release_dev irqs ⟨reader, true⟩ d).regs.msi_enable.testBit irqs.writer_interrupt
      = false ∧
    (∀ k, (litepcie_release_dev irqs ⟨reader, false⟩ d).regs.msi_enable.testBit k = false →
      (litepcie_release_dev irqs ⟨reader, true⟩ d).regs.msi_enable.testBit k = false) ∧
    (litepcie_release_dev irqs ⟨reader, true⟩ d).regs.writes
      = (litepcie_release_dev irqs ⟨reader, false⟩ d).regs.writes ++
        [(csr_reg.PCIE_MSI_ENABLE,
            (litepcie_release_dev irqs ⟨reader, true⟩ d).regs.msi_enable),
         (csr_reg.DMA_WRITER_TABLE_LOOP_PROG_N, 0), (csr_reg.DMA_WRITER_TABLE_FLUSH, 1),
         (csr_reg.DMA_WRITER_ENABLE, 0), (csr_reg.DMA_WRITER_TABLE_FLUSH, 1)] := by
  have h1 := writer_stop_dev_regs
    { (litepcie_release_dev irqs ⟨reader, false⟩ d) with
      regs := litepcie_disable_interrupt irqs.writer_interrupt
        (litepcie_release_dev irqs ⟨reader, false⟩ d).regs }
  have e : (litepcie_release_dev irqs ⟨reader, true⟩ d).regs
      = (litepcie_dma_writer_stop_dev
          { (litepcie_release_dev irqs ⟨reader, false⟩ d) with
            regs := litepcie_disable_interrupt irqs.writer_interrupt
              (litepcie_release_dev irqs ⟨reader, false⟩ d).regs }).regs := by
    cases reader <;> rfl
  rw [e, h1.1, h1.2]
  refine ⟨disable_interrupt_bit _ hw _, ?_, ?_⟩
  · intro k hk
    exact disable_interrupt_keeps_clear _ k _ hk
  · simp only []
    rw [disable_interrupt_writes]
    simp

/-- C19. Scenario D.  When an open file that has the reader ownership flag is
closed (whatever the lock and enable flags were, in particular with the lock held
and the direction enabled), afterwards the reader lock flag and the reader enable
flag are clear, the three reader counters are zero, the bit `reader_interrupt` of
the MSI enable register is clear, and the register writes issued are the write of
the MSI enable register with that bit cleared followed by the stop sequence
`LOOP_PROG_N = 0, FLUSH = 1, ENABLE = 0, FLUSH = 1` of the reader (then the writer
part, if any).  The same holds for the writer direction, whose writes come last.
Interrupt numbers are bit positions of the 32-bit register. -/
theorem close_force_stops (irqs : chan_irqs) (chan_priv : litepcie_chan_priv) (d : chan_dev)
    (hr : irqs.reader_interrupt < 32) (hw : irqs.writer_interrupt < 32) :
    (chan_priv.reader = true →
      (litepcie_release_dev irqs chan_priv d).chan.reader_lock = 0 ∧
      (litepcie_release_dev irqs chan_priv d).chan.reader_enable = 0 ∧
      (litepcie_release_dev irqs chan_priv d).chan.reader_hw_count = 0 ∧
      (litepcie_release_dev irqs chan_priv d).chan.reader_hw_count_last = 0 ∧
      (litepcie_release_dev irqs chan_priv d).chan.reader_sw_count = 0 ∧
      (litepcie_release_dev irqs chan_priv d).regs.msi_enable.testBit irqs.reader_interrupt
        = false ∧
      ∃ (v : Nat) (rest : List (csr_reg × Nat)),
        v.testBit irqs.reader_interrupt = false ∧
        (litepcie_release_dev irqs chan_priv d).regs.writes
          = d.regs.writes ++
            [(csr_reg.PCIE_MSI_ENABLE, v),
             (csr_reg.DMA_READER_TABLE_LOOP_PROG_N, 0), (csr_reg.DMA_READER_TABLE_FLUSH, 1),
             (csr_reg.DMA_READER_ENABLE, 0), (csr_reg.DMA_READER_TABLE_FLUSH, 1)] ++ rest) ∧
    (chan_priv.writer = true →
      (litepcie_release_dev irqs chan_priv d).chan.writer_lock = 0 ∧
      (litepcie_release_dev irqs chan_priv d).chan.writer_enable = 0 ∧
      (litepcie_release_dev irqs chan_priv d).chan.writer_hw_count = 0 ∧
      (litepcie_release_dev irqs chan_priv d).chan.writer_hw_count_last = 0 ∧
      (litepcie_release_dev irqs chan_priv d).chan.writer_sw_count = 0 ∧
      (litepcie_release_dev irqs chan_priv d).regs.msi_enable.testBit irqs.writer_interrupt
        = false ∧
      ∃ (v : Nat) (pre : List (csr_reg × Nat)),
        v.testBit irqs.writer_interrupt = false ∧
        (litepcie_release_dev irqs chan_priv d).regs.writes
          = d.regs.writes ++ pre ++
            [(csr_reg.PCIE_MSI_ENABLE, v),
             (csr_reg.DMA_WRITER_TABLE_LOOP_PROG_N, 0), (csr_reg.DMA_WRITER_TABLE_FLUSH, 1),
             (csr_reg.DMA_WRITER_ENABLE, 0), (csr_reg.DMA_WRITER_TABLE_FLUSH, 1)]) := by
  obtain ⟨pr, pw⟩ := chan_priv
  constructor
  · intro hpr
    simp only [] at hpr
    subst hpr
    obtain ⟨hb, hwr⟩ := release_dev_reader_half irqs d hr
    cases pw with
    | false =>
      refine ⟨rfl, rfl, rfl, rfl, rfl, hb,
        (litepcie_disable_interrupt irqs.reader_interrupt d.regs).msi_enable, [],
        disable_interrupt_bit _ hr d.regs, ?_⟩
      rw [hwr]; simp
    | true =>
      obtain ⟨_, hk, hww⟩ := release_dev_writer_half irqs true d hw
      refine ⟨rfl, rfl, rfl, rfl, rfl, hk _ hb,
        (litepcie_disable_interrupt irqs.reader_interrupt d.regs).msi_enable,
        [(csr_reg.PCIE_MSI_ENABLE,
            (litepcie_release_dev irqs ⟨true, true⟩ d).regs.msi_enable),
         (csr_reg.DMA_WRITER_TABLE_LOOP_PROG_N, 0), (csr_reg.DMA_WRITER_TABLE_FLUSH, 1),
         (csr_reg.DMA_WRITER_ENABLE, 0), (csr_reg.DMA_WRITER_TABLE_FLUSH, 1)],
        disable_interrupt_bit _ hr d.regs, ?_⟩
      rw [hww, hwr]
  · intro hpw
    simp only [] at hpw
    subst hpw
    obtain ⟨hb, _, hww⟩ := release_dev_writer_half irqs pr d hw
    cases pr with
    | false =>
      refine ⟨rfl, rfl, rfl, rfl, rfl, hb,
        (litepcie_release_dev irqs ⟨false, true⟩ d).regs.msi_enable, [], hb, ?_⟩
      rw [hww]
      simp [litepcie_release_dev]
    | true =>
      obtain ⟨_, hwr⟩ := release_dev_reader_half irqs d hr
      refine ⟨rfl, rfl, rfl, rfl, rfl, hb,
        (litepcie_release_dev irqs ⟨true, true⟩ d).regs.msi_enable,
        [(csr_reg.PCIE_MSI_ENABLE,
            (litepcie_disable_interrupt irqs.reader_interrupt d.regs).msi_enable),
         (csr_reg.DMA_READER_TABLE_LOOP_PROG_N, 0), (csr_reg.DMA_READER_TABLE_FLUSH, 1),
         (csr_reg.DMA_READER_ENABLE, 0), (csr_reg.DMA_READER_TABLE_FLUSH, 1)], hb, ?_⟩
      rw [hww, hwr]

theorem close_force_stops_witness :
    (litepcie_release_dev ⟨1, 0⟩ ⟨true, false⟩
      ⟨{ chan_reset with reader_lock := 1, reader_enable := 1, reader_hw_count := 9,
                         reader_hw_count_last := 9, reader_sw_count := 12 },
       ⟨3, []⟩⟩).chan.reader_lock = 0 ∧
    (litepcie_release_dev ⟨1, 0⟩ ⟨true, false⟩
      ⟨{ chan_reset with reader_lock := 1, reader_enable := 1, reader_hw_count := 9,
                         reader_hw_count_last := 9, reader_sw_count := 12 },
       ⟨3, []⟩⟩).chan.reader_enable = 0 ∧
    (litepcie_release_dev ⟨1, 0⟩ ⟨true, false⟩
      ⟨{ chan_reset with reader_lock := 1, reader_enable := 1, reader_hw_count := 9,
                         reader_hw_count_last := 9, reader_sw_count := 12 },
       ⟨3, []⟩⟩).regs = ⟨1, [(csr_reg.PCIE_MSI_ENABLE, 1),
          (csr_reg.DMA_READER_TABLE_LOOP_PROG_N, 0), (csr_reg.DMA_READER_TABLE_FLUSH, 1),
          (csr_reg.DMA_READER_ENABLE, 0), (csr_reg.DMA_READER_TABLE_FLUSH, 1)]⟩ :=
  ⟨((close_force_stops ⟨1, 0⟩ ⟨true, false⟩
      ⟨{ chan_reset with reader_lock := 1, reader_enable := 1, reader_hw_count := 9,
                         reader_hw_count_last := 9, reader_sw_count := 12 },
       ⟨3, []⟩⟩ (by decide) (by decide)).1 rfl).1,
   ((close_force_stops ⟨1, 0⟩ ⟨true, false⟩
      ⟨{ chan_reset with reader_lock := 1, reader_enable := 1, reader_hw_count := 9,
                         reader_hw_count_last := 9, reader_sw_count := 12 },
       ⟨3, []⟩⟩ (by decide) (by decide)).1 rfl).2.1,
   by decide⟩

/-! ## No direction left locked by closed files -/

theorem file_chan_op_files (cfg : dma_config) (fd : Nat) (op : chan_op) (s : chan_files) :
    (file_chan_op cfg fd op s).files = s.files ∧
    (file_chan_op cfg fd op s).next_fd = s.next_fd := by
  unfold file_chan_op
  cases s.files fd <;> exact ⟨rfl, rfl⟩

theorem files_fresh_step (cfg : dma_config) (s : chan_files) (op : file_op)
    (h : files_fresh s) : files_fresh (apply_file_op cfg s op) := by
  have hsame : ∀ t : chan_files, t.files = s.files → t.next_fd = s.next_fd → files_fresh t := by
    intro t e1 e2 fd hfd
    rw [e1]; rw [e2] at hfd
    exact h fd hfd
  cases op with
  | open_file =>
    intro fd hfd
    simp only [apply_file_op] at hfd ⊢
    rw [Function.update_noteq (by omega)]
    exact h fd (by omega)
  | close_file fd =>
    simp only [apply_file_op]
    cases hfd : s.files fd with
    | none => exact h
    | some p0 =>
      intro i hi
      simp only [] at hi ⊢
      by_cases e : i = fd
      · subst e; simp
      · rw [Function.update_noteq e]; exact h i hi
  | lock fd m =>
    simp only [apply_file_op]
    cases hfd : s.files fd with
    | none =>
      have : file_lock fd m s = (none, s) := by unfold file_lock; rw [hfd]
      rw [this]; exact h
    | some p0 =>
      rw [file_lock_open fd m s p0 hfd]
      intro i hi
      simp only [] at hi ⊢
      by_cases e : i = fd
      · subst e
        have := h i hi
        rw [hfd] at this
        exact absurd this (by simp)
      · rw [Function.update_noteq e]; exact h i hi
  | dma_reader fd enable =>
    exact hsame _ (file_chan_op_files cfg fd _ s).1 (file_chan_op_files cfg fd _ s).2
  | dma_writer fd enable =>
    exact hsame _ (file_chan_op_files cfg fd _ s).1 (file_chan_op_files cfg fd _ s).2
  | write fd nonblock signal fault size =>
    exact hsame _ (file_chan_op_files cfg fd _ s).1 (file_chan_op_files cfg fd _ s).2
  | read fd nonblock signal fault size =>
    exact hsame _ (file_chan_op_files cfg fd _ s).1 (file_chan_op_files cfg fd _ s).2
  | reader_update fd sw_count =>
    exact hsame _ (file_chan_op_files cfg fd _ s).1 (file_chan_op_files cfg fd _ s).2
  | writer_update fd sw_count =>
    exact hsame _ (file_chan_op_files cfg fd _ s).1 (file_chan_op_files cfg fd _ s).2
  | irq_reader loop_status => exact hsame _ rfl rfl
  | irq_writer loop_status => exact hsame _ rfl rfl

/-- How one call changes the owners of a direction: an owner stays an owner unless
it is the file closed, or the file making a lock call with the release byte set. -/
theorem has_owner_step (cfg : dma_config) (s : chan_files) (op : file_op) (reader : Bool)
    (hf : files_fresh s) (h : has_owner reader s)
    (hclose : ∀ fd p, op = file_op.close_file fd → s.files fd = some p →
      dir_owner reader p = false)
    (hlock : ∀ fd m p, op = file_op.lock fd m → s.files fd = some p →
      dir_owner reader p = true → dir_release reader m = 0) :
    has_owner reader (apply_file_op cfg s op) := by
  obtain ⟨i, p, hi, hp⟩ := h
  have hsame : ∀ t : chan_files, t.files = s.files → has_owner reader t := by
    intro t e
    exact ⟨i, p, by rw [e]; exact hi, hp⟩
  cases op with
  | open_file =>
    refine ⟨i, p, ?_, hp⟩
    simp only [apply_file_op]
    have hne : i ≠ s.next_fd := by
      intro e
      have := hf i (by omega)
      rw [hi] at this
      exact absurd this (by simp)
    rw [Function.update_noteq hne]
    exact hi
  | close_file fd =>
    simp only [apply_file_op]
    cases hfd : s.files fd with
    | none => exact ⟨i, p, hi, hp⟩
    | some p0 =>
      have hne : i ≠ fd := by
        intro e
        subst e
        rw [hfd] at hi
        simp only [Option.some.injEq] at hi
        subst hi
        have := hclose i p0 rfl hfd
        rw [this] at hp
        exact absurd hp (by decide)
      refine ⟨i, p, ?_, hp⟩
      simp only []
      rw [Function.update_noteq hne]
      exact hi
  | lock fd m =>
    simp only [apply_file_op]
    cases hfd : s.files fd with
    | none =>
      have : file_lock fd m s = (none, s) := by unfold file_lock; rw [hfd]
      rw [this]; exact ⟨i, p, hi, hp⟩
    | some p0 =>
      rw [file_lock_open fd m s p0 hfd]
      by_cases e : i = fd
      · subst e
        rw [hfd] at hi
        simp only [Option.some.injEq] at hi
        subst hi
        have hl := hlock i m p0 rfl hfd hp
        refine ⟨i, (ioctl_lock m p0 s.chan).2.1, by simp, ?_⟩
        rw [ioctl_lock_owner]
        rcases lock_direction_cases (dir_request reader m) (dir_release reader m)
          (dir_owner reader p0) (dir_lock reader s.chan) with ⟨hl', _⟩ | ⟨_, _, _, e2⟩ | ⟨_, _, e2⟩
        · exact absurd hl hl'
        · rw [e2]
        · rw [e2]; exact hp
      · refine ⟨i, p, ?_, hp⟩
        simp only []
        rw [Function.update_noteq e]
        exact hi
  | dma_reader fd enable => exact hsame _ (file_chan_op_files cfg fd _ s).1
  | dma_writer fd enable => exact hsame _ (file_chan_op_files cfg fd _ s).1
  | write fd nonblock signal fault size => exact hsame _ (file_chan_op_files cfg fd _ s).1
  | read fd nonblock signal fault size => exact hsame _ (file_chan_op_files cfg fd _ s).1
  | reader_update fd sw_count => exact hsame _ (file_chan_op_files cfg fd _ s).1
  | writer_update fd sw_count => exact hsame _ (file_chan_op_files cfg fd _ s).1
  | irq_reader loop_status => exact hsame _ rfl
  | irq_writer loop_status => exact hsame _ rfl

theorem file_chan_op_enable (cfg : dma_config) (fd : Nat) (op : chan_op) (s : chan_files)
    (hrel : ∀ p, op ≠ chan_op.op_release p) (hr : ∀ e, op ≠ chan_op.op_dma_reader e)
    (hw : ∀ e, op ≠ chan_op.op_dma_writer e) (reader : Bool) :
    dir_enable reader (file_chan_op cfg fd op s).chan = dir_enable reader s.chan := by
  unfold file_chan_op
  cases s.files fd with
  | none => rfl
  | some p => exact apply_op_enable cfg s.chan op hrel hr hw reader

theorem locked_has_owner_step (cfg : dma_config) (s : chan_files) (op : file_op)
    (hf : files_fresh s) (h : locked_has_owner s) :
    locked_has_owner (apply_file_op cfg s op) := by
  intro reader hlk
  have hother : ∀ t : chan_files, t = apply_file_op cfg s op →
      dir_lock reader t.chan = dir_lock reader s.chan →
      (∀ fd, op ≠ file_op.close_file fd) → (∀ fd m, op ≠ file_op.lock fd m) →
      has_owner reader t := by
    intro t et el hc hl
    rw [et]
    rw [et] at el
    exact has_owner_step cfg s op reader hf (h reader (by rw [← el]; exact hlk))
      (fun fd p e => absurd e (hc fd)) (fun fd m p e => absurd e (hl fd m))
  cases op with
  | open_file =>
    exact hother _ rfl
      (apply_op_lock cfg s.chan chan_op.op_open (by intro p; simp) reader)
      (by intro fd; simp) (by intro fd m; simp)
  | close_file fd =>
    cases hfd : s.files fd with
    | none =>
      have e : apply_file_op cfg s (file_op.close_file fd) = s := by
        simp only [apply_file_op, hfd]
      rw [e] at hlk ⊢
      exact h reader hlk
    | some p0 =>
      have e : (apply_file_op cfg s (file_op.close_file fd)).chan
          = litepcie_release p0 s.chan := by
        simp only [apply_file_op, hfd]
      rw [e, release_dir_lock] at hlk
      by_cases ho : dir_owner reader p0 = true
      · simp [ho] at hlk
      · simp only [ho, Bool.false_eq_true, if_false] at hlk
        refine has_owner_step cfg s _ reader hf (h reader hlk) ?_ ?_
        · intro fd' p e hp
          simp only [file_op.close_file.injEq] at e
          subst e
          rw [hfd] at hp
          simp only [Option.some.injEq] at hp
          subst hp
          simpa using ho
        · intro fd' m p e
          simp at e
  | lock fd m =>
    cases hfd : s.files fd with
    | none =>
      have e : apply_file_op cfg s (file_op.lock fd m) = s := by
        simp only [apply_file_op, file_lock, hfd]
      rw [e] at hlk ⊢
      exact h reader hlk
    | some p0 =>
      have e : apply_file_op cfg s (file_op.lock fd m)
          = { s with chan := (ioctl_lock m p0 s.chan).2.2
                     files := Function.update s.files fd (some (ioctl_lock m p0 s.chan).2.1) } := by
        simp only [apply_file_op, file_lock_open fd m s p0 hfd]
      have hlk' : dir_lock reader (ioctl_lock m p0 s.chan).2.2 ≠ 0 := by
        rw [e] at hlk; exact hlk
      rw [ioctl_lock_lock] at hlk'
      rcases lock_direction_cases (dir_request reader m) (dir_release reader m)
        (dir_owner reader p0) (dir_lock reader s.chan) with ⟨_, e2⟩ | ⟨_, _, _, e2⟩ | ⟨hl, _, e2⟩
      · rw [e2] at hlk'; exact absurd rfl hlk'
      · rw [e]
        refine ⟨fd, (ioctl_lock m p0 s.chan).2.1, by simp, ?_⟩
        rw [ioctl_lock_owner, e2]
      · rw [e2] at hlk'
        refine has_owner_step cfg s _ reader hf (h reader hlk') ?_ ?_
        · intro fd' p e'
          simp at e'
        · intro fd' m' p e' _ _
          simp only [file_op.lock.injEq] at e'
          rw [← e'.2]; exact hl
  | dma_reader fd enable =>
    exact hother _ rfl ((file_chan_op_frame cfg fd _ s (by intro p; simp)).2.2 reader)
      (by intro fd; simp) (by intro fd m; simp)
  | dma_writer fd enable =>
    exact hother _ rfl ((file_chan_op_frame cfg fd _ s (by intro p; simp)).2.2 reader)
      (by intro fd; simp) (by intro fd m; simp)
  | write fd nonblock signal fault size =>
    exact hother _ rfl ((file_chan_op_frame cfg fd _ s (by intro p; simp)).2.2 reader)
      (by intro fd; simp) (by intro fd m; simp)
  | read fd nonblock signal fault size =>
    exact hother _ rfl ((file_chan_op_frame cfg fd _ s (by intro p; simp)).2.2 reader)
      (by intro fd; simp) (by intro fd m; simp)
  | reader_update fd sw_count =>
    exact hother _ rfl ((file_chan_op_frame cfg fd _ s (by intro p; simp)).2.2 reader)
      (by intro fd; simp) (by intro fd m; simp)
  | writer_update fd sw_count =>
    exact hother _ rfl ((file_chan_op_frame cfg fd _ s (by intro p; simp)).2.2 reader)
      (by intro fd; simp) (by intro fd m; simp)
  | irq_reader loop_status =>
    exact hother _ rfl (by cases reader <;> rfl) (by intro fd; simp) (by intro fd m; simp)
  | irq_writer loop_status =>
    exact hother _ rfl (by cases reader <;> rfl) (by intro fd; simp) (by intro fd m; simp)

theorem enable_by_holder_lock (reader : Bool) (fd : Nat) (m : litepcie_ioctl_lock)
    (s : chan_files) (p : litepcie_chan_priv) (hp : s.files fd = some p)
    (h : enable_by_holder s (file_op.lock fd m) = true) :
    dir_release reader m = 0 ∨ dir_owner reader p = false ∨ dir_enable reader s.chan = 0 := by
  simp only [enable_by_holder, hp, Bool.and_eq_true, Bool.or_eq_true, decide_eq_true_eq,
    Bool.not_eq_true'] at h
  cases reader with
  | true =>
    rcases h.1 with (h1 | h1) | h1
    · exact Or.inl h1
    · exact Or.inr (Or.inl h1)
    · exact Or.inr (Or.inr h1)
  | false =>
    rcases h.2 with (h1 | h1) | h1
    · exact Or.inl h1
    · exact Or.inr (Or.inl h1)
    · exact Or.inr (Or.inr h1)

theorem ioctl_dma_reader_enable (enable : Nat) (chan : litepcie_dma_chan) :
    (ioctl_dma_reader enable chan).reader_enable = enable ∧
    (ioctl_dma_reader enable chan).writer_enable = chan.writer_enable := by
  unfold ioctl_dma_reader litepcie_dma_reader_start litepcie_dma_reader_stop
  split_ifs <;> exact ⟨rfl, rfl⟩

theorem ioctl_dma_writer_enable (enable : Nat) (chan : litepcie_dma_chan) :
    (ioctl_dma_writer enable chan).writer_enable = enable ∧
    (ioctl_dma_writer enable chan).reader_enable = chan.reader_enable := by
  unfold ioctl_dma_writer litepcie_dma_writer_start litepcie_dma_writer_stop
  split_ifs <;> exact ⟨rfl, rfl⟩

theorem enabled_has_owner_step (cfg : dma_config) (s : chan_files) (op : file_op)
    (hf : files_fresh s) (h : enabled_has_owner s) (hop : enable_by_holder s op = true) :
    enabled_has_owner (apply_file_op cfg s op) := by
  intro reader hen
  have hother : ∀ t : chan_files, t = apply_file_op cfg s op →
      dir_enable reader t.chan = dir_enable reader s.chan →
      (∀ fd, op ≠ file_op.close_file fd) → (∀ fd m, op ≠ file_op.lock fd m) →
      has_owner reader t := by
    intro t et el hc hl
    rw [et]
    rw [et] at el
    exact has_owner_step cfg s op reader hf (h reader (by rw [← el]; exact hen))
      (fun fd p e => absurd e (hc fd)) (fun fd m p e => absurd e (hl fd m))
  cases op with
  | open_file =>
    exact hother _ rfl
      (apply_op_enable cfg s.chan chan_op.op_open (by intro p; simp) (by intro p; simp)
        (by intro p; simp) reader)
      (by intro fd; simp) (by intro fd m; simp)
  | close_file fd =>
    cases hfd : s.files fd with
    | none =>
      have e : apply_file_op cfg s (file_op.close_file fd) = s := by
        simp only [apply_file_op, hfd]
      rw [e] at hen ⊢
      exact h reader hen
    | some p0 =>
      have e : (apply_file_op cfg s (file_op.close_file fd)).chan
          = litepcie_release p0 s.chan := by
        simp only [apply_file_op, hfd]
      rw [e, release_dir_enable] at hen
      by_cases ho : dir_owner reader p0 = true
      · simp [ho] at hen
      · simp only [ho, Bool.false_eq_true, if_false] at hen
        refine has_owner_step cfg s _ reader hf (h reader hen) ?_ ?_
        · intro fd' p e hp
          simp only [file_op.close_file.injEq] at e
          subst e
          rw [hfd] at hp
          simp only [Option.some.injEq] at hp
          subst hp
          simpa using ho
        · intro fd' m p e
          simp at e
  | lock fd m =>
    cases hfd : s.files fd with
    | none =>
      have e : apply_file_op cfg s (file_op.lock fd m) = s := by
        simp only [apply_file_op, file_lock, hfd]
      rw [e] at hen ⊢
      exact h reader hen
    | some p0 =>
      have e : (apply_file_op cfg s (file_op.lock fd m)).chan = (ioctl_lock m p0 s.chan).2.2 := by
        simp only [apply_file_op, file_lock_open fd m s p0 hfd]
      have hen' : dir_enable reader s.chan ≠ 0 := by
        rw [e] at hen
        have : dir_enable reader (ioctl_lock m p0 s.chan).2.2 = dir_enable reader s.chan := by
          cases reader <;> rfl
        rwa [this] at hen
      refine has_owner_step cfg s _ reader hf (h reader hen') ?_ ?_
      · intro fd' p e'
        simp at e'
      · intro fd' m' p e' hp ho
        simp only [file_op.lock.injEq] at e'
        obtain ⟨e1, e2⟩ := e'
        subst e1; subst e2
        rcases enable_by_holder_lock reader fd m s p hp hop with h1 | h1 | h1
        · exact h1
        · rw [h1] at ho; exact absurd ho (by decide)
        · exact absurd h1 hen'
  | dma_reader fd enable =>
    cases hfd : s.files fd with
    | none =>
      have e : apply_file_op cfg s (file_op.dma_reader fd enable) = s := by
        simp only [apply_file_op, file_chan_op, hfd]
      rw [e] at hen ⊢
      exact h reader hen
    | some p0 =>
      have e : apply_file_op cfg s (file_op.dma_reader fd enable)
          = { s with chan := ioctl_dma_reader enable s.chan } := by
        simp only [apply_file_op, file_chan_op, hfd, apply_op]
      rw [e] at hen ⊢
      obtain ⟨e1, e2⟩ := ioctl_dma_reader_enable enable s.chan
      cases reader with
      | true =>
        have hne : enable ≠ 0 := by
          simp only [dir_enable, if_true] at hen
          rwa [e1] at hen
        simp only [enable_by_holder, hfd, Bool.or_eq_true, decide_eq_true_eq] at hop
        rcases hop with h1 | h1
        · exact absurd h1 hne
        · exact ⟨fd, p0, hfd, h1⟩
      | false =>
        have hne : dir_enable false s.chan ≠ 0 := by
          simp only [dir_enable, Bool.false_eq_true, if_false] at hen ⊢
          rwa [e2] at hen
        obtain ⟨i, p, hi, hp⟩ := h false hne
        exact ⟨i, p, hi, hp⟩
  | dma_writer fd enable =>
    cases hfd : s.files fd with
    | none =>
      have e : apply_file_op cfg s (file_op.dma_writer fd enable) = s := by
        simp only [apply_file_op, file_chan_op, hfd]
      rw [e] at hen ⊢
      exact h reader hen
    | some p0 =>
      have e : apply_file_op cfg s (file_op.dma_writer fd enable)
          = { s with chan := ioctl_dma_writer enable s.chan } := by
        simp only [apply_file_op, file_chan_op, hfd, apply_op]
      rw [e] at hen ⊢
      obtain ⟨e1, e2⟩ := ioctl_dma_writer_enable enable s.chan
      cases reader with
      | false =>
        have hne : enable ≠ 0 := by
          simp only [dir_enable, Bool.false_eq_true, if_false] at hen
          rwa [e1] at hen
        simp only [enable_by_holder, hfd, Bool.or_eq_true, decide_eq_true_eq] at hop
        rcases hop with h1 | h1
        · exact absurd h1 hne
        · exact ⟨fd, p0, hfd, h1⟩
      | true =>
        have hne : dir_enable true s.chan ≠ 0 := by
          simp only [dir_enable, if_true] at hen ⊢
          rwa [e2] at hen
        obtain ⟨i, p, hi, hp⟩ := h true hne
        exact ⟨i, p, hi, hp⟩
  | write fd nonblock signal fault size =>
    exact hother _ rfl (file_chan_op_enable cfg fd _ s (by intro p; simp) (by intro p; simp)
      (by intro p; simp) reader) (by intro fd; simp) (by intro fd m; simp)
  | read fd nonblock signal fault size =>
    exact hother _ rfl (file_chan_op_enable cfg fd _ s (by intro p; simp) (by intro p; simp)
      (by intro p; simp) reader) (by intro fd; simp) (by intro fd m; simp)
  | reader_update fd sw_count =>
    exact hother _ rfl (file_chan_op_enable cfg fd _ s (by intro p; simp) (by intro p; simp)
      (by intro p; simp) reader) (by intro fd; simp) (by intro fd m; simp)
  | writer_update fd sw_count =>
    exact hother _ rfl (file_chan_op_enable cfg fd _ s (by intro p; simp) (by intro p; simp)
      (by intro p; simp) reader) (by intro fd; simp) (by intro fd m; simp)
  | irq_reader loop_status =>
    exact hother _ rfl (by cases reader <;> rfl) (by intro fd; simp) (by intro fd m; simp)
  | irq_writer loop_status =>
    exact hother _ rfl (by cases reader <;> rfl) (by intro fd; simp) (by intro fd m; simp)

theorem owners_run (cfg : dma_config) (ops : List file_op) :
    ∀ s : chan_files, files_fresh s → locked_has_owner s →
      files_fresh (run_file_ops cfg s ops) ∧ locked_has_owner (run_file_ops cfg s ops) := by
  induction ops with
  | nil => intro s hf hl; exact ⟨hf, hl⟩
  | cons op rest ih =>
    intro s hf hl
    exact ih _ (files_fresh_step cfg s op hf) (locked_has_owner_step cfg s op hf hl)

theorem enabled_has_owner_run (cfg : dma_config) (ops : List file_op) :
    ∀ s : chan_files, files_fresh s → enabled_has_owner s →
      enables_by_holder cfg s ops = true → enabled_has_owner (run_file_ops cfg s ops) := by
  induction ops with
  | nil => intro s _ h _; exact h
  | cons op rest ih =>
    intro s hf h hb
    simp only [enables_by_holder, Bool.and_eq_true] at hb
    exact ih _ (files_fresh_step cfg s op hf) (enabled_has_owner_step cfg s op hf h hb.1) hb.2

theorem no_owner_of_closed (reader : Bool) (s : chan_files)
    (h : ∀ fd : Nat, s.files fd = none) : ¬ has_owner reader s := by
  rintro ⟨fd, p, hp, _⟩
  rw [h fd] at hp
  exact absurd hp (by simp)

theorem files_reset_invariants :
    files_fresh files_reset ∧ locked_has_owner files_reset ∧ enabled_has_owner files_reset := by
  refine ⟨?_, ?_, ?_⟩
  · intro fd _; rfl
  · intro reader h
    cases reader <;> exact absurd rfl h
  · intro reader h
    cases reader <;> exact absurd rfl h

/-- C20 as stated, refuted: a file is opened, enables the reader direction without
requesting its lock, and is closed.  No file is open afterwards, the reader lock
flag is clear, and the reader direction is still enabled. -/
theorem enabled_after_last_close :
    (∀ fd : Nat, (run_file_ops ⟨16, 8192⟩ files_reset
      [file_op.open_file, file_op.dma_reader 0 1, file_op.close_file 0]).files fd = none) ∧
    (run_file_ops ⟨16, 8192⟩ files_reset
      [file_op.open_file, file_op.dma_reader 0 1, file_op.close_file 0]).chan.reader_lock = 0 ∧
    (run_file_ops ⟨16, 8192⟩ files_reset
      [file_op.open_file, file_op.dma_reader 0 1, file_op.close_file 0]).chan.reader_enable
      = 1 := by
  refine ⟨?_, by decide, by decide⟩
  intro fd
  have e : (run_file_ops ⟨16, 8192⟩ files_reset
      [file_op.open_file, file_op.dma_reader 0 1, file_op.close_file 0]).files
      = Function.update (Function.update (fun _ => none) 0 (some ⟨false, false⟩)) 0 none := by
    rfl
  rw [e]
  by_cases h : fd = 0
  · subst h; simp
  · simp [Function.update, h]

/-- C20, amended. In every state reached from probe through any sequence of open,
lock, enable/disable, transfer, count-update and close calls and interrupts, once
no file is open on the channel neither direction is locked; and if moreover every
enable was made by an open file that had the ownership flag of the direction, and
no file gave up a lock it had while the direction was enabled, neither direction is
enabled. -/
theorem no_orphaned_direction (cfg : dma_config) (ops : List file_op)
    (hclosed : ∀ fd : Nat, (run_file_ops cfg files_reset ops).files fd = none) :
    (run_file_ops cfg files_reset ops).chan.reader_lock = 0 ∧
    (run_file_ops cfg files_reset ops).chan.writer_lock = 0 ∧
    (enables_by_holder cfg files_reset ops = true →
      (run_file_ops cfg files_reset ops).chan.reader_enable = 0 ∧
      (run_file_ops cfg files_reset ops).chan.writer_enable = 0) := by
  obtain ⟨hf, hl, he⟩ := files_reset_invariants
  have hL := (owners_run cfg ops files_reset hf hl).2
  refine ⟨?_, ?_, ?_⟩
  · by_contra hne
    exact no_owner_of_closed true _ hclosed (hL true (by simpa [dir_lock] using hne))
  · by_contra hne
    exact no_owner_of_closed false _ hclosed (hL false (by simpa [dir_lock] using hne))
  · intro hb
    have hE := enabled_has_owner_run cfg ops files_reset hf he hb
    refine ⟨?_, ?_⟩
    · by_contra hne
      exact no_owner_of_closed true _ hclosed (hE true (by simpa [dir_enable] using hne))
    · by_contra hne
      exact no_owner_of_closed false _ hclosed (hE false (by simpa [dir_enable] using hne))

theorem no_orphaned_direction_witness :
    (∀ fd : Nat, (run_file_ops ⟨16, 8192⟩ files_reset
      [file_op.open_file, file_op.open_file, file_op.lock 0 ⟨1, 0, 0, 0, 0, 0⟩,
       file_op.dma_reader 0 1, file_op.irq_reader 3, file_op.close_file 1,
       file_op.close_file 0]).files fd = none) ∧
    enables_by_holder ⟨16, 8192⟩ files_reset
      [file_op.open_file, file_op.open_file, file_op.lock 0 ⟨1, 0, 0, 0, 0, 0⟩,
       file_op.dma_reader 0 1, file_op.irq_reader 3, file_op.close_file 1,
       file_op.close_file 0] = true ∧
    (run_file_ops ⟨16, 8192⟩ files_reset
      [file_op.open_file, file_op.open_file, file_op.lock 0 ⟨1, 0, 0, 0, 0, 0⟩,
       file_op.dma_reader 0 1, file_op.irq_reader 3, file_op.close_file 1,
       file_op.close_file 0]).chan.reader_lock = 0 ∧
    (run_file_ops ⟨16, 8192⟩ files_reset
      [file_op.open_file, file_op.open_file, file_op.lock 0 ⟨1, 0, 0, 0, 0, 0⟩,
       file_op.dma_reader 0 1, file_op.irq_reader 3, file_op.close_file 1,
       file_op.close_file 0]).chan.reader_enable = 0 := by
  have hclosed : ∀ fd : Nat, (run_file_ops ⟨16, 8192⟩ files_reset
      [file_op.open_file, file_op.open_file, file_op.lock 0 ⟨1, 0, 0, 0, 0, 0⟩,
       file_op.dma_reader 0 1, file_op.irq_reader 3, file_op.close_file 1,
       file_op.close_file 0]).files fd = none := by
    intro fd
    by_cases h : fd < 2
    · interval_cases fd <;> rfl
    · exact (owners_run ⟨16, 8192⟩ _ files_reset files_reset_invariants.1
        files_reset_invariants.2.1).1 fd (by
          show 2 ≤ fd
          omega)
  exact ⟨hclosed, by decide, (no_orphaned_direction ⟨16, 8192⟩ _ hclosed).1,
    ((no_orphaned_direction ⟨16, 8192⟩ _ hclosed).2.2 (by decide)).1⟩

/-! ## Open -/

/-- C21. Open resets counters only for disabled directions.  `litepcie_open` sets
the three counters of a direction to zero if the enable flag of that direction is
0 and leaves all three unchanged otherwise, each direction by its own flag; the
lock and enable flags of both directions are unchanged. -/
theorem open_resets_disabled (chan : litepcie_dma_chan) :
    (chan.reader_enable = 0 →
      (litepcie_open chan).reader_hw_count = 0 ∧
      (litepcie_open chan).reader_hw_count_last = 0 ∧
      (litepcie_open chan).reader_sw_count = 0) ∧
    (chan.reader_enable ≠ 0 →
      (litepcie_open chan).reader_hw_count = chan.reader_hw_count ∧
      (litepcie_open chan).reader_hw_count_last = chan.reader_hw_count_last ∧
      (litepcie_open chan).reader_sw_count = chan.reader_sw_count) ∧
    (chan.writer_enable = 0 →
      (litepcie_open chan).writer_hw_count = 0 ∧
      (litepcie_open chan).writer_hw_count_last = 0 ∧
      (litepcie_open chan).writer_sw_count = 0) ∧
    (chan.writer_enable ≠ 0 →
      (litepcie_open chan).writer_hw_count = chan.writer_hw_count ∧
      (litepcie_open chan).writer_hw_count_last = chan.writer_hw_count_last ∧
      (litepcie_open chan).writer_sw_count = chan.writer_sw_count) ∧
    (litepcie_open chan).reader_enable = chan.reader_enable ∧
    (litepcie_open chan).writer_enable = chan.writer_enable ∧
    (litepcie_open chan).reader_lock = chan.reader_lock ∧
    (litepcie_open chan).writer_lock = chan.writer_lock := by
  unfold litepcie_open
  by_cases hr : chan.reader_enable = 0 <;> by_cases hw : chan.writer_enable = 0 <;>
    simp [hr, hw]

/-! ## Descriptor table programming -/

theorem writel_writes (reg : csr_reg) (val : Nat) (regs : litepcie_regs) :
    (litepcie_writel reg val regs).writes = regs.writes ++ [(reg, val % 2 ^ 32)] := rfl

theorem handle_low (h : Nat) : ((h >>> 0) &&& 0xffffffff) % 2 ^ 32 = h % 2 ^ 32 := by
  have e : (0xffffffff : Nat) = 2 ^ 32 - 1 := by norm_num
  rw [e, Nat.and_pow_two_sub_one_eq_mod, Nat.shiftRight_zero, Nat.mod_mod]

theorem handle_high (h : Nat) : ((h >>> 32) &&& 0xffffffff) % 2 ^ 32 = h / 2 ^ 32 % 2 ^ 32 := by
  have e : (0xffffffff : Nat) = 2 ^ 32 - 1 := by norm_num
  rw [e, Nat.and_pow_two_sub_one_eq_mod, Nat.shiftRight_eq_div_pow, Nat.mod_mod]

theorem reader_table_entry_regs (cfg : dma_config) (t : dma_table_config) (handle : Nat → Nat)
    (regs : litepcie_regs) (i : Nat) :
    (reader_table_entry cfg t handle regs i).writes
      = regs.writes ++ reader_descriptor cfg t handle i ∧
    (reader_table_entry cfg t handle regs i).msi_enable = regs.msi_enable := by
  refine ⟨?_, rfl⟩
  simp only [reader_table_entry, writel_writes, reader_descriptor, handle_low, handle_high,
    List.append_assoc, List.cons_append, List.nil_append]

theorem writer_table_entry_regs (cfg : dma_config) (t : dma_table_config) (handle : Nat → Nat)
    (regs : litepcie_regs) (i : Nat) :
    (writer_table_entry cfg t handle regs i).writes
      = regs.writes ++ writer_descriptor cfg t handle i ∧
    (writer_table_entry cfg t handle regs i).msi_enable = regs.msi_enable := by
  refine ⟨?_, rfl⟩
  simp only [writer_table_entry, writel_writes, writer_descriptor, handle_low, handle_high,
    List.append_assoc, List.cons_append, List.nil_append]

theorem table_fold_regs (entry : litepcie_regs → Nat → litepcie_regs)
    (descriptor : Nat → List (csr_reg × Nat))
    (h : ∀ regs i, (entry regs i).writes = regs.writes ++ descriptor i ∧
      (entry regs i).msi_enable = regs.msi_enable) :
    ∀ (l : List Nat) (regs : litepcie_regs),
      (l.foldl entry regs).writes = regs.writes ++ l.flatMap descriptor ∧
      (l.foldl entry regs).msi_enable = regs.msi_enable := by
  intro l
  induction l with
  | nil => intro regs; simp
  | cons i rest ih =>
    intro regs
    obtain ⟨e1, e2⟩ := ih (entry regs i)
    obtain ⟨e3, e4⟩ := h regs i
    rw [List.foldl_cons, e1, e2, e3, e4, List.flatMap_cons, List.append_assoc]
    exact ⟨rfl, rfl⟩

theorem flatMap_length_three {α : Type} (f : Nat → List α) (h : ∀ i, (f i).length = 3) :
    ∀ l : List Nat, (l.flatMap f).length = 3 * l.length := by
  intro l
  induction l with
  | nil => rfl
  | cons i rest ih =>
    rw [List.flatMap_cons, List.length_append, h, ih, List.length_cons]
    omega

theorem reader_start_dev_regs (cfg : dma_config) (t : dma_table_config)
    (handles : chan_handles) (d : chan_dev) :
    (litepcie_dma_reader_start_dev cfg t handles d).regs.writes
      = d.regs.writes ++
        [(csr_reg.DMA_READER_ENABLE, 0), (csr_reg.DMA_READER_TABLE_FLUSH, 1),
         (csr_reg.DMA_READER_TABLE_LOOP_PROG_N, 0)] ++
        (List.range cfg.DMA_BUFFER_COUNT).flatMap
          (reader_descriptor cfg t handles.reader_handle) ++
        [(csr_reg.DMA_READER_TABLE_LOOP_PROG_N, 1), (csr_reg.DMA_READER_ENABLE, 1)] ∧
    (litepcie_dma_reader_start_dev cfg t handles d).regs.msi_enable = d.regs.msi_enable ∧
    (litepcie_dma_reader_start_dev cfg t handles d).chan = litepcie_dma_reader_start d.chan := by
  obtain ⟨e1, e2⟩ := table_fold_regs (reader_table_entry cfg t handles.reader_handle)
    (reader_descriptor cfg t handles.reader_handle)
    (reader_table_entry_regs cfg t handles.reader_handle) (List.range cfg.DMA_BUFFER_COUNT)
    (litepcie_writel csr_reg.DMA_READER_TABLE_LOOP_PROG_N 0
      (litepcie_writel csr_reg.DMA_READER_TABLE_FLUSH 1
        (litepcie_writel csr_reg.DMA_READER_ENABLE 0 d.regs)))
  refine ⟨?_, ?_, rfl⟩
  · simp only [litepcie_dma_reader_start_dev, writel_writes, e1]
    simp
  · exact e2.trans rfl

theorem writer_start_dev_regs (cfg : dma_config) (t : dma_table_config)
    (handles : chan_handles) (d : chan_dev) :
    (litepcie_dma_writer_start_dev cfg t handles d).regs.writes
      = d.regs.writes ++
        [(csr_reg.DMA_WRITER_ENABLE, 0), (csr_reg.DMA_WRITER_TABLE_FLUSH, 1),
         (csr_reg.DMA_WRITER_TABLE_LOOP_PROG_N, 0)] ++
        (List.range cfg.DMA_BUFFER_COUNT).flatMap
          (writer_descriptor cfg t handles.writer_handle) ++
        [(csr_reg.DMA_WRITER_TABLE_LOOP_PROG_N, 1), (csr_reg.DMA_WRITER_ENABLE, 1)] ∧
    (litepcie_dma_writer_start_dev cfg t handles d).regs.msi_enable = d.regs.msi_enable ∧
    (litepcie_dma_writer_start_dev cfg t handles d).chan = litepcie_dma_writer_start d.chan := by
  obtain ⟨e1, e2⟩ := table_fold_regs (writer_table_entry cfg t handles.writer_handle)
    (writer_descriptor cfg t handles.writer_handle)
    (writer_table_entry_regs cfg t handles.writer_handle) (List.range cfg.DMA_BUFFER_COUNT)
    (litepcie_writel csr_reg.DMA_WRITER_TABLE_LOOP_PROG_N 0
      (litepcie_writel csr_reg.DMA_WRITER_TABLE_FLUSH 1
        (litepcie_writel csr_reg.DMA_WRITER_ENABLE 0 d.regs)))
  refine ⟨?_, ?_, rfl⟩
  · simp only [litepcie_dma_writer_start_dev, writel_writes, e1]
    simp
  · exact e2.trans rfl

theorem table_value_flags (cfg : dma_config) (t : dma_table_config) (i : Nat) :
    table_value cfg t i = cfg.DMA_BUFFER_SIZE ||| table_flags t i := by
  unfold table_value table_flags
  split_ifs <;> exact Nat.lor_comm _ _

theorem table_flags_irq_bit (t : dma_table_config) (b i : Nat)
    (hbit : t.DMA_IRQ_DISABLE = 2 ^ b)
    (hlast : t.DMA_BUFFER_ALIGNED = false → t.DMA_LAST_DISABLE.testBit b = false) :
    (table_flags t i).testBit b = true ↔ i % t.DMA_BUFFER_PER_IRQ ≠ 0 := by
  unfold table_flags table_irq_flag
  rw [hbit]
  by_cases ha : t.DMA_BUFFER_ALIGNED = true
  · by_cases hi : i % t.DMA_BUFFER_PER_IRQ = 0
    · simp [ha, hi]
    · simp [ha, hi, Nat.testBit_two_pow]
  · have ha2 : t.DMA_BUFFER_ALIGNED = false := by simpa using ha
    by_cases hi : i % t.DMA_BUFFER_PER_IRQ = 0
    · simp [ha2, hi, hlast ha2]
    · simp [ha2, hi, Nat.testBit_two_pow]

/-- C22. Descriptor programming.  Start of a direction appends to the register
writes exactly `ENABLE = 0, FLUSH = 1, LOOP_PROG_N = 0`, then for `i = 0, ..., N-1`
in increasing order the three writes `TABLE_VALUE = DMA_BUFFER_SIZE | flags_i`,
`TABLE_VALUE + 4 =` low 32 bits and `TABLE_WE =` high 32 bits of the bus address
of buffer `i`, then `LOOP_PROG_N = 1` and `ENABLE = 1`: `3 N + 5` writes; the three
counters of the direction are zero afterwards.  `flags_i` has the bit of
`DMA_IRQ_DISABLE` set exactly when `i mod DMA_BUFFER_PER_IRQ ≠ 0`, given that
`DMA_IRQ_DISABLE` is one bit, not in `DMA_LAST_DISABLE`, and `DMA_BUFFER_PER_IRQ`
is positive.  Values are those of the 32-bit register writes. -/
theorem start_programs_descriptors (cfg : dma_config) (t : dma_table_config)
    (handles : chan_handles) (d : chan_dev) (b : Nat)
    (hK : 0 < t.DMA_BUFFER_PER_IRQ) (hbit : t.DMA_IRQ_DISABLE = 2 ^ b)
    (hlast : t.DMA_BUFFER_ALIGNED = false → t.DMA_LAST_DISABLE.testBit b = false) :
    ((litepcie_dma_reader_start_dev cfg t handles d).regs.writes
      = d.regs.writes ++
        [(csr_reg.DMA_READER_ENABLE, 0), (csr_reg.DMA_READER_TABLE_FLUSH, 1),
         (csr_reg.DMA_READER_TABLE_LOOP_PROG_N, 0)] ++
        (List.range cfg.DMA_BUFFER_COUNT).flatMap (fun i =>
          [(csr_reg.DMA_READER_TABLE_VALUE, (cfg.DMA_BUFFER_SIZE ||| table_flags t i) % 2 ^ 32),
           (csr_reg.DMA_READER_TABLE_VALUE_4, handles.reader_handle i % 2 ^ 32),
           (csr_reg.DMA_READER_TABLE_WE, handles.reader_handle i / 2 ^ 32 % 2 ^ 32)]) ++
        [(csr_reg.DMA_READER_TABLE_LOOP_PROG_N, 1), (csr_reg.DMA_READER_ENABLE, 1)] ∧
      (litepcie_dma_reader_start_dev cfg t handles d).regs.writes.length
        = d.regs.writes.length + (3 * cfg.DMA_BUFFER_COUNT + 5) ∧
      (litepcie_dma_reader_start_dev cfg t handles d).chan.reader_hw_count = 0 ∧
      (litepcie_dma_reader_start_dev cfg t handles d).chan.reader_hw_count_last = 0 ∧
      (litepcie_dma_reader_start_dev cfg t handles d).chan.reader_sw_count = 0) ∧
    ((litepcie_dma_writer_start_dev cfg t handles d).regs.writes
      = d.regs.writes ++
        [(csr_reg.DMA_WRITER_ENABLE, 0), (csr_reg.DMA_WRITER_TABLE_FLUSH, 1),
         (csr_reg.DMA_WRITER_TABLE_LOOP_PROG_N, 0)] ++
        (List.range cfg.DMA_BUFFER_COUNT).flatMap (fun i =>
          [(csr_reg.DMA_WRITER_TABLE_VALUE, (cfg.DMA_BUFFER_SIZE ||| table_flags t i) % 2 ^ 32),
           (csr_reg.DMA_WRITER_TABLE_VALUE_4, handles.writer_handle i % 2 ^ 32),
           (csr_reg.DMA_WRITER_TABLE_WE, handles.writer_handle i / 2 ^ 32 % 2 ^ 32)]) ++
        [(csr_reg.DMA_WRITER_TABLE_LOOP_PROG_N, 1), (csr_reg.DMA_WRITER_ENABLE, 1)] ∧
      (litepcie_dma_writer_start_dev cfg t handles d).regs.writes.length
        = d.regs.writes.length + (3 * cfg.DMA_BUFFER_COUNT + 5) ∧
      (litepcie_dma_writer_start_dev cfg t handles d).chan.writer_hw_count = 0 ∧
      (litepcie_dma_writer_start_dev cfg t handles d).chan.writer_hw_count_last = 0 ∧
      (litepcie_dma_writer_start_dev cfg t handles d).chan.writer_sw_count = 0) ∧
    (∀ i : Nat, (table_flags t i).testBit b = true ↔ i % t.DMA_BUFFER_PER_IRQ ≠ 0) := by
  have _ := hK
  obtain ⟨er, _, cr⟩ := reader_start_dev_regs cfg t handles d
  obtain ⟨ew, _, cw⟩ := writer_start_dev_regs cfg t handles d
  have hdr : reader_descriptor cfg t handles.reader_handle = fun i =>
      [(csr_reg.DMA_READER_TABLE_VALUE, (cfg.DMA_BUFFER_SIZE ||| table_flags t i) % 2 ^ 32),
       (csr_reg.DMA_READER_TABLE_VALUE_4, handles.reader_handle i % 2 ^ 32),
       (csr_reg.DMA_READER_TABLE_WE, handles.reader_handle i / 2 ^ 32 % 2 ^ 32)] := by
    funext i
    simp only [reader_descriptor, table_value_flags]
  have hdw : writer_descriptor cfg t handles.writer_handle = fun i =>
      [(csr_reg.DMA_WRITER_TABLE_VALUE, (cfg.DMA_BUFFER_SIZE ||| table_flags t i) % 2 ^ 32),
       (csr_reg.DMA_WRITER_TABLE_VALUE_4, handles.writer_handle i % 2 ^ 32),
       (csr_reg.DMA_WRITER_TABLE_WE, handles.writer_handle i / 2 ^ 32 % 2 ^ 32)] := by
    funext i
    simp only [writer_descriptor, table_value_flags]
  refine ⟨⟨?_, ?_, ?_, ?_, ?_⟩, ⟨?_, ?_, ?_, ?_, ?_⟩, fun i => table_flags_irq_bit t b i hbit hlast⟩
  · rw [er, hdr]
  · rw [er, List.length_append, List.length_append, List.length_append,
      flatMap_length_three (reader_descriptor cfg t handles.reader_handle) (fun _ => rfl),
      List.length_range]
    simp only [List.length_cons, List.length_nil]
    omega
  · rw [cr]; rfl
  · rw [cr]; rfl
  · rw [cr]; rfl
  · rw [ew, hdw]
  · rw [ew, List.length_append, List.length_append, List.length_append,
      flatMap_length_three (writer_descriptor cfg t handles.writer_handle) (fun _ => rfl),
      List.length_range]
    simp only [List.length_cons, List.length_nil]
    omega
  · rw [cw]; rfl
  · rw [cw]; rfl
  · rw [cw]; rfl

theorem start_programs_descriptors_witness :
    (litepcie_dma_reader_start_dev ⟨2, 8192⟩ ⟨2, 2 ^ 25, 2 ^ 24, false⟩
        ⟨fun i => 0x500000000 + 0x2000 * i, fun i => 0x700000000 + 0x2000 * i⟩
        ⟨{ chan_reset with reader_hw_count := 5, reader_hw_count_last := 5,
                           reader_sw_count := 7 }, ⟨0, []⟩⟩).regs.writes.length
      = 0 + (3 * 2 + 5) ∧
    (litepcie_dma_reader_start_dev ⟨2, 8192⟩ ⟨2, 2 ^ 25, 2 ^ 24, false⟩
        ⟨fun i => 0x500000000 + 0x2000 * i, fun i => 0x700000000 + 0x2000 * i⟩
        ⟨{ chan_reset with reader_hw_count := 5, reader_hw_count_last := 5,
                           reader_sw_count := 7 }, ⟨0, []⟩⟩).chan.reader_sw_count = 0 ∧
    ((table_flags ⟨2, 2 ^ 25, 2 ^ 24, false⟩ 3).testBit 25 = true ↔ 3 % 2 ≠ 0) :=
  ⟨(start_programs_descriptors ⟨2, 8192⟩ ⟨2, 2 ^ 25, 2 ^ 24, false⟩
      ⟨fun i => 0x500000000 + 0x2000 * i, fun i => 0x700000000 + 0x2000 * i⟩
      ⟨{ chan_reset with reader_hw_count := 5, reader_hw_count_last := 5,
                         reader_sw_count := 7 }, ⟨0, []⟩⟩ 25
      (by decide) rfl (fun _ => by decide)).1.2.1,
   (start_programs_descriptors ⟨2, 8192⟩ ⟨2, 2 ^ 25, 2 ^ 24, false⟩
      ⟨fun i => 0x500000000 + 0x2000 * i, fun i => 0x700000000 + 0x2000 * i⟩
      ⟨{ chan_reset with reader_hw_count := 5, reader_hw_count_last := 5,
                         reader_sw_count := 7 }, ⟨0, []⟩⟩ 25
      (by decide) rfl (fun _ => by decide)).1.2.2.2.2,
   (start_programs_descriptors ⟨2, 8192⟩ ⟨2, 2 ^ 25, 2 ^ 24, false⟩
      ⟨fun i => 0x500000000 + 0x2000 * i, fun i => 0x700000000 + 0x2000 * i⟩
      ⟨{ chan_reset with reader_hw_count := 5, reader_hw_count_last := 5,
                         reader_sw_count := 7 }, ⟨0, []⟩⟩ 25
      (by decide) rfl (fun _ => by decide)).2.2 3⟩

/-! ## Enable/disable requests -/

theorem enable_mask_bit (n : Nat) (hn : n < 32) :
    (toUInt32 (toInt32 (2 ^ n))).testBit n = true := by
  interval_cases n <;> decide

theorem enable_interrupt_bit (n : Nat) (hn : n < 32) (regs : litepcie_regs) :
    (litepcie_enable_interrupt n regs).msi_enable.testBit n = true := by
  show ((regs.msi_enable ||| toUInt32 (toInt32 (2 ^ n))) % 2 ^ 32).testBit n = true
  rw [Nat.testBit_mod_two_pow, Nat.testBit_or, enable_mask_bit n hn]
  simp [hn]

theorem enable_interrupt_writes (n : Nat) (regs : litepcie_regs) :
    (litepcie_enable_interrupt n regs).writes
      = regs.writes ++ [(csr_reg.PCIE_MSI_ENABLE, (litepcie_enable_interrupt n regs).msi_enable)] := by
  simp [litepcie_enable_interrupt, litepcie_writel]

theorem ioctl_dma_reader_dev_chan (cfg : dma_config) (t : dma_table_config)
    (handles : chan_handles) (irqs : chan_irqs) (m : litepcie_ioctl_dma) (d : chan_dev) :
    (ioctl_dma_reader_dev cfg t handles irqs m d).2.chan = ioctl_dma_reader m.enable d.chan := by
  unfold ioctl_dma_reader_dev ioctl_dma_reader
  split_ifs <;> rfl

theorem ioctl_dma_writer_dev_chan (cfg : dma_config) (t : dma_table_config)
    (handles : chan_handles) (irqs : chan_irqs) (m : litepcie_ioctl_dma) (d : chan_dev) :
    (ioctl_dma_writer_dev cfg t handles irqs m d).2.chan = ioctl_dma_writer m.enable d.chan := by
  unfold ioctl_dma_writer_dev ioctl_dma_writer
  split_ifs <;> rfl

theorem ioctl_dma_reader_dev_cases (cfg : dma_config) (t : dma_table_config)
    (handles : chan_handles) (irqs : chan_irqs) (m : litepcie_ioctl_dma) (d : chan_dev)
    (hr : irqs.reader_interrupt < 32) :
    (m.enable ≠ d.chan.reader_enable → m.enable ≠ 0 →
      (∃ v : Nat, v.testBit irqs.reader_interrupt = true ∧
        (ioctl_dma_reader_dev cfg t handles irqs m d).2.regs.writes
          = (litepcie_dma_reader_start_dev cfg t handles d).regs.writes
            ++ [(csr_reg.PCIE_MSI_ENABLE, v)]) ∧
      (ioctl_dma_reader_dev cfg t handles irqs m d).2.regs.msi_enable.testBit
        irqs.reader_interrupt = true ∧
      (ioctl_dma_reader_dev cfg t handles irqs m d).2.chan
        = { litepcie_dma_reader_start d.chan with reader_enable := m.enable }) ∧
    (m.enable ≠ d.chan.reader_enable → m.enable = 0 →
      (∃ v : Nat, v.testBit irqs.reader_interrupt = false ∧
        (ioctl_dma_reader_dev cfg t handles irqs m d).2.regs.writes
          = d.regs.writes ++
            [(csr_reg.PCIE_MSI_ENABLE, v),
             (csr_reg.DMA_READER_TABLE_LOOP_PROG_N, 0), (csr_reg.DMA_READER_TABLE_FLUSH, 1),
             (csr_reg.DMA_READER_ENABLE, 0), (csr_reg.DMA_READER_TABLE_FLUSH, 1)]) ∧
      (ioctl_dma_reader_dev cfg t handles irqs m d).2.regs.msi_enable.testBit
        irqs.reader_interrupt = false ∧
      (ioctl_dma_reader_dev cfg t handles irqs m d).2.chan
        = { litepcie_dma_reader_stop d.chan with reader_enable := 0 }) ∧
    (m.enable = d.chan.reader_enable →
      (ioctl_dma_reader_dev cfg t handles irqs m d).2 = d) := by
  refine ⟨?_, ?_, ?_⟩
  · intro h1 h2
    have e : (ioctl_dma_reader_dev cfg t handles irqs m d).2.regs
        = litepcie_enable_interrupt irqs.reader_interrupt
            (litepcie_dma_reader_start_dev cfg t handles d).regs := by
      simp only [ioctl_dma_reader_dev, h1, h2, ne_eq, not_false_eq_true, if_true]
    refine ⟨⟨_, enable_interrupt_bit _ hr (litepcie_dma_reader_start_dev cfg t handles d).regs,
      ?_⟩, ?_, ?_⟩
    · rw [e, enable_interrupt_writes]
    · rw [e]; exact enable_interrupt_bit _ hr _
    · simp only [ioctl_dma_reader_dev, h1, h2, ne_eq, not_false_eq_true, if_true]
      rfl
  · intro h1 h2
    have h1' : ¬ (0 = d.chan.reader_enable) := by rw [h2] at h1; exact h1
    have e : (ioctl_dma_reader_dev cfg t handles irqs m d).2.regs
        = (litepcie_dma_reader_stop_dev
            { d with regs := litepcie_disable_interrupt irqs.reader_interrupt d.regs }).regs := by
      simp only [ioctl_dma_reader_dev, h2, h1', ne_eq, not_false_eq_true, not_true_eq_false,
        if_true, if_false]
    obtain ⟨s1, s2⟩ := reader_stop_dev_regs
      { d with regs := litepcie_disable_interrupt irqs.reader_interrupt d.regs }
    refine ⟨⟨_, disable_interrupt_bit _ hr d.regs, ?_⟩, ?_, ?_⟩
    · rw [e, s2]
      simp only [disable_interrupt_writes, List.append_assoc, List.cons_append, List.nil_append]
    · rw [e, s1]; exact disable_interrupt_bit _ hr d.regs
    · simp only [ioctl_dma_reader_dev, h2, h1', ne_eq, not_false_eq_true, not_true_eq_false,
        if_true, if_false]
      rfl
  · intro h
    simp only [ioctl_dma_reader_dev, h, ne_eq, not_true_eq_false, if_false]

theorem ioctl_dma_writer_dev_cases (cfg : dma_config) (t : dma_table_config)
    (handles : chan_handles) (irqs : chan_irqs) (m : litepcie_ioctl_dma) (d : chan_dev)
    (hw : irqs.writer_interrupt < 32) :
    (m.enable ≠ d.chan.writer_enable → m.enable ≠ 0 →
      (∃ v : Nat, v.testBit irqs.writer_interrupt = true ∧
        (ioctl_dma_writer_dev cfg t handles irqs m d).2.regs.writes
          = (litepcie_dma_writer_start_dev cfg t handles d).regs.writes
            ++ [(csr_reg.PCIE_MSI_ENABLE, v)]) ∧
      (ioctl_dma_writer_dev cfg t handles irqs m d).2.regs.msi_enable.testBit
        irqs.writer_interrupt = true ∧
      (ioctl_dma_writer_dev cfg t handles irqs m d).2.chan
        = { litepcie_dma_writer_start d.chan with writer_enable := m.enable }) ∧
    (m.enable ≠ d.chan.writer_enable → m.enable = 0 →
      (∃ v : Nat, v.testBit irqs.writer_interrupt = false ∧
        (ioctl_dma_writer_dev cfg t handles irqs m d).2.regs.writes
          = d.regs.writes ++
            [(csr_reg.PCIE_MSI_ENABLE, v),
             (csr_reg.DMA_WRITER_TABLE_LOOP_PROG_N, 0), (csr_reg.DMA_WRITER_TABLE_FLUSH, 1),
             (csr_reg.DMA_WRITER_ENABLE, 0), (csr_reg.DMA_WRITER_TABLE_FLUSH, 1)]) ∧
      (ioctl_dma_writer_dev cfg t handles irqs m d).2.regs.msi_enable.testBit
        irqs.writer_interrupt = false ∧
      (ioctl_dma_writer_dev cfg t handles irqs m d).2.chan
        = { litepcie_dma_writer_stop d.chan with writer_enable := 0 }) ∧
    (m.enable = d.chan.writer_enable →
      (ioctl_dma_writer_dev cfg t handles irqs m d).2 = d) := by
  refine ⟨?_, ?_, ?_⟩
  · intro h1 h2
    have e : (ioctl_dma_writer_dev cfg t handles irqs m d).2.regs
        = litepcie_enable_interrupt irqs.writer_interrupt
            (litepcie_dma_writer_start_dev cfg t handles d).regs := by
      simp only [ioctl_dma_writer_dev, h1, h2, ne_eq, not_false_eq_true, if_true]
    refine ⟨⟨_, enable_interrupt_bit _ hw (litepcie_dma_writer_start_dev cfg t handles d).regs,
      ?_⟩, ?_, ?_⟩
    · rw [e, enable_interrupt_writes]
    · rw [e]; exact enable_interrupt_bit _ hw _
    · simp only [ioctl_dma_writer_dev, h1, h2, ne_eq, not_false_eq_true, if_true]
      rfl
  · intro h1 h2
    have h1' : ¬ (0 = d.chan.writer_enable) := by rw [h2] at h1; exact h1
    have e : (ioctl_dma_writer_dev cfg t handles irqs m d).2.regs
        = (litepcie_dma_writer_stop_dev
            { d with regs := litepcie_disable_interrupt irqs.writer_interrupt d.regs }).regs := by
      simp only [ioctl_dma_writer_dev, h2, h1', ne_eq, not_false_eq_true, not_true_eq_false,
        if_true, if_false]
    obtain ⟨s1, s2⟩ := writer_stop_dev_regs
      { d with regs := litepcie_disable_interrupt irqs.writer_interrupt d.regs }
    refine ⟨⟨_, disable_interrupt_bit _ hw d.regs, ?_⟩, ?_, ?_⟩
    · rw [e, s2]
      simp only [disable_interrupt_writes, List.append_assoc, List.cons_append, List.nil_append]
    · rw [e, s1]; exact disable_interrupt_bit _ hw d.regs
    · simp only [ioctl_dma_writer_dev, h2, h1', ne_eq, not_false_eq_true, not_true_eq_false,
        if_true, if_false]
      rfl
  · intro h
    simp only [ioctl_dma_writer_dev, h, ne_eq, not_true_eq_false, if_false]


/-- C27. Enable/disable request handling.  An enable-control call with requested
byte `e = m.enable` on a direction whose enable flag is `c`: if `e ≠ c` and
`e ≠ 0` it runs start (the register writes of `litepcie_dma_..._start`, counters
zeroed) and then sets the interrupt bit of the direction in the MSI enable
register; if `e ≠ c` and `e = 0` it clears the interrupt bit and then runs stop
(`LOOP_PROG_N = 0, FLUSH = 1, ENABLE = 0, FLUSH = 1`, counters zeroed); if `e = c`
it writes no register and leaves the channel, counters included, as it was.  In
all cases the enable flag equals `e` afterwards and the structure copied back holds
the resulting hardware and software counts of the direction.  Stated for the
reader call, then for the writer call; interrupt numbers are bit positions of the
32-bit register. -/
theorem enable_request (cfg : dma_config) (t : dma_table_config) (handles : chan_handles)
    (irqs : chan_irqs) (m : litepcie_ioctl_dma) (d : chan_dev)
    (hr : irqs.reader_interrupt < 32) (hw : irqs.writer_interrupt < 32) :
    (m.enable ≠ d.chan.reader_enable → m.enable ≠ 0 →
      (∃ v : Nat, v.testBit irqs.reader_interrupt = true ∧
        (ioctl_dma_reader_dev cfg t handles irqs m d).2.regs.writes
          = (litepcie_dma_reader_start_dev cfg t handles d).regs.writes
            ++ [(csr_reg.PCIE_MSI_ENABLE, v)]) ∧
      (ioctl_dma_reader_dev cfg t handles irqs m d).2.regs.msi_enable.testBit
        irqs.reader_interrupt = true ∧
      (ioctl_dma_reader_dev cfg t handles irqs m d).2.chan
        = { litepcie_dma_reader_start d.chan with reader_enable := m.enable }) ∧
    (m.enable ≠ d.chan.reader_enable → m.enable = 0 →
      (∃ v : Nat, v.testBit irqs.reader_interrupt = false ∧
        (ioctl_dma_reader_dev cfg t handles irqs m d).2.regs.writes
          = d.regs.writes ++
            [(csr_reg.PCIE_MSI_ENABLE, v),
             (csr_reg.DMA_READER_TABLE_LOOP_PROG_N, 0), (csr_reg.DMA_READER_TABLE_FLUSH, 1),
             (csr_reg.DMA_READER_ENABLE, 0), (csr_reg.DMA_READER_TABLE_FLUSH, 1)]) ∧
      (ioctl_dma_reader_dev cfg t handles irqs m d).2.regs.msi_enable.testBit
        irqs.reader_interrupt = false ∧
      (ioctl_dma_reader_dev cfg t handles irqs m d).2.chan
        = { litepcie_dma_reader_stop d.chan with reader_enable := 0 }) ∧
    (m.enable = d.chan.reader_enable →
      (ioctl_dma_reader_dev cfg t handles irqs m d).2 = d) ∧
    (ioctl_dma_reader_dev cfg t handles irqs m d).2.chan.reader_enable = m.enable ∧
    (ioctl_dma_reader_dev cfg t handles irqs m d).1
      = { enable := m.enable,
          hw_count := (ioctl_dma_reader_dev cfg t handles irqs m d).2.chan.reader_hw_count,
          sw_count := (ioctl_dma_reader_dev cfg t handles irqs m d).2.chan.reader_sw_count } ∧
    (m.enable ≠ d.chan.writer_enable → m.enable ≠ 0 →
      (∃ v : Nat, v.testBit irqs.writer_interrupt = true ∧
        (ioctl_dma_writer_dev cfg t handles irqs m d).2.regs.writes
          = (litepcie_dma_writer_start_dev cfg t handles d).regs.writes
            ++ [(csr_reg.PCIE_MSI_ENABLE, v)]) ∧
      (ioctl_dma_writer_dev cfg t handles irqs m d).2.regs.msi_enable.testBit
        irqs.writer_interrupt = true ∧
      (ioctl_dma_writer_dev cfg t handles irqs m d).2.chan
        = { litepcie_dma_writer_start d.chan with writer_enable := m.enable }) ∧
    (m.enable ≠ d.chan.writer_enable → m.enable = 0 →
      (∃ v : Nat, v.testBit irqs.writer_interrupt = false ∧
        (ioctl_dma_writer_dev cfg t handles irqs m d).2.regs.writes
          = d.regs.writes ++
            [(csr_reg.PCIE_MSI_ENABLE, v),
             (csr_reg.DMA_WRITER_TABLE_LOOP_PROG_N, 0), (csr_reg.DMA_WRITER_TABLE_FLUSH, 1),
             (csr_reg.DMA_WRITER_ENABLE, 0), (csr_reg.DMA_WRITER_TABLE_FLUSH, 1)]) ∧
      (ioctl_dma_writer_dev cfg t handles irqs m d).2.regs.msi_enable.testBit
        irqs.writer_interrupt = false ∧
      (ioctl_dma_writer_dev cfg t handles irqs m d).2.chan
        = { litepcie_dma_writer_stop d.chan with writer_enable := 0 }) ∧
    (m.enable = d.chan.writer_enable →
      (ioctl_dma_writer_dev cfg t handles irqs m d).2 = d) ∧
    (ioctl_dma_writer_dev cfg t handles irqs m d).2.chan.writer_enable = m.enable ∧
    (ioctl_dma_writer_dev cfg t handles irqs m d).1
      = { enable := m.enable,
          hw_count := (ioctl_dma_writer_dev cfg t handles irqs m d).2.chan.writer_hw_count,
          sw_count := (ioctl_dma_writer_dev cfg t handles irqs m d).2.chan.writer_sw_count } := by
  obtain ⟨r1, r2, r3⟩ := ioctl_dma_reader_dev_cases cfg t handles irqs m d hr
  obtain ⟨w1, w2, w3⟩ := ioctl_dma_writer_dev_cases cfg t handles irqs m d hw
  exact ⟨r1, r2, r3, rfl, rfl, w1, w2, w3, rfl, rfl⟩

theorem enable_request_witness :
    (ioctl_dma_reader_dev ⟨2, 8192⟩ ⟨2, 2 ^ 25, 2 ^ 24, false⟩
        ⟨fun i => 0x500000000 + 0x2000 * i, fun i => 0x700000000 + 0x2000 * i⟩ ⟨1, 0⟩
        ⟨1, 99, 99⟩
        ⟨{ chan_reset with reader_hw_count := 5, reader_hw_count_last := 5,
                           reader_sw_count := 7 }, ⟨0, []⟩⟩).2.chan
      = { litepcie_dma_reader_start
            { chan_reset with reader_hw_count := 5, reader_hw_count_last := 5,
                              reader_sw_count := 7 } with reader_enable := 1 } ∧
    (ioctl_dma_writer_dev ⟨2, 8192⟩ ⟨2, 2 ^ 25, 2 ^ 24, false⟩
        ⟨fun i => 0x500000000 + 0x2000 * i, fun i => 0x700000000 + 0x2000 * i⟩ ⟨1, 0⟩
        ⟨0, 99, 99⟩
        ⟨{ chan_reset with writer_hw_count := 5, writer_hw_count_last := 5,
                           writer_sw_count := 3, writer_enable := 1 }, ⟨1, []⟩⟩).2.chan
      = { litepcie_dma_writer_stop
            { chan_reset with writer_hw_count := 5, writer_hw_count_last := 5,
                              writer_sw_count := 3, writer_enable := 1 }
          with writer_enable := 0 } :=
  ⟨((enable_request ⟨2, 8192⟩ ⟨2, 2 ^ 25, 2 ^ 24, false⟩
      ⟨fun i => 0x500000000 + 0x2000 * i, fun i => 0x700000000 + 0x2000 * i⟩ ⟨1, 0⟩
      ⟨1, 99, 99⟩
      ⟨{ chan_reset with reader_hw_count := 5, reader_hw_count_last := 5,
                         reader_sw_count := 7 }, ⟨0, []⟩⟩ (by decide) (by decide)).1
      (by decide) (by decide)).2.2,
   ((enable_request ⟨2, 8192⟩ ⟨2, 2 ^ 25, 2 ^ 24, false⟩
      ⟨fun i => 0x500000000 + 0x2000 * i, fun i => 0x700000000 + 0x2000 * i⟩ ⟨1, 0⟩
      ⟨0, 99, 99⟩
      ⟨{ chan_reset with writer_hw_count := 5, writer_hw_count_last := 5,
                         writer_sw_count := 3, writer_enable := 1 }, ⟨1, []⟩⟩
      (by decide) (by decide)).2.2.2.2.2.2.1 (by decide) rfl).2.2⟩

/-! ## Progress reports -/

/-- C24. Progress report.  A counter-update call for a direction with a reported
64-bit count `sw_count` sets the software count of that direction to exactly
`sw_count` and changes nothing else: the hardware counts, lock and enable flags of
that direction and all fields of the other direction are as before. -/
theorem progress_report_frame (sw_count : Int) (chan : litepcie_dma_chan)
    (hlo : -(2 : Int) ^ 63 ≤ sw_count) (hhi : sw_count < 2 ^ 63) :
    ioctl_mmap_dma_reader_update sw_count chan = { chan with reader_sw_count := sw_count } ∧
    ioctl_mmap_dma_writer_update sw_count chan = { chan with writer_sw_count := sw_count } ∧
    ((ioctl_mmap_dma_reader_update sw_count chan).reader_sw_count = sw_count ∧
      (ioctl_mmap_dma_reader_update sw_count chan).reader_hw_count = chan.reader_hw_count ∧
      (ioctl_mmap_dma_reader_update sw_count chan).reader_hw_count_last
        = chan.reader_hw_count_last ∧
      (ioctl_mmap_dma_reader_update sw_count chan).reader_lock = chan.reader_lock ∧
      (ioctl_mmap_dma_reader_update sw_count chan).reader_enable = chan.reader_enable ∧
      (ioctl_mmap_dma_reader_update sw_count chan).writer_sw_count = chan.writer_sw_count ∧
      (ioctl_mmap_dma_reader_update sw_count chan).writer_hw_count = chan.writer_hw_count ∧
      (ioctl_mmap_dma_reader_update sw_count chan).writer_hw_count_last
        = chan.writer_hw_count_last ∧
      (ioctl_mmap_dma_reader_update sw_count chan).writer_lock = chan.writer_lock ∧
      (ioctl_mmap_dma_reader_update sw_count chan).writer_enable = chan.writer_enable) ∧
    ((ioctl_mmap_dma_writer_update sw_count chan).writer_sw_count = sw_count ∧
      (ioctl_mmap_dma_writer_update sw_count chan).writer_hw_count = chan.writer_hw_count ∧
      (ioctl_mmap_dma_writer_update sw_count chan).writer_hw_count_last
        = chan.writer_hw_count_last ∧
      (ioctl_mmap_dma_writer_update sw_count chan).writer_lock = chan.writer_lock ∧
      (ioctl_mmap_dma_writer_update sw_count chan).writer_enable = chan.writer_enable ∧
      (ioctl_mmap_dma_writer_update sw_count chan).reader_sw_count = chan.reader_sw_count ∧
      (ioctl_mmap_dma_writer_update sw_count chan).reader_hw_count = chan.reader_hw_count ∧
      (ioctl_mmap_dma_writer_update sw_count chan).reader_hw_count_last
        = chan.reader_hw_count_last ∧
      (ioctl_mmap_dma_writer_update sw_count chan).reader_lock = chan.reader_lock ∧
      (ioctl_mmap_dma_writer_update sw_count chan).reader_enable = chan.reader_enable) := by
  have e : toInt64 sw_count = sw_count := by
    unfold toInt64
    omega
  refine ⟨?_, ?_, ⟨?_, rfl, rfl, rfl, rfl, rfl, rfl, rfl, rfl, rfl⟩,
    ⟨?_, rfl, rfl, rfl, rfl, rfl, rfl, rfl, rfl, rfl⟩⟩
  · simp only [ioctl_mmap_dma_reader_update, e]
  · simp only [ioctl_mmap_dma_writer_update, e]
  · exact e
  · exact e

theorem progress_report_frame_witness :
    ioctl_mmap_dma_reader_update 12
        { chan_reset with reader_hw_count := 9, reader_hw_count_last := 9, reader_sw_count := 10,
                          reader_lock := 1, reader_enable := 1, writer_hw_count := 4 }
      = { chan_reset with reader_hw_count := 9, reader_hw_count_last := 9, reader_sw_count := 12,
                          reader_lock := 1, reader_enable := 1, writer_hw_count := 4 } :=
  (progress_report_frame 12
    { chan_reset with reader_hw_count := 9, reader_hw_count_last := 9, reader_sw_count := 10,
                      reader_lock := 1, reader_enable := 1, writer_hw_count := 4 }
    (by decide) (by decide)).1

/-! ## Bounded polling of the PTM status -/

theorem ptm_poll_spec (status : Nat → Nat) :
    ∀ (c n : Nat),
      (ptm_poll status c n).2 ≤ n + c + 1 ∧ n + 1 ≤ (ptm_poll status c n).2 ∧
      ((ptm_poll status c n).1 = 0 ↔ ∀ i, i ≤ c → status (n + i) &&& PTM_STATUS_VALID = 0) ∧
      ((ptm_poll status c n).1 = 0 → (ptm_poll status c n).2 = n + c + 1) ∧
      (∀ j, j ≤ c → status (n + j) &&& PTM_STATUS_VALID ≠ 0 →
        (∀ i, i < j → status (n + i) &&& PTM_STATUS_VALID = 0) →
        (ptm_poll status c n).1 ≠ 0 ∧ (ptm_poll status c n).2 = n + j + 1) := by
  intro c
  induction c with
  | zero =>
    intro n
    by_cases h : status n &&& PTM_STATUS_VALID = 0
    · have e : ptm_poll status 0 n = (0, n + 1) := by
        simp only [ptm_poll, h, ne_eq, not_true_eq_false, if_false]
      rw [e]
      refine ⟨Nat.le_refl _, Nat.le_refl _, ⟨fun _ i hi => ?_, fun _ => rfl⟩, fun _ => rfl, ?_⟩
      · have : i = 0 := by omega
        subst this
        exact h
      · intro j hj hv _
        have : j = 0 := by omega
        subst this
        exact absurd h hv
    · have e : ptm_poll status 0 n = (1, n + 1) := by
        simp only [ptm_poll, h, ne_eq, not_false_eq_true, if_true]
      rw [e]
      refine ⟨Nat.le_refl _, Nat.le_refl _,
        ⟨fun h1 => absurd h1 Nat.one_ne_zero, fun hall => absurd (hall 0 (Nat.le_refl _)) h⟩,
        fun h1 => absurd h1 Nat.one_ne_zero, ?_⟩
      intro j hj _ _
      have : j = 0 := by omega
      subst this
      exact ⟨Nat.one_ne_zero, rfl⟩
  | succ c ih =>
    intro n
    by_cases h : status n &&& PTM_STATUS_VALID = 0
    · obtain ⟨i1, i2, i3, i4, i5⟩ := ih (n + 1)
      have e : ptm_poll status (c + 1) n = ptm_poll status c (n + 1) := by
        simp only [ptm_poll, h, ne_eq, not_true_eq_false, if_false]
      rw [e]
      refine ⟨by omega, by omega, ?_, ?_, ?_⟩
      · rw [i3]
        constructor
        · intro hall i hi
          cases i with
          | zero => exact h
          | succ k =>
            have := hall k (by omega)
            rw [show n + (k + 1) = n + 1 + k by omega]
            exact this
        · intro hall i hi
          have := hall (i + 1) (by omega)
          rw [show n + 1 + i = n + (i + 1) by omega]
          exact this
      · intro h0
        rw [i4 h0]
        omega
      · intro j hj hv hbefore
        cases j with
        | zero => exact absurd h hv
        | succ k =>
          have hv' : status (n + 1 + k) &&& PTM_STATUS_VALID ≠ 0 := by
            rw [show n + 1 + k = n + (k + 1) by omega]; exact hv
          obtain ⟨a1, a2⟩ := i5 k (by omega) hv' (by
            intro i hi
            have := hbefore (i + 1) (by omega)
            rw [show n + 1 + i = n + (i + 1) by omega]
            exact this)
          exact ⟨a1, by rw [a2]; omega⟩
    · have e : ptm_poll status (c + 1) n = (c + 2, n + 1) := by
        simp only [ptm_poll, h, ne_eq, not_false_eq_true, if_true]
      rw [e]
      refine ⟨by show n + 1 ≤ n + (c + 1) + 1; omega, Nat.le_refl _,
        ⟨fun h1 => absurd h1 (Nat.succ_ne_zero _),
         fun hall => absurd (hall 0 (Nat.zero_le _)) h⟩,
        fun h1 => absurd h1 (Nat.succ_ne_zero _), ?_⟩
      intro j hj _ hbefore
      cases j with
      | zero => exact ⟨Nat.succ_ne_zero _, rfl⟩
      | succ k => exact absurd (hbefore 0 (by omega)) h

theorem syncdevicetime_reads (status : Nat → Nat) :
    (litepcie_phc_get_syncdevicetime status).2.count ptm_access.read_status
      = (ptm_poll status 99 0).2 := by
  unfold litepcie_phc_get_syncdevicetime
  simp only []
  split_ifs <;> simp [List.count_cons, List.count_replicate]

theorem syncdevicetime_ret (status : Nat → Nat) :
    ((ptm_poll status 99 0).1 = 0 → (litepcie_phc_get_syncdevicetime status).1 = -ETIMEDOUT) ∧
    ((ptm_poll status 99 0).1 ≠ 0 → (litepcie_phc_get_syncdevicetime status).1 = 0) := by
  unfold litepcie_phc_get_syncdevicetime
  constructor
  · intro h; simp [h]
  · intro h; simp [h]

/-- C26. Bounded hardware polling.  For every sequence of values returned by the
PTM status register, `litepcie_phc_get_syncdevicetime` returns, having read the
status register at least once and at most 100 times; it returns `-ETIMEDOUT`
exactly when none of the first 100 values has the `VALID` bit set (after 100
reads), and returns 0 exactly when one of them has: if the first value with
`VALID` is read number `n + 1` (`n < 100`, so the 100th read included), it makes
`n + 1` reads and returns 0. -/
theorem ptm_bounded_polling (status : Nat → Nat) :
    1 ≤ (litepcie_phc_get_syncdevicetime status).2.count ptm_access.read_status ∧
    (litepcie_phc_get_syncdevicetime status).2.count ptm_access.read_status ≤ 100 ∧
    ((litepcie_phc_get_syncdevicetime status).1 = -ETIMEDOUT ↔
      ∀ n, n < 100 → status n &&& PTM_STATUS_VALID = 0) ∧
    ((litepcie_phc_get_syncdevicetime status).1 = 0 ↔
      ∃ n, n < 100 ∧ status n &&& PTM_STATUS_VALID ≠ 0) ∧
    (∀ n, n < 100 → status n &&& PTM_STATUS_VALID ≠ 0 →
      (∀ i, i < n → status i &&& PTM_STATUS_VALID = 0) →
      (litepcie_phc_get_syncdevicetime status).1 = 0 ∧
      (litepcie_phc_get_syncdevicetime status).2.count ptm_access.read_status = n + 1) ∧
    ((∀ n, n < 100 → status n &&& PTM_STATUS_VALID = 0) →
      (litepcie_phc_get_syncdevicetime status).2.count ptm_access.read_status = 100) := by
  obtain ⟨p1, p2, p3, p4, p5⟩ := ptm_poll_spec status 99 0
  obtain ⟨r1, r2⟩ := syncdevicetime_ret status
  have hall : (∀ i, i ≤ 99 → status (0 + i) &&& PTM_STATUS_VALID = 0) ↔
      ∀ n, n < 100 → status n &&& PTM_STATUS_VALID = 0 := by
    constructor
    · intro h n hn
      have := h n (by omega)
      rwa [Nat.zero_add] at this
    · intro h i hi
      rw [Nat.zero_add]
      exact h i (by omega)
  have hne : (0 : Int) ≠ -ETIMEDOUT := by decide
  rw [syncdevicetime_reads]
  refine ⟨by omega, by omega, ?_, ?_, ?_, ?_⟩
  · constructor
    · intro hret
      by_cases h0 : (ptm_poll status 99 0).1 = 0
      · exact hall.mp (p3.mp h0)
      · rw [r2 h0] at hret
        exact absurd hret hne
    · intro h
      exact r1 (p3.mpr (hall.mpr h))
  · constructor
    · intro hret
      by_contra hnone
      have hinv : ∀ n, n < 100 → status n &&& PTM_STATUS_VALID = 0 := by
        intro n hn
        by_contra hv
        exact hnone ⟨n, hn, hv⟩
      rw [r1 (p3.mpr (hall.mpr hinv))] at hret
      exact hne hret.symm
    · rintro ⟨n, hn, hv⟩
      apply r2
      intro h0
      exact hv (hall.mp (p3.mp h0) n hn)
  · intro n hn hv hbefore
    obtain ⟨a1, a2⟩ := p5 n (by omega) (by rwa [Nat.zero_add])
      (by intro i hi; rw [Nat.zero_add]; exact hbefore i hi)
    exact ⟨r2 a1, by rw [a2]; omega⟩
  · intro h
    rw [p4 (p3.mpr (hall.mpr h))]

theorem ptm_bounded_polling_witness :
    (litepcie_phc_get_syncdevicetime (fun n => if n = 99 then 1 else 0)).1 = 0 ∧
    (litepcie_phc_get_syncdevicetime (fun n => if n = 99 then 1 else 0)).2.count
      ptm_access.read_status = 99 + 1 :=
  (ptm_bounded_polling (fun n => if n = 99 then 1 else 0)).2.2.2.2.1 99 (by decide) (by decide)
    (fun i hi => by
      have h : i ≠ 99 := by omega
      simp [h])

/-! ## Zero-copy mapping -/

theorem mmap_loop_ok (cfg : dma_config) (mc : mmap_config) (pa : Nat → Nat)
    (remap_fails : Nat → Bool) (vm_start : Nat) :
    ∀ (l : List Nat) (maps : List (Nat × Nat × Nat)),
      (∀ i, i ∈ l → remap_fails i = false) →
      mmap_loop cfg mc pa remap_fails vm_start l maps
        = { ret := 0
            maps := maps ++ l.map (fun i : Nat =>
              (toUInt64 ((vm_start : Int) + toInt32 ((i : Int) * cfg.DMA_BUFFER_SIZE)),
               pa i >>> mc.PAGE_SHIFT, cfg.DMA_BUFFER_SIZE)) } := by
  intro l
  induction l with
  | nil => intro maps _; simp [mmap_loop]
  | cons i rest ih =>
    intro maps h
    have hi : remap_fails i = false := h i (List.mem_cons_self _ _)
    rw [mmap_loop]
    simp only [hi, Bool.false_eq_true, if_false]
    rw [ih _ (fun k hk => h k (List.mem_cons_of_mem _ hk))]
    simp

theorem mmap_loop_fail (cfg : dma_config) (mc : mmap_config) (pa : Nat → Nat)
    (remap_fails : Nat → Bool) (vm_start : Nat) (j : Nat) (l2 : List Nat)
    (hj : remap_fails j = true) :
    ∀ (l1 : List Nat) (maps : List (Nat × Nat × Nat)),
      (∀ i, i ∈ l1 → remap_fails i = false) →
      mmap_loop cfg mc pa remap_fails vm_start (l1 ++ j :: l2) maps
        = { ret := -EAGAIN
            maps := maps ++ l1.map (fun i : Nat =>
              (toUInt64 ((vm_start : Int) + toInt32 ((i : Int) * cfg.DMA_BUFFER_SIZE)),
               pa i >>> mc.PAGE_SHIFT, cfg.DMA_BUFFER_SIZE)) } := by
  intro l1
  induction l1 with
  | nil =>
    intro maps _
    rw [List.nil_append, mmap_loop]
    simp [hj]
  | cons i rest ih =>
    intro maps h
    have hi : remap_fails i = false := h i (List.mem_cons_self _ _)
    rw [List.cons_append, mmap_loop]
    simp only [hi, Bool.false_eq_true, if_false]
    rw [ih _ (fun k hk => h k (List.mem_cons_of_mem _ hk))]
    simp

theorem mmap_loop_ret (cfg : dma_config) (mc : mmap_config) (pa : Nat → Nat)
    (remap_fails : Nat → Bool) (vm_start : Nat) :
    ∀ (l : List Nat) (maps : List (Nat × Nat × Nat)),
      (mmap_loop cfg mc pa remap_fails vm_start l maps).ret = 0 ∨
      (mmap_loop cfg mc pa remap_fails vm_start l maps).ret = -EAGAIN := by
  intro l
  induction l with
  | nil => intro maps; exact Or.inl rfl
  | cons i rest ih =>
    intro maps
    rw [mmap_loop]
    split_ifs
    · exact Or.inr rfl
    · exact ih _

theorem range_split (N j : Nat) (hj : j < N) :
    ∃ l2 : List Nat, List.range N = List.range j ++ j :: l2 := by
  obtain ⟨m, rfl⟩ : ∃ m, N = j + (m + 1) := ⟨N - j - 1, by omega⟩
  refine ⟨(List.map Nat.succ (List.range m)).map (fun x => j + x), ?_⟩
  rw [List.range_add, List.range_succ_eq_map]
  simp

theorem mmap_address (vm_start BUF i : Nat) (h1 : i * BUF < 2 ^ 31)
    (h2 : vm_start + i * BUF < 2 ^ 64) :
    toUInt64 ((vm_start : Int) + toInt32 ((i : Int) * BUF)) = vm_start + i * BUF := by
  have e1 : (i : Int) * BUF = ((i * BUF : Nat) : Int) := by push_cast; rfl
  rw [e1]
  generalize i * BUF = p at h1 h2 ⊢
  unfold toUInt64 toInt32
  omega

theorem mmap_entries (cfg : dma_config) (mc : mmap_config) (pa : Nat → Nat)
    (vm_start vm_end k : Nat) (hk : k ≤ cfg.DMA_BUFFER_COUNT)
    (hint : cfg.DMA_BUFFER_COUNT * cfg.DMA_BUFFER_SIZE < 2 ^ 31)
    (hlen : vm_start + cfg.DMA_BUFFER_COUNT * cfg.DMA_BUFFER_SIZE = vm_end)
    (hend : vm_end < 2 ^ 64) :
    (List.range k).map (fun i : Nat =>
        (toUInt64 ((vm_start : Int) + toInt32 ((i : Int) * cfg.DMA_BUFFER_SIZE)),
         pa i >>> mc.PAGE_SHIFT, cfg.DMA_BUFFER_SIZE))
      = (List.range k).map (fun i : Nat =>
        (vm_start + i * cfg.DMA_BUFFER_SIZE, pa i >>> mc.PAGE_SHIFT, cfg.DMA_BUFFER_SIZE)) := by
  apply List.map_congr_left
  intro i hi
  rw [List.mem_range] at hi
  have h1 : i * cfg.DMA_BUFFER_SIZE ≤ cfg.DMA_BUFFER_COUNT * cfg.DMA_BUFFER_SIZE :=
    Nat.mul_le_mul_right _ (by omega)
  rw [mmap_address vm_start cfg.DMA_BUFFER_SIZE i (by omega) (by omega)]

/-- C23. Zero-copy mapping validation.  With `DMA_BUFFER_TOTAL_SIZE = N * BUF_SIZE`
(an `int` constant) and a valid area (`vm_start ≤ vm_end`, 64-bit addresses):
`litepcie_mmap` returns `-EINVAL` and maps nothing whenever the length
`vm_end - vm_start` differs from `N * BUF_SIZE` or the page offset is neither 0 nor
`(N * BUF_SIZE) >> PAGE_SHIFT`, and returns `-EINVAL` in no other case.  Otherwise,
every `remap_pfn_range` succeeding, it returns 0 having mapped, for
`i = 0, ..., N-1` in order, the page frame of buffer `i` of the selected pool
(reader pool for page offset 0, writer pool otherwise) at `vm_start + i * BUF_SIZE`
with size `BUF_SIZE`; if `remap_pfn_range` fails first at buffer `j` it returns
`-EAGAIN` with buffers `0, ..., j-1` mapped.  The offsets reported by
`LITEPCIE_IOCTL_MMAP_DMA_INFO` are 0 for the reader pool and `N * BUF_SIZE` for the
writer pool. -/
theorem mmap_validation (cfg : dma_config) (mc : mmap_config) (pools : chan_pools)
    (remap_fails : Nat → Bool) (vma : vm_area_struct)
    (htotal : mc.DMA_BUFFER_TOTAL_SIZE = cfg.DMA_BUFFER_COUNT * cfg.DMA_BUFFER_SIZE)
    (hint : cfg.DMA_BUFFER_COUNT * cfg.DMA_BUFFER_SIZE < 2 ^ 31)
    (hvma : vma.vm_start ≤ vma.vm_end) (hend : vma.vm_end < 2 ^ 64) :
    ((vma.vm_end - vma.vm_start ≠ cfg.DMA_BUFFER_COUNT * cfg.DMA_BUFFER_SIZE ∨
        (vma.vm_pgoff ≠ 0 ∧
          vma.vm_pgoff ≠ (cfg.DMA_BUFFER_COUNT * cfg.DMA_BUFFER_SIZE) >>> mc.PAGE_SHIFT)) →
      litepcie_mmap cfg mc pools remap_fails vma = { ret := -EINVAL, maps := [] }) ∧
    ((litepcie_mmap cfg mc pools remap_fails vma).ret = -EINVAL →
      (vma.vm_end - vma.vm_start ≠ cfg.DMA_BUFFER_COUNT * cfg.DMA_BUFFER_SIZE ∨
        (vma.vm_pgoff ≠ 0 ∧
          vma.vm_pgoff ≠ (cfg.DMA_BUFFER_COUNT * cfg.DMA_BUFFER_SIZE) >>> mc.PAGE_SHIFT))) ∧
    (vma.vm_end - vma.vm_start = cfg.DMA_BUFFER_COUNT * cfg.DMA_BUFFER_SIZE →
      (vma.vm_pgoff = 0 ∨
        vma.vm_pgoff = (cfg.DMA_BUFFER_COUNT * cfg.DMA_BUFFER_SIZE) >>> mc.PAGE_SHIFT) →
      ((∀ i, i < cfg.DMA_BUFFER_COUNT → remap_fails i = false) →
        litepcie_mmap cfg mc pools remap_fails vma
          = { ret := 0
              maps := (List.range cfg.DMA_BUFFER_COUNT).map (fun i : Nat =>
                (vma.vm_start + i * cfg.DMA_BUFFER_SIZE,
                 (if vma.vm_pgoff = 0 then pools.reader_pa else pools.writer_pa) i
                   >>> mc.PAGE_SHIFT,
                 cfg.DMA_BUFFER_SIZE)) }) ∧
      (∀ j, j < cfg.DMA_BUFFER_COUNT → remap_fails j = true →
        (∀ i, i < j → remap_fails i = false) →
        litepcie_mmap cfg mc pools remap_fails vma
          = { ret := -EAGAIN
              maps := (List.range j).map (fun i : Nat =>
                (vma.vm_start + i * cfg.DMA_BUFFER_SIZE,
                 (if vma.vm_pgoff = 0 then pools.reader_pa else pools.writer_pa) i
                   >>> mc.PAGE_SHIFT,
                 cfg.DMA_BUFFER_SIZE)) })) ∧
    (ioctl_mmap_dma_info cfg mc).dma_tx_buf_offset = 0 ∧
    (ioctl_mmap_dma_info cfg mc).dma_rx_buf_offset
      = cfg.DMA_BUFFER_COUNT * cfg.DMA_BUFFER_SIZE := by
  have hlen : toUInt64 ((vma.vm_end : Int) - vma.vm_start) = vma.vm_end - vma.vm_start := by
    unfold toUInt64
    omega
  have hne : (0 : Int) ≠ -EINVAL ∧ -EAGAIN ≠ -EINVAL := by decide
  have hsel : ∀ (pa : Nat → Nat),
      vma.vm_end - vma.vm_start = cfg.DMA_BUFFER_COUNT * cfg.DMA_BUFFER_SIZE →
      ((∀ i, i < cfg.DMA_BUFFER_COUNT → remap_fails i = false) →
        mmap_loop cfg mc pa remap_fails vma.vm_start (List.range cfg.DMA_BUFFER_COUNT) []
          = { ret := 0
              maps := (List.range cfg.DMA_BUFFER_COUNT).map (fun i : Nat =>
                (vma.vm_start + i * cfg.DMA_BUFFER_SIZE, pa i >>> mc.PAGE_SHIFT,
                 cfg.DMA_BUFFER_SIZE)) }) ∧
      (∀ j, j < cfg.DMA_BUFFER_COUNT → remap_fails j = true →
        (∀ i, i < j → remap_fails i = false) →
        mmap_loop cfg mc pa remap_fails vma.vm_start (List.range cfg.DMA_BUFFER_COUNT) []
          = { ret := -EAGAIN
              maps := (List.range j).map (fun i : Nat =>
                (vma.vm_start + i * cfg.DMA_BUFFER_SIZE, pa i >>> mc.PAGE_SHIFT,
                 cfg.DMA_BUFFER_SIZE)) }) := by
    intro pa hl
    have hl2 : vma.vm_start + cfg.DMA_BUFFER_COUNT * cfg.DMA_BUFFER_SIZE = vma.vm_end := by
      omega
    constructor
    · intro hok
      rw [mmap_loop_ok cfg mc pa remap_fails vma.vm_start _ []
        (fun i hi => hok i (List.mem_range.mp hi)), List.nil_append,
        mmap_entries cfg mc pa vma.vm_start vma.vm_end _ (Nat.le_refl _) hint hl2 hend]
    · intro j hj hfail hbefore
      obtain ⟨l2, e⟩ := range_split cfg.DMA_BUFFER_COUNT j hj
      rw [e, mmap_loop_fail cfg mc pa remap_fails vma.vm_start j l2 hfail _ []
        (fun i hi => hbefore i (List.mem_range.mp hi)), List.nil_append,
        mmap_entries cfg mc pa vma.vm_start vma.vm_end j (by omega) hint hl2 hend]
  have hloop : vma.vm_end - vma.vm_start = cfg.DMA_BUFFER_COUNT * cfg.DMA_BUFFER_SIZE →
      (vma.vm_pgoff = 0 ∨
        vma.vm_pgoff = (cfg.DMA_BUFFER_COUNT * cfg.DMA_BUFFER_SIZE) >>> mc.PAGE_SHIFT) →
      litepcie_mmap cfg mc pools remap_fails vma
        = mmap_loop cfg mc (if vma.vm_pgoff = 0 then pools.reader_pa else pools.writer_pa)
            remap_fails vma.vm_start (List.range cfg.DMA_BUFFER_COUNT) [] := by
    intro hl hp
    unfold litepcie_mmap
    rw [hlen, htotal, if_neg (not_not.mpr hl)]
    by_cases h0 : vma.vm_pgoff = 0
    · rw [if_pos h0, if_pos h0]
    · rw [if_neg h0, if_pos (hp.resolve_left h0), if_neg h0]
  refine ⟨?_, ?_, ?_, rfl, htotal⟩
  · intro h
    unfold litepcie_mmap
    rw [hlen, htotal]
    rcases h with h | ⟨h1, h2⟩
    · rw [if_pos h]
    · by_cases hl : vma.vm_end - vma.vm_start = cfg.DMA_BUFFER_COUNT * cfg.DMA_BUFFER_SIZE
      · rw [if_neg (not_not.mpr hl), if_neg h1, if_neg h2]
      · rw [if_pos hl]
  · intro hret
    by_contra hcon
    simp only [not_or, not_and, not_not, ne_eq] at hcon
    obtain ⟨hl, hp⟩ := hcon
    have hp2 : vma.vm_pgoff = 0 ∨
        vma.vm_pgoff = (cfg.DMA_BUFFER_COUNT * cfg.DMA_BUFFER_SIZE) >>> mc.PAGE_SHIFT := by
      by_cases h0 : vma.vm_pgoff = 0
      · exact Or.inl h0
      · exact Or.inr (hp h0)
    rw [hloop hl hp2] at hret
    rcases mmap_loop_ret cfg mc (if vma.vm_pgoff = 0 then pools.reader_pa else pools.writer_pa)
      remap_fails vma.vm_start (List.range cfg.DMA_BUFFER_COUNT) [] with h | h
    · rw [h] at hret; exact hne.1 hret
    · rw [h] at hret; exact hne.2 hret
  · intro hl hp
    rw [hloop hl hp]
    exact hsel _ hl

theorem mmap_validation_witness :
    litepcie_mmap ⟨4, 8192⟩ ⟨32768, 12⟩
        ⟨fun i => 0x10000 + 0x4000 * i, fun i => 0x90000 + 0x4000 * i⟩ (fun _ => false)
        ⟨0x7f000000, 0x7f008000, 8⟩
      = { ret := 0
          maps := (List.range 4).map (fun i : Nat =>
            (0x7f000000 + i * 8192, (0x90000 + 0x4000 * i) >>> 12, 8192)) } ∧
    litepcie_mmap ⟨4, 8192⟩ ⟨32768, 12⟩
        ⟨fun i => 0x10000 + 0x4000 * i, fun i => 0x90000 + 0x4000 * i⟩ (fun _ => false)
        ⟨0x7f000000, 0x7f008000, 3⟩
      = { ret := -EINVAL, maps := [] } :=
  ⟨((mmap_validation ⟨4, 8192⟩ ⟨32768, 12⟩
      ⟨fun i => 0x10000 + 0x4000 * i, fun i => 0x90000 + 0x4000 * i⟩ (fun _ => false)
      ⟨0x7f000000, 0x7f008000, 8⟩ (by decide) (by decide) (by decide) (by decide)).2.2.1
      (by decide) (by decide)).1 (fun _ _ => rfl),
   (mmap_validation ⟨4, 8192⟩ ⟨32768, 12⟩
      ⟨fun i => 0x10000 + 0x4000 * i, fun i => 0x90000 + 0x4000 * i⟩ (fun _ => false)
      ⟨0x7f000000, 0x7f008000, 3⟩ (by decide) (by decide) (by decide) (by decide)).1
      (Or.inr (by decide))⟩

/-! ## Interrupt dispatch -/

theorem irq_bit_pow (n : Nat) (hn : n < 32) : irq_bit n = 2 ^ n := by
  unfold irq_bit
  interval_cases n <;> decide

theorem and_pow_ne_zero (v n : Nat) : v &&& 2 ^ n ≠ 0 ↔ v.testBit n = true := by
  rw [Nat.and_two_pow]
  cases v.testBit n with
  | true => simp
  | false => simp

theorem interrupt_chan_spec (cfg : dma_config) (v : Nat) (c : irq_chan) (m : Nat)
    (hr : c.irqs.reader_interrupt < 32) (hw : c.irqs.writer_interrupt < 32) :
    interrupt_chan cfg v c m
      = (dispatched cfg v c,
         (m ||| (if v.testBit c.irqs.reader_interrupt then 2 ^ c.irqs.reader_interrupt else 0))
           ||| (if v.testBit c.irqs.writer_interrupt then 2 ^ c.irqs.writer_interrupt else 0)) := by
  unfold interrupt_chan dispatched
  rw [irq_bit_pow _ hr, irq_bit_pow _ hw]
  by_cases h1 : v.testBit c.irqs.reader_interrupt = true <;>
    by_cases h2 : v.testBit c.irqs.writer_interrupt = true <;>
    simp [and_pow_ne_zero, h1, h2]

theorem interrupt_loop_spec (cfg : dma_config) (v : Nat) :
    ∀ (chans : List irq_chan) (m : Nat),
      (∀ c, c ∈ chans → c.irqs.reader_interrupt < 32 ∧ c.irqs.writer_interrupt < 32) →
      (interrupt_loop cfg v chans m).1 = chans.map (dispatched cfg v) ∧
      ∀ b : Nat, (interrupt_loop cfg v chans m).2.testBit b = true ↔
        (m.testBit b = true ∨
          ∃ c, c ∈ chans ∧
            (c.irqs.reader_interrupt = b ∨ c.irqs.writer_interrupt = b) ∧
            v.testBit b = true) := by
  intro chans
  induction chans with
  | nil =>
    intro m _
    refine ⟨rfl, fun b => ?_⟩
    simp [interrupt_loop]
  | cons c rest ih =>
    intro m h
    obtain ⟨hr, hw⟩ := h c (List.mem_cons_self _ _)
    obtain ⟨e1, e2⟩ := ih (interrupt_chan cfg v c m).2
      (fun k hk => h k (List.mem_cons_of_mem _ hk))
    have hs := interrupt_chan_spec cfg v c m hr hw
    rw [hs] at e1 e2
    refine ⟨?_, fun b => ?_⟩
    · simp only [interrupt_loop, hs, e1, List.map_cons]
    · simp only [interrupt_loop, hs]
      rw [e2 b]
      simp only [Nat.testBit_or, Bool.or_eq_true]
      have hbit : ∀ (n : Nat), ((if v.testBit n = true then 2 ^ n else 0 : Nat).testBit b = true)
          ↔ (n = b ∧ v.testBit b = true) := by
        intro n
        by_cases hv : v.testBit n = true
        · simp only [hv, if_true, Nat.testBit_two_pow, decide_eq_true_eq]
          constructor
          · intro e; subst e; exact ⟨rfl, hv⟩
          · intro e; exact e.1
        · simp only [hv, Bool.false_eq_true, if_false, Nat.zero_testBit, false_iff, not_and]
          intro e; subst e; exact hv
      rw [hbit, hbit]
      constructor
      · rintro (((h1 | ⟨h1, h2⟩) | ⟨h1, h2⟩) | ⟨k, hk, h1, h2⟩)
        · exact Or.inl h1
        · exact Or.inr ⟨c, List.mem_cons_self _ _, Or.inl h1, h2⟩
        · exact Or.inr ⟨c, List.mem_cons_self _ _, Or.inr h1, h2⟩
        · exact Or.inr ⟨k, List.mem_cons_of_mem _ hk, h1, h2⟩
      · rintro (h1 | ⟨k, hk, h1, h2⟩)
        · exact Or.inl (Or.inl (Or.inl h1))
        · rcases List.mem_cons.mp hk with hk | hk
          · subst hk
            rcases h1 with h1 | h1
            · exact Or.inl (Or.inl (Or.inr ⟨h1, h2⟩))
            · exact Or.inl (Or.inr ⟨h1, h2⟩)
          · exact Or.inr ⟨k, hk, h1, h2⟩

theorem dispatched_frame (cfg : dma_config) (v : Nat) (c : irq_chan) :
    (dispatched cfg v c).irqs = c.irqs ∧
    ((dispatched cfg v c).chan.reader_hw_count, (dispatched cfg v c).chan.reader_hw_count_last)
      = (if v.testBit c.irqs.reader_interrupt
          then reconcile cfg.DMA_BUFFER_COUNT c.chan.reader_hw_count
            c.chan.reader_hw_count_last c.reader_loop_status
          else (c.chan.reader_hw_count, c.chan.reader_hw_count_last)) ∧
    ((dispatched cfg v c).chan.writer_hw_count, (dispatched cfg v c).chan.writer_hw_count_last)
      = (if v.testBit c.irqs.writer_interrupt
          then reconcile cfg.DMA_BUFFER_COUNT c.chan.writer_hw_count
            c.chan.writer_hw_count_last c.writer_loop_status
          else (c.chan.writer_hw_count, c.chan.writer_hw_count_last)) ∧
    (dispatched cfg v c).chan.reader_sw_count = c.chan.reader_sw_count ∧
    (dispatched cfg v c).chan.writer_sw_count = c.chan.writer_sw_count ∧
    (dispatched cfg v c).chan.reader_lock = c.chan.reader_lock ∧
    (dispatched cfg v c).chan.writer_lock = c.chan.writer_lock ∧
    (dispatched cfg v c).chan.reader_enable = c.chan.reader_enable ∧
    (dispatched cfg v c).chan.writer_enable = c.chan.writer_enable := by
  unfold dispatched irq_reader irq_writer
  by_cases h1 : v.testBit c.irqs.reader_interrupt = true <;>
    by_cases h2 : v.testBit c.irqs.writer_interrupt = true <;>
    simp [h1, h2]

/-- C25. Interrupt dispatch frame.  For any interrupt vector and enable mask, with
`v = vector & enable`, the handler leaves every channel as `dispatched` describes:
the reader direction of a channel is reconciled with its loop status exactly when
bit `reader_interrupt` of `v` is set, the writer direction exactly when bit
`writer_interrupt` of `v` is set; the hardware counts of the other directions and
every software count, lock flag and enable flag are unchanged; and bit `b` of the
computed clear mask is set exactly when `b` is the interrupt number of a direction
that was reconciled.  Interrupt numbers are bit positions of the 32-bit vector. -/
theorem interrupt_dispatch_frame (cfg : dma_config) (irq_vector irq_enable : Nat)
    (chans : List irq_chan)
    (hirq : ∀ c, c ∈ chans → c.irqs.reader_interrupt < 32 ∧ c.irqs.writer_interrupt < 32) :
    (litepcie_interrupt_dispatch cfg irq_vector irq_enable chans).1
      = chans.map (dispatched cfg (irq_vector &&& irq_enable)) ∧
    (∀ c : irq_chan,
      ((dispatched cfg (irq_vector &&& irq_enable) c).chan.reader_hw_count,
        (dispatched cfg (irq_vector &&& irq_enable) c).chan.reader_hw_count_last)
        = (if (irq_vector &&& irq_enable).testBit c.irqs.reader_interrupt
            then reconcile cfg.DMA_BUFFER_COUNT c.chan.reader_hw_count
              c.chan.reader_hw_count_last c.reader_loop_status
            else (c.chan.reader_hw_count, c.chan.reader_hw_count_last)) ∧
      ((dispatched cfg (irq_vector &&& irq_enable) c).chan.writer_hw_count,
        (dispatched cfg (irq_vector &&& irq_enable) c).chan.writer_hw_count_last)
        = (if (irq_vector &&& irq_enable).testBit c.irqs.writer_interrupt
            then reconcile cfg.DMA_BUFFER_COUNT c.chan.writer_hw_count
              c.chan.writer_hw_count_last c.writer_loop_status
            else (c.chan.writer_hw_count, c.chan.writer_hw_count_last)) ∧
      (dispatched cfg (irq_vector &&& irq_enable) c).chan.reader_sw_count
        = c.chan.reader_sw_count ∧
      (dispatched cfg (irq_vector &&& irq_enable) c).chan.writer_sw_count
        = c.chan.writer_sw_count ∧
      (dispatched cfg (irq_vector &&& irq_enable) c).chan.reader_lock = c.chan.reader_lock ∧
      (dispatched cfg (irq_vector &&& irq_enable) c).chan.writer_lock = c.chan.writer_lock ∧
      (dispatched cfg (irq_vector &&& irq_enable) c).chan.reader_enable
        = c.chan.reader_enable ∧
      (dispatched cfg (irq_vector &&& irq_enable) c).chan.writer_enable
        = c.chan.writer_enable) ∧
    (∀ b : Nat,
      (litepcie_interrupt_dispatch cfg irq_vector irq_enable chans).2.testBit b = true ↔
        ∃ c, c ∈ chans ∧
          (c.irqs.reader_interrupt = b ∨ c.irqs.writer_interrupt = b) ∧
          (irq_vector &&& irq_enable).testBit b = true) ∧
    (∀ (irq irqs : Nat) (pci_irq_vector : Nat → Nat),
      litepcie_interrupt cfg irq irqs pci_irq_vector irq_enable chans
        = litepcie_interrupt_dispatch cfg (msix_irq_vector irq irqs pci_irq_vector)
            irq_enable chans) := by
  obtain ⟨e1, e2⟩ := interrupt_loop_spec cfg (irq_vector &&& irq_enable) chans 0 hirq
  refine ⟨e1, fun c => (dispatched_frame cfg _ c).2, fun b => ?_, fun _ _ _ => rfl⟩
  unfold litepcie_interrupt_dispatch
  rw [e2 b]
  simp

theorem interrupt_dispatch_frame_witness :
    (litepcie_interrupt_dispatch ⟨16, 8192⟩ 0b1011 0b0111
        [⟨⟨1, 0⟩, chan_reset, status_word 3 0, status_word 5 0⟩,
         ⟨⟨3, 2⟩, chan_reset, status_word 7 0, status_word 9 0⟩]).1
      = [⟨⟨1, 0⟩, chan_reset, status_word 3 0, status_word 5 0⟩,
         ⟨⟨3, 2⟩, chan_reset, status_word 7 0, status_word 9 0⟩].map
          (dispatched ⟨16, 8192⟩ (0b1011 &&& 0b0111)) :=
  (interrupt_dispatch_frame ⟨16, 8192⟩ 0b1011 0b0111
    [⟨⟨1, 0⟩, chan_reset, status_word 3 0, status_word 5 0⟩,
     ⟨⟨3, 2⟩, chan_reset, status_word 7 0, status_word 9 0⟩] (by decide)).1

/-! ## Writer direction: the consumer does not overtake the producer -/

end LitePCIe
